import Mathlib

/-!
# util::variant — a shallow embedding of `include/variant.hpp`

The header is template code: the alternative list `Args...` is a compile-time
list of types and the run-time state of a `variant<Args...>` is the pair
`index_`, `hash_` plus the raw `buffer_`.

* Types are modelled by `Ty`; `std::is_same` is equality on `Ty`, and
  `std::is_convertible`, `typeid(..).hash_code()` and the behaviour of the
  alternatives' copy/move/converting constructors are parameters collected in
  `Alternatives`.
* Objects live in a `World`: a store from locations to variant states together
  with a log of the element constructions and destructions that were run.
* An operation that may throw returns a `Step`: the world it leaves behind and
  the exception in flight, if any.
-/

set_option autoImplicit false

namespace util

/-- C++ types as the templates see them: an object type `U`, or the lvalue
reference `U&` that a forwarding reference `T&&` deduces for a named value. -/
inductive Ty where
  | obj (id : Nat)
  | lref (id : Nat)
  deriving DecidableEq, Repr

/-- The exceptions that can be in flight. `element` is whatever an
alternative's own constructor throws (for instance `std::bad_alloc`). -/
inductive Exn where
  | bad_get
  | runtime_error
  | element
  deriving DecidableEq, Repr

/-- `static constexpr std::size_t variant_npos = -1;` -/
def variant_npos : Nat := 2 ^ 64 - 1

/-- What the code is told about the alternatives: the list itself and the
library/type facts the templates query or the element operations perform. -/
structure Alternatives where
  /-- the pack `Args...` -/
  Args : List Ty
  /-- `std::is_convertible<From, To>::value` -/
  is_convertible : Ty → Ty → Bool
  /-- `typeid(T).hash_code()` -/
  hash_code : Ty → Nat
  /-- the copy constructor of the alternative throws on this value -/
  copy_raises : Ty → Nat → Bool
  /-- the move constructor of the alternative throws on this value -/
  move_raises : Ty → Nat → Bool
  /-- the state a value of the alternative is left in after being moved from -/
  moved_from : Ty → Nat → Nat
  /-- the value built by the converting constructor `To{from}` -/
  convert : Ty → Ty → Nat → Nat
  /-- the converting constructor `To{from}` throws on this value -/
  convert_raises : Ty → Ty → Nat → Bool

namespace details

/-- `find_max<arg1, others...>::value` with the first template argument held
apart: against the next argument `arg2` the recursion keeps `arg1` when
`arg1 >= arg2` and continues with `arg2` otherwise; a single argument is the
value. -/
def find_max_from (arg1 : Nat) : List Nat → Nat
  | [] => arg1
  | arg2 :: others =>
      if arg1 ≥ arg2 then find_max_from arg1 others else find_max_from arg2 others

/-- `find_max<args...>::value`; the primary template is only declared, so the
empty pack has no value. -/
def find_max : List Nat → Option Nat
  | [] => none
  | arg1 :: others => some (find_max_from arg1 others)

/-- `get_index<i, Type1, Types...>::value`. -/
def get_index (i : Nat) (Type1 : Ty) : List Ty → Nat
  | [] => variant_npos
  | Type2 :: Types => if Type1 = Type2 then i else get_index (i + 1) Type1 Types

/-- `get_conv_index<i, Type1, Types...>::value`. -/
def get_conv_index (is_convertible : Ty → Ty → Bool) (i : Nat) (Type1 : Ty) : List Ty → Nat
  | [] => variant_npos
  | Type2 :: Types =>
      if is_convertible Type1 Type2 then i
      else get_conv_index is_convertible (i + 1) Type1 Types

/-- `get_index_v<Type, Types...>`: the fold `(std::is_same_v<Type, Types> || ...)`
chooses between the exact and the conversion search. -/
def get_index_v (is_convertible : Ty → Ty → Bool) (Type_ : Ty) (Types : List Ty) : Nat :=
  if Types.any (fun t => decide (Type_ = t)) then get_index 0 Type_ Types
  else get_conv_index is_convertible 0 Type_ Types

/-- `get_type<index, Types...>::type`; `none` when the instantiation is
ill-formed (the pack runs out: no member `type`). -/
def get_type : Nat → List Ty → Option Ty
  | _, [] => none
  | 0, Type_ :: _ => some Type_
  | index + 1, _ :: Types => get_type index Types

end details

/-- Where a variant object lives: a caller's named object, or one of the
temporaries the operations create (`tmp` in `operator=` is `temp 0`, the
`tmp` inside `std::swap` is `temp 1`). -/
inductive Loc where
  | named (n : Nat)
  | temp (n : Nat)
  deriving DecidableEq, Repr

/-- The data members of `variant<Args...>`: `index_`, `hash_` and the content of
`buffer_` read as a value of whatever alternative is placed there. -/
structure variant where
  index_ : Nat
  hash_ : Nat
  buffer_ : Nat
  deriving DecidableEq, Repr

/-- Element lifetime events: a placement-new of an alternative into the buffer
of the variant at a location, and a destructor call on it. -/
inductive Event where
  | constructed (loc : Loc) (ty : Ty)
  | destroyed (loc : Loc) (ty : Ty)
  deriving DecidableEq, Repr

/-- The store of variant objects and the log of element lifetime events. -/
structure World where
  objs : Loc → variant
  log : List Event

/-- The state after a call: the world and the exception in flight, if any. -/
structure Step where
  world : World
  raised : Option Exn

/-- A non-null `Type*` into a variant: the variant whose `buffer_` it
addresses and the type it was `reinterpret_cast` to. -/
structure Ptr where
  target : Loc
  as_type : Ty
  deriving DecidableEq, Repr

/-- Result of a reference-returning `get`: a reference, a thrown exception, or
the dereference of a null pointer (undefined behaviour, nothing is thrown). -/
inductive Access where
  | ref (p : Ptr)
  | raised (e : Exn)
  | null_deref
  deriving DecidableEq, Repr

/-- The three overloads of each reference-returning `get`. -/
inductive RefForm where
  | const_lvalue
  | lvalue
  | rvalue
  deriving DecidableEq, Repr

namespace World

/-- Store a variant state at a location. -/
def set (w : World) (l : Loc) (v : variant) : World :=
  { w with objs := Function.update w.objs l v }

/-- Append a lifetime event. -/
def logged (w : World) (e : Event) : World :=
  { w with log := w.log ++ [e] }

end World

/-- `variant::empty()`. -/
def variant.empty (v : variant) : Bool := decide (v.index_ = variant_npos)

/-- `variant::index()`. -/
def variant.index (v : variant) : Nat := v.index_

/-- `variant::hash_type()`. -/
def variant.hash_type (v : variant) : Nat := v.hash_

namespace details

/-- `destroy<Types...>(index, element)`: walks the pack and runs the destructor
of the alternative it stops at; the one-type overload ignores `index`. -/
def destroy : List Ty → Nat → Loc → World → World
  | [], _, _, w => w
  | [Type_], _, element, w => w.logged (.destroyed element Type_)
  | Type1 :: _ :: _, 0, element, w => w.logged (.destroyed element Type1)
  | _ :: Type2 :: Types, index + 1, element, w => destroy (Type2 :: Types) index element w

/-- The placement-new at the end of `create`: `new (to) Type(*from)` when
`Copy`, `new (to) Type(std::move(*from))` otherwise. A copy leaves the source
as it is, a move leaves it in its moved-from state. -/
def construct (env : Alternatives) (Copy : Bool) (Type_ : Ty) (to_ from_ : Loc)
    (w : World) : Step :=
  let x := (w.objs from_).buffer_
  if Copy then
    if env.copy_raises Type_ x then ⟨w, some .element⟩
    else
      ⟨(w.set to_ { w.objs to_ with buffer_ := x }).logged (.constructed to_ Type_), none⟩
  else
    if env.move_raises Type_ x then ⟨w, some .element⟩
    else
      let w1 := w.set from_ { w.objs from_ with buffer_ := env.moved_from Type_ x }
      ⟨(w1.set to_ { w1.objs to_ with buffer_ := x }).logged (.constructed to_ Type_), none⟩

/-- `create<Copy, Types...>(index, to, from)`. -/
def create (env : Alternatives) (Copy : Bool) : List Ty → Nat → Loc → Loc → World → Step
  | [], _, _, _, w => ⟨w, some .runtime_error⟩
  | [Type_], index, to_, from_, w =>
      if index ≠ 0 then ⟨w, some .runtime_error⟩
      else construct env Copy Type_ to_ from_ w
  | Type1 :: _ :: _, 0, to_, from_, w => construct env Copy Type1 to_ from_ w
  | _ :: Type2 :: Types, index + 1, to_, from_, w =>
      create env Copy (Type2 :: Types) index to_ from_ w

end details

/-- `variant::clear()`. -/
def clear (env : Alternatives) (w : World) (this : Loc) : World :=
  if (w.objs this).index_ ≠ variant_npos then
    let w1 := details.destroy env.Args (w.objs this).index_ this w
    w1.set this { w1.objs this with index_ := variant_npos, hash_ := variant_npos }
  else w

/-- `variant::~variant()`. -/
def dtor (env : Alternatives) (w : World) (this : Loc) : World :=
  if !(w.objs this).empty then clear env w this else w

/-- `variant::variant()`: the object at `this` starts empty with a zeroed buffer. -/
def default_ctor (w : World) (this : Loc) : World :=
  w.set this ⟨variant_npos, variant_npos, 0⟩

/-- The element construction `new (buffer_) To{std::forward<T>(value)}` of the
converting constructor: the move constructor for an rvalue of the same type,
the copy constructor for an lvalue of the same type, a conversion otherwise.
`none` when it throws. -/
def construct_from (env : Alternatives) (T To : Ty) (value : Nat) : Option Nat :=
  match T, To with
  | .obj u, .obj t =>
      if u = t then (if env.move_raises To value then none else some value)
      else (if env.convert_raises T To value then none else some (env.convert T To value))
  | .lref u, .obj t =>
      if u = t then (if env.copy_raises To value then none else some value)
      else (if env.convert_raises T To value then none else some (env.convert T To value))
  | _, _ =>
      if env.convert_raises T To value then none else some (env.convert T To value)

/-- The `static_assert` of `variant::variant(T&&)`. -/
def ctor_static_assert (env : Alternatives) (T : Ty) : Bool :=
  env.Args.any (fun a => decide (T = a)) || env.Args.any (fun a => env.is_convertible T a)

/-- `variant::variant(T&& value)` with `T` as deduced; `none` when the
instantiation is rejected (the `static_assert` fails or `get_type` has no
member `type`). The members have their default initialisers when the body
starts. -/
def value_ctor (env : Alternatives) (w : World) (this : Loc) (T : Ty) (value : Nat) :
    Option Step :=
  if ctor_static_assert env T then
    let index := details.get_index_v env.is_convertible T env.Args
    match details.get_type index env.Args with
    | none => none
    | some type =>
        let w0 := w.set this ⟨variant_npos, variant_npos, 0⟩
        match construct_from env T type value with
        | none => some ⟨w0, some .element⟩
        | some x =>
            some ⟨(w0.set this ⟨index, env.hash_code type, x⟩).logged (.constructed this type),
              none⟩
  else none

/-- `variant::variant(const variant& other)`. -/
def copy_ctor (env : Alternatives) (w : World) (this other : Loc) : Step :=
  let w1 := w.set this ⟨(w.objs other).index_, (w.objs other).hash_, 0⟩
  if !(w1.objs this).empty then
    details.create env true env.Args (w1.objs this).index_ this other w1
  else ⟨w1, none⟩

/-- `variant::variant(variant&& other)`. -/
def move_ctor (env : Alternatives) (w : World) (this other : Loc) : Step :=
  let w1 := w.set this ⟨(w.objs other).index_, (w.objs other).hash_, 0⟩
  if !(w1.objs this).empty then
    details.create env false env.Args (w1.objs this).index_ this other w1
  else ⟨w1, none⟩

/-- `variant::operator=(variant&& other)`. -/
def move_assign (env : Alternatives) (w : World) (this other : Loc) : Step :=
  if this = other then ⟨w, none⟩
  else
    let w1 := if !(w.objs this).empty then clear env w this else w
    if !(w1.objs other).empty then
      let s := details.create env false env.Args (w1.objs other).index_ this other w1
      match s.raised with
      | some e => ⟨s.world, some e⟩
      | none =>
          let w2 := s.world
          ⟨w2.set this { w2.objs this with
              index_ := (w2.objs other).index_, hash_ := (w2.objs other).hash_ }, none⟩
    else ⟨w1, none⟩

/-- `std::swap(a, b)` of the standard library on two variants:
`variant tmp(std::move(a)); a = std::move(b); b = std::move(tmp);`, with `tmp`
destroyed when its scope is left, also by an exception. -/
def std_swap (env : Alternatives) (w : World) (a b : Loc) : Step :=
  let tmp := Loc.temp 1
  let s1 := move_ctor env w tmp a
  match s1.raised with
  | some e => ⟨s1.world, some e⟩
  | none =>
      let s2 := move_assign env s1.world a b
      match s2.raised with
      | some e => ⟨dtor env s2.world tmp, some e⟩
      | none =>
          let s3 := move_assign env s2.world b tmp
          ⟨dtor env s3.world tmp, s3.raised⟩

/-- `variant::swap(variant& other)`. -/
def variant_swap (env : Alternatives) (w : World) (this other : Loc) : Step :=
  if (w.objs this).empty && (w.objs other).empty then ⟨w, none⟩
  else if (w.objs other).empty then
    let s := move_assign env w other this
    match s.raised with
    | some e => ⟨s.world, some e⟩
    | none => ⟨clear env s.world this, none⟩
  else if (w.objs this).empty then
    let s := move_assign env w this other
    match s.raised with
    | some e => ⟨s.world, some e⟩
    | none => ⟨clear env s.world other, none⟩
  else std_swap env w this other

/-- `util::swap(lhs, rhs)`. -/
def swap (env : Alternatives) (w : World) (lhs rhs : Loc) : Step :=
  variant_swap env w lhs rhs

/-- `variant::operator=(const variant& other)`: `tmp` is destroyed when the
`try` block is left, normally or by the rethrown exception. -/
def copy_assign (env : Alternatives) (w : World) (this other : Loc) : Step :=
  if this = other then ⟨w, none⟩
  else
    let tmp := Loc.temp 0
    let s1 := copy_ctor env w tmp other
    match s1.raised with
    | some e => ⟨s1.world, some e⟩
    | none =>
        let s2 := variant_swap env s1.world this tmp
        ⟨dtor env s2.world tmp, s2.raised⟩

/-- `variant::operator=(Type&& object)`; `none` when constructing `tmp` is
rejected at instantiation. -/
def value_assign (env : Alternatives) (w : World) (this : Loc) (T : Ty) (object : Nat) :
    Option Step :=
  let tmp := Loc.temp 0
  match value_ctor env w tmp T object with
  | none => none
  | some s1 =>
      match s1.raised with
      | some e => some ⟨s1.world, some e⟩
      | none =>
          let s2 := move_assign env s1.world this tmp
          some ⟨dtor env s2.world tmp, s2.raised⟩

/-- `get<Type>(const variant<Types...>* object)`, and the non-const overload
that forwards to it. -/
def get_ptr_by_type (env : Alternatives) (w : World) (Type_ : Ty) (object : Option Loc) :
    Option Ptr :=
  match object with
  | none => none
  | some l =>
      if !(w.objs l).empty && decide ((w.objs l).index ≠ variant_npos) &&
          decide ((w.objs l).index = details.get_index_v env.is_convertible Type_ env.Args)
      then some ⟨l, Type_⟩
      else none

/-- `get<Type>(const variant&)`, `get<Type>(variant&)`, `get<Type>(variant&&)`. -/
def get_ref_by_type (env : Alternatives) (w : World) (Type_ : Ty) (form : RefForm)
    (object : Loc) : Access :=
  match form with
  | .const_lvalue =>
      match get_ptr_by_type env w Type_ (some object) with
      | some ptr => .ref ptr
      | none => .raised .bad_get
  | .lvalue =>
      match get_ptr_by_type env w Type_ (some object) with
      | some ptr => .ref ptr
      | none => .raised .bad_get
  | .rvalue =>
      match get_ptr_by_type env w Type_ (some object) with
      | some ptr => .ref ptr
      | none => .raised .bad_get

/-- `get<index>(const variant*)` and `get<index>(variant*)`; the outer `none`
is an ill-formed instantiation (`get_type<index, Types...>::type` missing). -/
def get_ptr_by_index (env : Alternatives) (w : World) (index : Nat) (object : Option Loc) :
    Option (Option Ptr) :=
  match details.get_type index env.Args with
  | none => none
  | some type =>
      match object with
      | none => some none
      | some l =>
          if (w.objs l).empty || decide (index > env.Args.length) then some none
          else some (get_ptr_by_type env w type (some l))

/-- `get<index>(const variant&)`, `get<index>(variant&)`, `get<index>(variant&&)`:
the pointer that comes back is dereferenced without a null check. -/
def get_ref_by_index (env : Alternatives) (w : World) (index : Nat) (form : RefForm)
    (object : Loc) : Option Access :=
  match details.get_type index env.Args with
  | none => none
  | some _ =>
      let deref : Option (Option Ptr) → Access := fun r =>
        match r with
        | some (some p) => .ref p
        | _ => .null_deref
      match form with
      | .const_lvalue =>
          if (w.objs object).empty || decide (index > env.Args.length) then
            some (.raised .bad_get)
          else some (deref (get_ptr_by_index env w index (some object)))
      | .lvalue =>
          if (w.objs object).empty || decide (index > env.Args.length) then
            some (.raised .bad_get)
          else some (deref (get_ptr_by_index env w index (some object)))
      | .rvalue =>
          if (w.objs object).empty || decide (index > env.Args.length) then
            some (.raised .bad_get)
          else some (deref (get_ptr_by_index env w index (some object)))

/-- The template argument a forwarding reference `T&&` deduces: `U` for a
temporary of type `U`, `U&` for a named value of type `U`. -/
def deduce (temporary : Bool) (U : Nat) : Ty :=
  if temporary then .obj U else .lref U

/-- The value a pointer handed out by `get` reads. -/
def World.read (w : World) (p : Ptr) : Nat := (w.objs p.target).buffer_

end util

/-! ## Concrete alternative lists used for evaluating the code -/

namespace util

/-- An empty store: every object is (still) an empty variant, nothing logged. -/
def blank : World := ⟨fun _ => ⟨variant_npos, variant_npos, 0⟩, []⟩

/-- The alternatives of `variant<int, std::string>`: `int` is type 0, `std::string`
type 1; `short` is type 2 (convertible to `int`), and a string literal is an
lvalue of type 3 (`const char[6]`, convertible to `std::string`). A moved-from
`std::string` is empty (value 0), a moved-from `int` keeps its value. -/
def int_string : Alternatives where
  Args := [.obj 0, .obj 1]
  is_convertible := fun f t =>
    match f, t with
    | .obj 0, .obj 0 => true
    | .lref 0, .obj 0 => true
    | .obj 1, .obj 1 => true
    | .lref 1, .obj 1 => true
    | .obj 2, .obj 0 => true
    | .lref 2, .obj 0 => true
    | .lref 3, .obj 1 => true
    | _, _ => false
  hash_code := fun t => match t with | .obj n => 1000 + n | .lref n => 2000 + n
  copy_raises := fun _ _ => false
  move_raises := fun _ _ => false
  moved_from := fun t v => if t = .obj 1 then 0 else v
  convert := fun _ _ v => v
  convert_raises := fun _ _ _ => false

/-- The alternatives of `variant<A, B>` with `struct B : A`: `A` is type 0, `B`
type 1, and a `B` converts to an `A`. -/
def base_derived : Alternatives where
  Args := [.obj 0, .obj 1]
  is_convertible := fun f t =>
    match f, t with
    | .obj 0, .obj 0 => true
    | .lref 0, .obj 0 => true
    | .obj 1, .obj 1 => true
    | .lref 1, .obj 1 => true
    | .obj 1, .obj 0 => true
    | .lref 1, .obj 0 => true
    | _, _ => false
  hash_code := fun t => match t with | .obj n => 1000 + n | .lref n => 2000 + n
  copy_raises := fun _ _ => false
  move_raises := fun _ _ => false
  moved_from := fun _ v => v
  convert := fun _ _ v => v
  convert_raises := fun _ _ _ => false

/-- The alternatives of `variant<int, int>`: the same type twice. -/
def int_int : Alternatives where
  Args := [.obj 0, .obj 0]
  is_convertible := fun f t =>
    match f, t with
    | .obj 0, .obj 0 => true
    | .lref 0, .obj 0 => true
    | _, _ => false
  hash_code := fun t => match t with | .obj n => 1000 + n | .lref n => 2000 + n
  copy_raises := fun _ _ => false
  move_raises := fun _ _ => false
  moved_from := fun _ v => v
  convert := fun _ _ v => v
  convert_raises := fun _ _ _ => false

/-- The alternatives of `variant<long, double>`: `long` is type 0, `double`
type 1, and `int` (type 2, not an alternative) converts to both. -/
def long_double : Alternatives where
  Args := [.obj 0, .obj 1]
  is_convertible := fun f t =>
    match f, t with
    | .obj 0, .obj 0 => true
    | .lref 0, .obj 0 => true
    | .obj 1, .obj 1 => true
    | .lref 1, .obj 1 => true
    | .obj 2, .obj 0 => true
    | .obj 2, .obj 1 => true
    | .lref 2, .obj 0 => true
    | .lref 2, .obj 1 => true
    | _, _ => false
  hash_code := fun t => match t with | .obj n => 1000 + n | .lref n => 2000 + n
  copy_raises := fun _ _ => false
  move_raises := fun _ _ => false
  moved_from := fun _ v => v
  convert := fun _ _ v => v
  convert_raises := fun _ _ _ => false

/-- The world after running a construction that was accepted; a rejected
construction leaves the world as it was. -/
def after (s : Option Step) (w : World) : World :=
  match s with
  | some r => r.world
  | none => w

/-- `variant<int, std::string> a(3);` with `a` the object `named 0`. -/
def holds_three : World := after (value_ctor int_string blank (.named 0) (.obj 0) 3) blank

/-- `variant<int, std::string> a(3); a = "Hello";` (the literal is value 7). -/
def holds_hello : World :=
  after (value_assign int_string holds_three (.named 0) (.lref 3) 7) holds_three

/-- `variant<int, int> a(3);` with `a` the object `named 0`. -/
def int_int_three : World := after (value_ctor int_int blank (.named 0) (.obj 0) 3) blank

/-- `B b; variant<A, B> x(b);`: built from a named `B` (value 5). -/
def from_named_b : World :=
  after (value_ctor base_derived blank (.named 0) (deduce false 1) 5) blank

/-- `variant<A, B> x(B());`: built from a temporary `B` (value 5). -/
def from_temporary_b : World :=
  after (value_ctor base_derived blank (.named 0) (deduce true 1) 5) blank

end util

/-! ## Properties the statements below are about -/

namespace util

/-- A variant state over a list of `n` alternatives: empty, or with a
discriminant that is a position of the list. -/
def variant.in_range (v : variant) (n : Nat) : Prop :=
  v.index_ = variant_npos ∨ v.index_ < n

/-- The state `v2` has received the state `v`: the same discriminant and, when
`v` is non-empty, the same type token and the same value in the buffer. -/
def received (v2 v : variant) : Prop :=
  v2.index_ = v.index_ ∧ (v.index_ ≠ variant_npos → v2.hash_ = v.hash_ ∧ v2.buffer_ = v.buffer_)

/-- The value `get<Type>(v)` yields for the variant at `l`, when it yields one. -/
def get_value (env : Alternatives) (w : World) (Type_ : Ty) (form : RefForm) (l : Loc) :
    Option Nat :=
  match get_ref_by_type env w Type_ form l with
  | .ref p => some (w.read p)
  | _ => none

/-- In world `w2` the variant at `b` is a copy of what the variant at `a` was
in world `w`: same `index()`, empty if `a` was, `get<T>(b)` yields every value
`get<T>(a)` yielded, and `a` itself is as it was. -/
def copy_of (env : Alternatives) (w w2 : World) (a b : Loc) : Prop :=
  (w2.objs b).index = (w.objs a).index ∧
  ((w.objs a).empty = true → (w2.objs b).empty = true) ∧
  (∀ T form x, get_value env w T form a = some x → get_value env w2 T form b = some x) ∧
  w2.objs a = w.objs a

/-- In world `w2` the variant at `b` has been moved into from what the variant
at `a` was in world `w`: `b` has the discriminant of `a` and `get<T>(b)` yields
what `get<T>(a)` yielded; `a` keeps its discriminant, is empty only if it was,
and `get<T>(a)` does not throw `bad_get`; if `a` was empty `b` is empty. -/
def moved_into (env : Alternatives) (w w2 : World) (a b : Loc) : Prop :=
  (w2.objs b).index = (w.objs a).index ∧
  (∀ T form x, get_value env w T form a = some x →
    get_value env w2 T form b = some x ∧
    get_ref_by_type env w2 T form a ≠ .raised .bad_get) ∧
  (w2.objs a).index = (w.objs a).index ∧
  (w2.objs a).empty = (w.objs a).empty ∧
  ((w.objs a).empty = true → (w2.objs b).empty = true)

/-- In world `w2` the variants at `a` and `b` have exchanged the states they
had in world `w`; where exactly one of them was empty, the other one is now. -/
def exchanged (w w2 : World) (a b : Loc) : Prop :=
  received (w2.objs a) (w.objs b) ∧ received (w2.objs b) (w.objs a) ∧
  ((w.objs a).empty = false → (w.objs b).empty = true → (w2.objs a).empty = true) ∧
  ((w.objs b).empty = false → (w.objs a).empty = true → (w2.objs b).empty = true)

/-- The alternatives of `variant<int, helper>`: `int` is type 0 and `helper`
type 1; a `helper` whose value is 9 has `throw_on_copy` set, so its copy
constructor throws. -/
def int_helper : Alternatives where
  Args := [.obj 0, .obj 1]
  is_convertible := fun f t =>
    match f, t with
    | .obj 0, .obj 0 => true
    | .lref 0, .obj 0 => true
    | .obj 1, .obj 1 => true
    | .lref 1, .obj 1 => true
    | _, _ => false
  hash_code := fun t => match t with | .obj n => 1000 + n | .lref n => 2000 + n
  copy_raises := fun t v => decide (t = .obj 1) && decide (v = 9)
  move_raises := fun _ _ => false
  moved_from := fun _ v => v
  convert := fun _ _ v => v
  convert_raises := fun _ _ _ => false

/-- `variant<int, helper> a(3);` with `a` the object `named 0`. -/
def holds_three_helper : World :=
  after (value_ctor int_helper blank (.named 0) (.obj 0) 3) blank

/-- `variant<int, helper> a(3); variant<int, helper> b(helper(.., true));` with
`a` at `named 0` and `b` at `named 1`. -/
def three_and_helper : World :=
  after (value_ctor int_helper holds_three_helper (.named 1) (.obj 1) 9) holds_three_helper

/-- `variant<int, std::string> a(3); variant<int, std::string> b("Hello");` with
`a` at `named 0` and `b` at `named 1`. -/
def three_and_hello : World :=
  after (value_ctor int_string holds_three (.named 1) (.lref 3) 7) holds_three

/-- `variant<int, std::string> a(3); variant<int, std::string> b;`. -/
def three_and_empty : World := default_ctor holds_three (.named 1)

/-- Exclusivity by position for the variant at `l`: `v.index()` is an in-range
position, and among the in-range positions `get<i>(&v)` is non-null at
`v.index()` and null everywhere else. -/
def exclusive_by_position (env : Alternatives) (w : World) (l : Loc) : Prop :=
  (w.objs l).index < env.Args.length ∧ ∀ i, i < env.Args.length →
    (i = (w.objs l).index → ∃ p, get_ptr_by_index env w i (some l) = some (some p)) ∧
    (i ≠ (w.objs l).index → get_ptr_by_index env w i (some l) = some none)

/-- The converting constructor rejects the source type `T` (no instantiation
of it is accepted). -/
def rejects (env : Alternatives) (T : Ty) : Prop :=
  ∀ w this value, value_ctor env w this T value = none

/-- `T` is convertible to the alternatives at two different positions. -/
def multi_match (env : Alternatives) (T : Ty) : Prop :=
  ∃ (i j : Nat) (a b : Ty), i ≠ j ∧ env.Args[i]? = some a ∧ env.Args[j]? = some b ∧
    env.is_convertible T a = true ∧ env.is_convertible T b = true

end util

/-! ## Exception specifications, the visitor, lifetimes and reachable states -/

namespace util

/-- The type-trait queries that occur in the `noexcept` specifications, as the
compiler answers them for a given type. -/
structure Traits where
  /-- `std::is_nothrow_constructible_v<T>` (construction from no argument) -/
  is_nothrow_constructible : Ty → Bool
  /-- `std::is_nothrow_copy_constructible_v<T>` -/
  is_nothrow_copy_constructible : Ty → Bool
  /-- `std::is_nothrow_move_constructible_v<T>` -/
  is_nothrow_move_constructible : Ty → Bool
  /-- `std::is_nothrow_move_assignable_v<T>` -/
  is_nothrow_move_assignable : Ty → Bool

/-- How a call of a function with an exception specification ends: the
instantiation is ill-formed, `std::terminate` is called because an exception
reaches a `noexcept(true)` boundary, or the body finishes (returning, or with
an exception that leaves the function). -/
inductive Outcome where
  | ill_formed
  | terminated
  | finished (s : Step)

/-- A function body run under the exception specification `noexcept(spec)`. -/
def noexcept_call (spec : Bool) (s : Step) : Outcome :=
  if spec && s.raised.isSome then .terminated else .finished s

/-- `variant(T&& value) noexcept(std::is_nothrow_constructible_v<T>)`. -/
def value_ctor_call (tr : Traits) (env : Alternatives) (w : World) (this : Loc) (T : Ty)
    (value : Nat) : Outcome :=
  match value_ctor env w this T value with
  | none => .ill_formed
  | some s => noexcept_call (tr.is_nothrow_constructible T) s

/-- The specification of `operator=(variant&&)`:
`noexcept((... && std::is_nothrow_move_assignable_v<Args>))`. -/
def move_assign_noexcept (tr : Traits) (env : Alternatives) : Bool :=
  env.Args.all tr.is_nothrow_move_assignable

/-- `variant::operator=(variant&& other)` under its exception specification. -/
def move_assign_call (tr : Traits) (env : Alternatives) (w : World) (this other : Loc) :
    Outcome :=
  noexcept_call (move_assign_noexcept tr env) (move_assign env w this other)

/-- The specification of `operator=(Type&&)`: `noexcept(
std::is_nothrow_copy_constructible_v<Type> && std::is_nothrow_move_constructible_v<Type> &&
std::is_nothrow_move_assignable_v<Type>)`. -/
def value_assign_noexcept (tr : Traits) (Type_ : Ty) : Bool :=
  tr.is_nothrow_copy_constructible Type_ && tr.is_nothrow_move_constructible Type_ &&
    tr.is_nothrow_move_assignable Type_

/-- `variant::operator=(Type&& object)` under its exception specification, the
constructor of `tmp` and the move-assignment under theirs. -/
def value_assign_call (tr : Traits) (env : Alternatives) (w : World) (this : Loc) (Type_ : Ty)
    (object : Nat) : Outcome :=
  let tmp := Loc.temp 0
  match value_ctor_call tr env w tmp Type_ object with
  | .ill_formed => .ill_formed
  | .terminated => .terminated
  | .finished s1 =>
      match s1.raised with
      | some e => noexcept_call (value_assign_noexcept tr Type_) ⟨s1.world, some e⟩
      | none =>
          match move_assign_call tr env s1.world this tmp with
          | .ill_formed => .ill_formed
          | .terminated => .terminated
          | .finished s2 =>
              noexcept_call (value_assign_noexcept tr Type_) ⟨dtor env s2.world tmp, s2.raised⟩

/-- What `apply_visitor` does with the functor: the overload for an
alternative is called on a reference to the live value, the overload without
argument is called, the evaluation of the argument throws, the argument is
undefined, or the instantiation is ill-formed. -/
inductive Dispatch where
  | call (T : Ty) (p : Ptr)
  | call_empty
  | raised (e : Exn)
  | undefined
  | ill_formed
  deriving DecidableEq, Repr

namespace details

/-- The call `func(get<Head>(std::forward<Variant>(var)))`. -/
def invoke (env : Alternatives) (w : World) (form : RefForm) (var : Loc) (Head : Ty) :
    Dispatch :=
  match get_ref_by_type env w Head form var with
  | .ref p => .call Head p
  | .raised e => .raised e
  | .null_deref => .undefined

/-- `VisitorImpl<variant<Head, Tail...>>::visit(func, var)`, with `var` the
variant of the full alternative list; the primary template is only declared,
so the empty list is ill-formed. -/
def VisitorImpl_visit (env : Alternatives) (w : World) (form : RefForm) (var : Loc) :
    List Ty → Dispatch
  | [] => .ill_formed
  | [Head] =>
      if (w.objs var).hash_type = env.hash_code Head then invoke env w form var Head
      else .call_empty
  | Head :: Tail1 :: Tail =>
      if (w.objs var).hash_type = env.hash_code Head then invoke env w form var Head
      else VisitorImpl_visit env w form var (Tail1 :: Tail)

end details

/-- `apply_visitor(func, var)`. -/
def apply_visitor (env : Alternatives) (w : World) (form : RefForm) (var : Loc) : Dispatch :=
  details.VisitorImpl_visit env w form var env.Args

/-- Dispatch on the discriminant, as the specification describes the result:
the zero-argument handler when the variant is empty, otherwise the handler of
the alternative at position `index()` on the live value. -/
def dispatch_on_index (env : Alternatives) (w : World) (var : Loc) : Dispatch :=
  if (w.objs var).empty then .call_empty
  else
    match env.Args[(w.objs var).index]? with
    | some T => .call T ⟨var, T⟩
    | none => .undefined

/-- The static member `alignas_of_data_ = find_max<alignof(Args)...>::value`. -/
def alignas_of_data_ (alignof_ : Ty → Nat) (Args : List Ty) : Option Nat :=
  details.find_max (Args.map alignof_)

/-- The static member `size_of_data_ = find_max<sizeof(Args)...>::value`. -/
def size_of_data_ (sizeof_ : Ty → Nat) (Args : List Ty) : Option Nat :=
  details.find_max (Args.map sizeof_)

/-- One event seen from the storage at `l`: whether a value is live there
(`some true`), not live (`some false`), or the storage has been misused
(`none`): a value constructed over a live one, or a destructor run on storage
without a live value. -/
def lifetime_step (l : Loc) (s : Option Bool) (e : Event) : Option Bool :=
  match s, e with
  | none, _ => none
  | some live, .constructed l2 _ =>
      if l2 = l then (if live then none else some true) else some live
  | some live, .destroyed l2 _ =>
      if l2 = l then (if live then some false else none) else some live

/-- The lifetime state of the storage at `l` after a log of events. -/
def lifetime (l : Loc) (log : List Event) : Option Bool :=
  log.foldl (lifetime_step l) (some false)

/-- The number of alternative values constructed in the storage at `l`. -/
def constructed_in (l : Loc) (log : List Event) : Nat :=
  log.countP (fun e => match e with | .constructed l2 _ => decide (l2 = l) | _ => false)

/-- The number of alternative values destroyed in the storage at `l`. -/
def destroyed_in (l : Loc) (log : List Event) : Nat :=
  log.countP (fun e => match e with | .destroyed l2 _ => decide (l2 = l) | _ => false)

/-- The pack is small enough for every position to be a `size_t` other than
`variant_npos`. -/
def Alternatives.fits (env : Alternatives) : Prop :=
  env.Args.length ≤ variant_npos

/-- The hash codes work as type identities on the alternatives: none is the
sentinel `(size_t)-1` and different alternatives have different codes. -/
def Alternatives.type_identity (env : Alternatives) : Prop :=
  (∀ T, T ∈ env.Args → env.hash_code T ≠ variant_npos) ∧
  (∀ T U, T ∈ env.Args → U ∈ env.Args → env.hash_code T = env.hash_code U → T = U)

/-- No constructor of an alternative throws. -/
def Alternatives.non_raising (env : Alternatives) : Prop :=
  (∀ t v, env.copy_raises t v = false) ∧ (∀ t v, env.move_raises t v = false) ∧
  (∀ f t v, env.convert_raises f t v = false)

/-- The discriminant and the type token of a state agree: both are the
sentinel, or the discriminant is a position of the list, the first one of its
type, and the token is the hash code of that type. -/
def variant.valid (env : Alternatives) (v : variant) : Prop :=
  (v.index_ = variant_npos ∧ v.hash_ = variant_npos) ∨
  (v.index_ ≠ variant_npos ∧ ∃ T, env.Args[v.index_]? = some T ∧ v.hash_ = env.hash_code T ∧
    details.get_index 0 T env.Args = v.index_)

/-- Every variant state of the world has agreeing discriminant and type token. -/
def World.valid (env : Alternatives) (w : World) : Prop :=
  ∀ l, (w.objs l).valid env

/-- The lifetime log and the states agree: for every storage a value is live
exactly when the variant there is non-empty, and the storage was never
misused. -/
def World.tracked (w : World) : Prop :=
  ∀ l, lifetime l w.log = some (!(w.objs l).empty)

/-- The state between two operations of a program whose alternatives do not
throw: tags agree, lifetimes are tracked and no temporary is alive. -/
def World.settled (env : Alternatives) (w : World) : Prop :=
  w.valid env ∧ w.tracked ∧ ∀ k, (w.objs (.temp k)).empty = true

/-- The worlds a program can reach through the public interface, acting on its
named variants: constructions happen in storage that holds no live value and
only count when they return (a constructor that throws yields no object);
assignments, swap, `clear` and the destructor count however they end. -/
inductive Reachable (env : Alternatives) : World → Prop where
  | start : Reachable env blank
  | default_ctor (w : World) (n : Nat) :
      Reachable env w → (w.objs (.named n)).empty = true →
      Reachable env (default_ctor w (.named n))
  | value_ctor (w : World) (n : Nat) (T : Ty) (value : Nat) (s : Step) :
      Reachable env w → (w.objs (.named n)).empty = true →
      value_ctor env w (.named n) T value = some s → s.raised = none →
      Reachable env s.world
  | copy_ctor (w : World) (n m : Nat) :
      Reachable env w → n ≠ m → (w.objs (.named n)).empty = true →
      (copy_ctor env w (.named n) (.named m)).raised = none →
      Reachable env (copy_ctor env w (.named n) (.named m)).world
  | move_ctor (w : World) (n m : Nat) :
      Reachable env w → n ≠ m → (w.objs (.named n)).empty = true →
      (move_ctor env w (.named n) (.named m)).raised = none →
      Reachable env (move_ctor env w (.named n) (.named m)).world
  | copy_assign (w : World) (n m : Nat) :
      Reachable env w → Reachable env (copy_assign env w (.named n) (.named m)).world
  | move_assign (w : World) (n m : Nat) :
      Reachable env w → Reachable env (move_assign env w (.named n) (.named m)).world
  | value_assign (w : World) (n : Nat) (T : Ty) (object : Nat) (s : Step) :
      Reachable env w → value_assign env w (.named n) T object = some s →
      Reachable env s.world
  | swap (w : World) (n m : Nat) :
      Reachable env w → Reachable env (swap env w (.named n) (.named m)).world
  | clear (w : World) (n : Nat) :
      Reachable env w → Reachable env (clear env w (.named n))
  | dtor (w : World) (n : Nat) :
      Reachable env w → Reachable env (dtor env w (.named n))

end util

/-! ## Further concrete alternative lists and worlds -/

namespace util

/-- The alternatives of `variant<int, std::vector<int>, std::string>`: `int` is
type 0, `std::vector<int>` type 1, `std::string` type 2; a string literal is
an lvalue of type 3, convertible to `std::string` only. -/
def int_vec_string : Alternatives where
  Args := [.obj 0, .obj 1, .obj 2]
  is_convertible := fun f t =>
    match f, t with
    | .obj 0, .obj 0 => true
    | .lref 0, .obj 0 => true
    | .obj 1, .obj 1 => true
    | .lref 1, .obj 1 => true
    | .obj 2, .obj 2 => true
    | .lref 2, .obj 2 => true
    | .lref 3, .obj 2 => true
    | _, _ => false
  hash_code := fun t => match t with | .obj n => 1000 + n | .lref n => 2000 + n
  copy_raises := fun _ _ => false
  move_raises := fun _ _ => false
  moved_from := fun t v => if t = .obj 0 then v else 0
  convert := fun _ _ v => v
  convert_raises := fun _ _ _ => false

/-- `variant<int, std::vector<int>, std::string> const a1;`. -/
def visit_a1 : World := default_ctor blank (.named 0)

/-- `variant<int, std::vector<int>, std::string> const a2(5);`. -/
def visit_a2 : World := after (value_ctor int_vec_string blank (.named 0) (.obj 0) 5) blank

/-- `variant<..> const a3(std::vector<int>{});` (the empty vector is value 0). -/
def visit_a3 : World := after (value_ctor int_vec_string blank (.named 0) (.obj 1) 0) blank

/-- `variant<..> const a4("Hey");` (the literal is value 7). -/
def visit_a4 : World := after (value_ctor int_vec_string blank (.named 0) (.lref 3) 7) blank

end util

/-! ## Concrete inputs for value assignment and for the exception specifications -/

namespace util

/-- Whether a call ended in `std::terminate`. -/
def Outcome.is_terminated : Outcome → Bool
  | .terminated => true
  | _ => false

/-- The alternatives of `variant<int, helper, std::string>`: `int` is type 0,
`helper` type 1, `std::string` type 2; a string literal is an lvalue of type 3,
convertible to `std::string` only. -/
def int_helper_string : Alternatives where
  Args := [.obj 0, .obj 1, .obj 2]
  is_convertible := fun f t =>
    match f, t with
    | .obj 0, .obj 0 => true
    | .lref 0, .obj 0 => true
    | .obj 1, .obj 1 => true
    | .lref 1, .obj 1 => true
    | .obj 2, .obj 2 => true
    | .lref 2, .obj 2 => true
    | .lref 3, .obj 2 => true
    | _, _ => false
  hash_code := fun t => match t with | .obj n => 1000 + n | .lref n => 2000 + n
  copy_raises := fun _ _ => false
  move_raises := fun _ _ => false
  moved_from := fun t v => if t = .obj 2 then 0 else v
  convert := fun _ _ v => v
  convert_raises := fun _ _ _ => false

/-- `variant<int, helper, std::string> b(helper(5, ..));`. -/
def index_b0 : World :=
  after (value_ctor int_helper_string blank (.named 0) (.obj 1) 5) blank

/-- `... b = 5;`. -/
def index_b1 : World :=
  after (value_assign int_helper_string index_b0 (.named 0) (.obj 0) 5) index_b0

/-- `... b = "Hello";` (the literal is value 7). -/
def index_b2 : World :=
  after (value_assign int_helper_string index_b1 (.named 0) (.lref 3) 7) index_b1

/-- `variant<A, B> x; B b; x = b;`: assigned from a named `B` (value 5). -/
def assigned_named_b : World :=
  after (value_assign base_derived blank (.named 0) (deduce false 1) 5) blank

/-- `variant<A, B> x; x = B();`: assigned from a temporary `B` (value 5). -/
def assigned_temporary_b : World :=
  after (value_assign base_derived blank (.named 0) (deduce true 1) 5) blank

/-- The traits of `int` (type 0) and of the test's `helper` (type 1). `helper`
has no default constructor, a user-provided copy constructor that is not
`noexcept`, and defaulted move constructor and assignment operators. For the
reference types `int&` and `helper&`: a reference cannot be constructed from
nothing, binding a reference does not throw, and assigning through it is the
copy assignment of the referred type. -/
def helper_traits : Traits where
  is_nothrow_constructible := fun t => decide (t = .obj 0)
  is_nothrow_copy_constructible := fun t => !decide (t = .obj 1)
  is_nothrow_move_constructible := fun _ => true
  is_nothrow_move_assignable := fun _ => true

/-- The alternatives of `variant<int, mover>`: `int` is type 0 and `mover`
type 1, a class like the test's `helper` with a flag `throw_on_move`: its move
constructor throws when the flag is set (the `mover` of value 9), its copy
constructor does not throw, and its move assignment is declared `noexcept`. -/
def int_mover : Alternatives where
  Args := [.obj 0, .obj 1]
  is_convertible := fun f t =>
    match f, t with
    | .obj 0, .obj 0 => true
    | .lref 0, .obj 0 => true
    | .obj 1, .obj 1 => true
    | .lref 1, .obj 1 => true
    | _, _ => false
  hash_code := fun t => match t with | .obj n => 1000 + n | .lref n => 2000 + n
  copy_raises := fun _ _ => false
  move_raises := fun t v => decide (t = .obj 1) && decide (v = 9)
  moved_from := fun _ v => v
  convert := fun _ _ v => v
  convert_raises := fun _ _ _ => false

/-- The traits of `int` and `mover`: `mover` has no default constructor, a
defaulted copy constructor, a move constructor that is not `noexcept` and a
`noexcept` move assignment, so it is nothrow-move-assignable but not
nothrow-move-constructible; its copy assignment is deleted, so nothing can be
assigned through a `mover&`. -/
def mover_traits : Traits where
  is_nothrow_constructible := fun t => decide (t = .obj 0)
  is_nothrow_copy_constructible := fun _ => true
  is_nothrow_move_constructible := fun t => !decide (t = .obj 1)
  is_nothrow_move_assignable := fun t => !decide (t = .lref 1)

/-- `variant<int, mover> a(3);` with `a` at `named 0`. -/
def mover_a : World :=
  after (value_ctor int_mover blank (.named 0) (.obj 0) 3) blank

/-- `... mover m(.., true); variant<int, mover> b(m);` with `b` at `named 1`,
copied from the named `mover` whose flag is set. -/
def mover_ab : World :=
  after (value_ctor int_mover mover_a (.named 1) (deduce false 1) 9) mover_a

end util

/-! ## Alternatives that share a type token -/

namespace util

/-- No alternative has the sentinel `(size_t)-1` as its hash code. -/
def Alternatives.no_sentinel (env : Alternatives) : Prop :=
  ∀ T, T ∈ env.Args → env.hash_code T ≠ variant_npos

/-- The alternatives of `variant<int, const int>`: `int` is type 0 and
`const int` type 1. `typeid` ignores the cv-qualification, so both have the
same hash code; each converts to the other. -/
def int_cint : Alternatives where
  Args := [.obj 0, .obj 1]
  is_convertible := fun f t =>
    match f, t with
    | .obj 0, .obj 0 => true
    | .obj 0, .obj 1 => true
    | .obj 1, .obj 0 => true
    | .obj 1, .obj 1 => true
    | .lref 0, .obj 0 => true
    | .lref 0, .obj 1 => true
    | .lref 1, .obj 0 => true
    | .lref 1, .obj 1 => true
    | _, _ => false
  hash_code := fun _ => 1000
  copy_raises := fun _ _ => false
  move_raises := fun _ _ => false
  moved_from := fun _ v => v
  convert := fun _ _ v => v
  convert_raises := fun _ _ _ => false

/-- `const int c = 5; variant<int, const int> v(std::move(c));`: the deduced
`T` is `const int`, an exact match of the alternative at position 1. -/
def holds_const_int : World :=
  after (value_ctor int_cint blank (.named 0) (.obj 1) 5) blank

end util

/-! ## Lemmas on the compile-time searches -/

namespace util.details

theorem get_type_eq_getElem (Types : List Ty) (index : Nat) :
    get_type index Types = Types[index]? := by
  induction Types generalizing index with
  | nil => simp [get_type]
  | cons t ts ih =>
      cases index with
      | zero => simp [get_type]
      | succ k => simp [get_type, ih]

theorem get_index_not_mem (i : Nat) (T : Ty) (Types : List Ty) (h : T ∉ Types) :
    get_index i T Types = variant_npos := by
  induction Types generalizing i with
  | nil => simp [get_index]
  | cons t ts ih =>
      have h1 : T ≠ t := fun e => h (by simp [e])
      have h2 : T ∉ ts := fun e => h (by simp [e])
      simp [get_index, h1, ih _ h2]

/-- An exact search that succeeds returns the first position holding the type. -/
theorem get_index_mem (i : Nat) (T : Ty) (Types : List Ty) (h : T ∈ Types) :
    ∃ k, get_index i T Types = i + k ∧ Types[k]? = some T ∧
      ∀ j, j < k → Types[j]? ≠ some T := by
  induction Types generalizing i with
  | nil => simp at h
  | cons t ts ih =>
      by_cases e : T = t
      · refine ⟨0, by simp [get_index, e], by simp [e], by simp⟩
      · have h2 : T ∈ ts := by
          rcases List.mem_cons.1 h with h | h
          · exact absurd h e
          · exact h
        obtain ⟨k, hk, hget, hfirst⟩ := ih (i + 1) h2
        refine ⟨k + 1, by simp [get_index, e, hk]; omega, by simpa using hget, ?_⟩
        intro j hj
        cases j with
        | zero => simpa using fun h => e h.symm
        | succ j => simpa using hfirst j (by omega)

/-- The conversion search returns the first position whose alternative the
type converts to, and `variant_npos` when there is none. -/
theorem get_conv_index_spec (conv : Ty → Ty → Bool) (i : Nat) (T : Ty) (Types : List Ty) :
    (Types.any (fun a => conv T a) = false ∧ get_conv_index conv i T Types = variant_npos) ∨
    ∃ k a, get_conv_index conv i T Types = i + k ∧ Types[k]? = some a ∧ conv T a = true ∧
      ∀ j b, j < k → Types[j]? = some b → conv T b = false := by
  induction Types generalizing i with
  | nil => left; simp [get_conv_index]
  | cons t ts ih =>
      by_cases e : conv T t = true
      · right
        exact ⟨0, t, by simp [get_conv_index, e], by simp, e, by simp⟩
      · rcases ih (i + 1) with ⟨hnone, hv⟩ | ⟨k, a, hk, hget, hconv, hfirst⟩
        · left
          simp only [Bool.not_eq_true] at e
          simp [get_conv_index, e, hnone, hv]
        · right
          refine ⟨k + 1, a, by simp [get_conv_index, e, hk]; omega, by simpa using hget,
            hconv, ?_⟩
          intro j b hj hb
          cases j with
          | zero =>
              simp only [List.getElem?_cons_zero, Option.some.injEq] at hb
              subst hb
              simpa using e
          | succ j => exact hfirst j b (by omega) (by simpa using hb)

theorem any_same_iff (T : Ty) (Types : List Ty) :
    Types.any (fun t => decide (T = t)) = true ↔ T ∈ Types := by
  simp [List.any_eq_true]

/-- For an alternative of the list `get_index_v` is the exact search, whatever
the convertibility relation is. -/
theorem get_index_v_mem (conv : Ty → Ty → Bool) (T : Ty) (Types : List Ty) (h : T ∈ Types) :
    get_index_v conv T Types = get_index 0 T Types := by
  simp [get_index_v, (any_same_iff T Types).2 h]

/-- In a list without repetition the exact search for the type at position `k`
returns `k`. -/
theorem get_index_of_nodup (i k : Nat) (T : Ty) (Types : List Ty) (hn : Types.Nodup)
    (hk : Types[k]? = some T) : get_index i T Types = i + k := by
  induction Types generalizing i k with
  | nil => simp at hk
  | cons t ts ih =>
      cases k with
      | zero =>
          simp only [List.getElem?_cons_zero, Option.some.injEq] at hk
          simp [get_index, hk]
      | succ k =>
          have hk2 : ts[k]? = some T := by simpa using hk
          have hmem : T ∈ ts := List.getElem?_mem hk2
          have hne : T ≠ t := by
            intro e
            subst e
            exact (List.nodup_cons.1 hn).1 hmem
          simp only [get_index, hne, if_false]
          rw [ih (i + 1) k (List.nodup_cons.1 hn).2 hk2]
          omega

end util.details

/-! ## The accessors -/

namespace util

open details

theorem get_ptr_by_type_iff (env : Alternatives) (w : World) (T : Ty) (object : Option Loc)
    (p : Ptr) :
    get_ptr_by_type env w T object = some p ↔
      ∃ l, object = some l ∧ (w.objs l).empty = false ∧
        (w.objs l).index = get_index_v env.is_convertible T env.Args ∧ p = ⟨l, T⟩ := by
  cases object with
  | none => simp [get_ptr_by_type]
  | some l =>
      simp only [get_ptr_by_type, variant.empty, variant.index, Option.some.injEq]
      constructor
      · intro h
        split at h
        · rename_i hc
          simp only [Bool.and_eq_true, Bool.not_eq_true', decide_eq_true_eq,
            decide_eq_false_iff_not] at hc
          refine ⟨l, rfl, ?_, hc.2, ?_⟩
          · simpa using hc.1.1
          · simpa using h.symm
        · simp at h
      · rintro ⟨l2, hl, he, hi, hp⟩
        subst hl
        have he2 : ¬ (w.objs l).index_ = variant_npos := by simpa using he
        have he3 : ¬ get_index_v env.is_convertible T env.Args = variant_npos := by
          rw [← hi]; exact he2
        simp [he2, hi, hp, he3]

theorem get_ptr_by_type_null_iff (env : Alternatives) (w : World) (T : Ty) (l : Loc) :
    get_ptr_by_type env w T (some l) = none ↔
      ((w.objs l).empty = true ∨
        (w.objs l).index ≠ get_index_v env.is_convertible T env.Args) := by
  simp only [get_ptr_by_type, variant.empty, variant.index]
  by_cases he : (w.objs l).index_ = variant_npos
  · simp [he]
  · by_cases hi : (w.objs l).index_ = get_index_v env.is_convertible T env.Args
    · simp [he, hi]
    · simp [he, hi]

/-- Each reference overload of `get<Type>` is the pointer form followed by the
null test. -/
theorem get_ref_by_type_eq (env : Alternatives) (w : World) (Type_ : Ty) (form : RefForm)
    (object : Loc) :
    get_ref_by_type env w Type_ form object =
      (match get_ptr_by_type env w Type_ (some object) with
        | some p => .ref p
        | none => .raised .bad_get) := by
  cases form <;> rfl

/-- C1 (the code at the failing input): `short` (type 2) is not an alternative
of `variant<int, std::string>`, but it converts to `int`, so `get_index_v`
falls back to the conversion search and answers position 0; on the variant
holding the `int` 3 the pointer form `get<short>(&a)` is therefore not null. -/
theorem get_ptr_by_type_non_alternative :
    Ty.obj 2 ∉ int_string.Args ∧
    (holds_three.objs (.named 0)).index = 0 ∧
    get_index_v int_string.is_convertible (.obj 2) int_string.Args = 0 ∧
    get_ptr_by_type int_string holds_three (.obj 2) (some (.named 0)) =
      some ⟨.named 0, .obj 2⟩ := by
  decide

/-- C2 (the code at the failing input): after `variant<int, std::string> a(3);
a = "Hello";` the discriminant is 1, `get<1>(a)` yields the live value, and
each of the three reference forms of `get<0>(a)` passes the emptiness guard,
receives a null pointer from the pointer form and dereferences it: no
`bad_get` is thrown. -/
theorem get_ref_by_index_mismatch :
    (holds_hello.objs (.named 0)).index = 1 ∧
    get_ptr_by_index int_string holds_hello 0 (some (.named 0)) = some none ∧
    get_ref_by_index int_string holds_hello 1 .lvalue (.named 0) =
      some (.ref ⟨.named 0, .obj 1⟩) ∧
    get_ref_by_index int_string holds_hello 0 .const_lvalue (.named 0) = some .null_deref ∧
    get_ref_by_index int_string holds_hello 0 .lvalue (.named 0) = some .null_deref ∧
    get_ref_by_index int_string holds_hello 0 .rvalue (.named 0) = some .null_deref := by
  decide

/-- C3: each reference overload of `get<Type>` throws `bad_get` exactly when the
pointer form on the same variant is null and otherwise refers to what the
pointer form points to; it throws on every empty variant; and on a variant
whose live alternative is `B` it throws for any other alternative `Type` of
the list, whatever the convertibility between the two is. -/
theorem get_ref_by_type_agrees (env : Alternatives) (w : World) (Type_ : Ty) (form : RefForm)
    (object : Loc) :
    (get_ref_by_type env w Type_ form object = .raised .bad_get ↔
      get_ptr_by_type env w Type_ (some object) = none) ∧
    (∀ p, get_ptr_by_type env w Type_ (some object) = some p →
      get_ref_by_type env w Type_ form object = .ref p) ∧
    ((w.objs object).empty = true →
      get_ref_by_type env w Type_ form object = .raised .bad_get) ∧
    (∀ (B : Ty) (k : Nat), Type_ ∈ env.Args → Type_ ≠ B → env.Args[k]? = some B →
      (w.objs object).index = k →
      get_ref_by_type env w Type_ form object = .raised .bad_get) := by
  have key : ∀ r, get_ptr_by_type env w Type_ (some object) = r →
      get_ref_by_type env w Type_ form object =
        (match r with | some p => .ref p | none => .raised .bad_get) := by
    intro r hr
    rw [get_ref_by_type_eq, hr]
  refine ⟨?_, ?_, ?_, ?_⟩
  · cases hr : get_ptr_by_type env w Type_ (some object) with
    | none => simp [key none hr]
    | some p => simp [key (some p) hr]
  · intro p hp
    simpa using key (some p) hp
  · intro he
    have : get_ptr_by_type env w Type_ (some object) = none :=
      (get_ptr_by_type_null_iff env w Type_ object).2 (Or.inl he)
    simpa using key none this
  · intro B k hmem hne hk hidx
    have : get_ptr_by_type env w Type_ (some object) = none := by
      refine (get_ptr_by_type_null_iff env w Type_ object).2 (Or.inr ?_)
      rw [get_index_v_mem _ _ _ hmem]
      obtain ⟨j, hj, hget, _⟩ := get_index_mem 0 Type_ env.Args hmem
      rw [hj, hidx]
      intro e
      have e2 : k = j := by omega
      subst e2
      rw [hk] at hget
      exact hne (Option.some.inj hget).symm
    simpa using key none this

/-- C3 at `variant<A, B>` holding a `B` (with `B` convertible to `A`):
`get<A>` throws `bad_get`. -/
theorem get_ref_by_type_agrees_witness :
    base_derived.is_convertible (.obj 1) (.obj 0) = true ∧
    get_ref_by_type base_derived from_temporary_b (.obj 0) .lvalue (.named 0) =
      .raised .bad_get :=
  ⟨by decide,
    (get_ref_by_type_agrees base_derived from_temporary_b (.obj 0) .lvalue (.named 0)).2.2.2
      (.obj 1) 1 (by decide) (by decide) (by decide) (by decide)⟩

/-- C4 (as stated, refuted): on `variant<int, int>` holding an `int` the
discriminant is 0 and `get<1>(&v)` is non-null as well, because position 1 is
resolved to its type `int` and looked up by type. -/
theorem exclusive_by_position_fails :
    ¬ exclusive_by_position int_int int_int_three (.named 0) := by
  intro h
  have h1 := (h.2 1 (by decide)).2 (by decide)
  revert h1
  decide

/-- Over a list without a repeated type the pointer form of `get<i>` is
non-null exactly on a non-empty variant whose discriminant is `i`. -/
theorem get_ptr_by_index_of_nodup (env : Alternatives) (w : World) (l : Loc) (i : Nat)
    (T : Ty) (hn : env.Args.Nodup) (hT : env.Args[i]? = some T) :
    get_ptr_by_index env w i (some l) =
      some (if (w.objs l).empty = false ∧ (w.objs l).index = i then some ⟨l, T⟩ else none) := by
  have hi : i < env.Args.length := (List.getElem?_eq_some.1 hT).1
  have hty : get_type i env.Args = some T := by
    rw [get_type_eq_getElem]; exact hT
  have hmem : T ∈ env.Args := List.getElem?_mem hT
  have hidx : get_index_v env.is_convertible T env.Args = i := by
    rw [get_index_v_mem _ _ _ hmem, get_index_of_nodup 0 i _ _ hn hT]
    omega
  have hgt : ¬ i > env.Args.length := by omega
  by_cases he : (w.objs l).empty = true
  · simp [get_ptr_by_index, hty, he]
  · have he2 : (w.objs l).empty = false := by simpa using he
    have hres : get_ptr_by_index env w i (some l) =
        some (get_ptr_by_type env w T (some l)) := by
      simp only [get_ptr_by_index, hty, he2, hgt, decide_False, Bool.or_self]
      rfl
    rw [hres]
    congr 1
    by_cases hx : (w.objs l).index = i
    · rw [if_pos ⟨he2, hx⟩]
      exact (get_ptr_by_type_iff env w _ _ _).2 ⟨l, rfl, he2, by rw [hidx]; exact hx, rfl⟩
    · rw [if_neg (fun h => hx h.2)]
      refine (get_ptr_by_type_null_iff env w _ l).2 (Or.inr ?_)
      rw [hidx]
      exact hx

/-- Over a list without a repeated type each reference overload of `get<i>`
throws `bad_get` on an empty variant, refers to the live value when the
discriminant is `i`, and dereferences a null pointer in every other case. -/
theorem get_ref_by_index_of_nodup (env : Alternatives) (w : World) (l : Loc) (i : Nat)
    (T : Ty) (form : RefForm) (hn : env.Args.Nodup) (hT : env.Args[i]? = some T) :
    get_ref_by_index env w i form l =
      some (if (w.objs l).empty = true then .raised .bad_get
        else if (w.objs l).index = i then .ref ⟨l, T⟩ else .null_deref) := by
  have hi : i < env.Args.length := (List.getElem?_eq_some.1 hT).1
  have hty : get_type i env.Args = some T := by
    rw [get_type_eq_getElem]; exact hT
  have hgt : ¬ i > env.Args.length := by omega
  have hp := get_ptr_by_index_of_nodup env w l i T hn hT
  by_cases he : (w.objs l).empty = true
  · cases form <;> simp [get_ref_by_index, hty, he]
  · have he2 : (w.objs l).empty = false := by simpa using he
    by_cases hx : (w.objs l).index = i
    · rw [if_pos ⟨he2, hx⟩] at hp
      cases form <;> simp [get_ref_by_index, hty, he2, hgt, hp, hx]
    · rw [if_neg (fun h => hx h.2)] at hp
      cases form <;> simp [get_ref_by_index, hty, he2, hgt, hp, hx]

/-- C4 (amended): over an alternative list without a repeated type, for a
non-empty variant whose discriminant is a position of the list, `get<i>(&v)`
is non-null at `i = v.index()` and null at every other in-range position. -/
theorem exclusive_by_position_of_nodup (env : Alternatives) (w : World) (l : Loc)
    (hn : env.Args.Nodup) (hne : (w.objs l).empty = false)
    (hr : (w.objs l).index < env.Args.length) :
    exclusive_by_position env w l := by
  refine ⟨hr, ?_⟩
  intro i hi
  have hres := get_ptr_by_index_of_nodup env w l i env.Args[i] hn
    (List.getElem?_eq_getElem hi)
  constructor
  · intro e
    exact ⟨⟨l, env.Args[i]⟩, by rw [hres, if_pos ⟨hne, e.symm⟩]⟩
  · intro e
    rw [hres, if_neg (fun h => e h.2.symm)]

/-- C4 (amended) at `variant<int, std::string>` holding "Hello": `get<1>` is
non-null and `get<0>` is null. -/
theorem exclusive_by_position_of_nodup_witness :
    exclusive_by_position int_string holds_hello (.named 0) :=
  exclusive_by_position_of_nodup int_string holds_hello (.named 0) (by decide) (by decide)
    (by decide)

end util

/-! ## The converting constructor -/

namespace util

open details

/-- Construction from a temporary whose type is exactly an alternative: the
exact search selects the first position of that type and the value is moved in. -/
theorem value_ctor_exact (env : Alternatives) (w : World) (this : Loc) (U : Nat) (value : Nat)
    (h : Ty.obj U ∈ env.Args) :
    ∃ s k, value_ctor env w this (deduce true U) value = some s ∧
      get_index 0 (.obj U) env.Args = k ∧ env.Args[k]? = some (.obj U) ∧
      (env.move_raises (.obj U) value = false →
        s.raised = none ∧ s.world.objs this = ⟨k, env.hash_code (.obj U), value⟩) := by
  obtain ⟨k, hk, hget, _⟩ := get_index_mem 0 (.obj U) env.Args h
  have hany : env.Args.any (fun a => decide (Ty.obj U = a)) = true :=
    (any_same_iff _ _).2 h
  have hidx : get_index_v env.is_convertible (.obj U) env.Args = k := by
    rw [get_index_v_mem _ _ _ h, hk]; omega
  have hty : get_type k env.Args = some (.obj U) := by
    rw [get_type_eq_getElem]; exact hget
  have hk0 : get_index 0 (.obj U) env.Args = k := by omega
  by_cases hm : env.move_raises (.obj U) value = true
  · have hv : value_ctor env w this (deduce true U) value =
        some ⟨w.set this ⟨variant_npos, variant_npos, 0⟩, some .element⟩ := by
      simp only [value_ctor, deduce, ctor_static_assert, hany, hidx, hty, construct_from, hm,
        if_true, Bool.true_or]
    refine ⟨_, k, hv, hk0, hget, ?_⟩
    intro hf
    rw [hf] at hm
    exact absurd hm (by decide)
  · have hv : value_ctor env w this (deduce true U) value =
        some ⟨((w.set this ⟨variant_npos, variant_npos, 0⟩).set this
          ⟨k, env.hash_code (.obj U), value⟩).logged (.constructed this (.obj U)), none⟩ := by
      simp only [value_ctor, deduce, ctor_static_assert, hany, hidx, hty, construct_from, hm,
        if_true, Bool.true_or]
      rfl
    refine ⟨_, k, hv, hk0, hget, ?_⟩
    intro _
    simp [World.set, World.logged]

/-- C5 (the code at the failing input): `struct B : A`, `B b; variant<A, B> x(b);`.
The deduced `T` is `B&`, which is not the same type as any alternative, so the
conversion search runs and stops at `A` (position 0): the variant holds an
`A`, its discriminant is 0 although `B` is at position 1, and `get<B>(x)`
throws. Built from a temporary `B` the same variant has discriminant 1. -/
theorem value_ctor_named_derived :
    get_index 0 (.obj 1) base_derived.Args = 1 ∧
    (from_named_b.objs (.named 0)).index = 0 ∧
    (from_named_b.objs (.named 0)).hash_type = base_derived.hash_code (.obj 0) ∧
    get_ref_by_type base_derived from_named_b (.obj 1) .lvalue (.named 0) =
      .raised .bad_get ∧
    (from_temporary_b.objs (.named 0)).index = 1 := by
  decide

/-- C6 (as stated, refuted): `int` is not an alternative of
`variant<long, double>` and converts to both, yet the constructor accepts it
and silently takes `long`, the first match. -/
theorem multi_match_accepted :
    ¬ (Ty.obj 2 ∉ long_double.Args → multi_match long_double (.obj 2) →
        rejects long_double (.obj 2)) := by
  intro h
  have hm : multi_match long_double (.obj 2) :=
    ⟨0, 1, .obj 0, .obj 1, by decide, by decide, by decide, by decide, by decide⟩
  have hr := h (by decide) hm blank (.named 0) 5
  have hs : (value_ctor long_double blank (.named 0) (.obj 2) 5).isSome = true := by decide
  rw [hr] at hs
  exact absurd hs (by decide)

/-- C6 (amended): a source type that is neither an alternative nor convertible
to one is rejected; a source type that is not an alternative but converts to
at least one is accepted, and the alternative constructed is the first one in
declaration order it converts to. -/
theorem value_ctor_selection (env : Alternatives) (T : Ty) :
    ((∀ a, a ∈ env.Args → T ≠ a ∧ env.is_convertible T a = false) → rejects env T) ∧
    (T ∉ env.Args → (∃ a, a ∈ env.Args ∧ env.is_convertible T a = true) →
      ∀ w this value, ∃ s k a, value_ctor env w this T value = some s ∧
        env.Args[k]? = some a ∧ env.is_convertible T a = true ∧
        (∀ j b, j < k → env.Args[j]? = some b → env.is_convertible T b = false) ∧
        (s.raised = none →
          (s.world.objs this).index = k ∧ (s.world.objs this).hash_type = env.hash_code a)) := by
  constructor
  · intro h w this value
    have h1 : env.Args.any (fun a => decide (T = a)) = false := by
      rw [List.any_eq_false]
      intro a ha
      simpa using (h a ha).1
    have h2 : env.Args.any (fun a => env.is_convertible T a) = false := by
      rw [List.any_eq_false]
      intro a ha
      simpa using (h a ha).2
    simp [value_ctor, ctor_static_assert, h1, h2]
  · intro hnot hex w this value
    have h1 : env.Args.any (fun a => decide (T = a)) = false := by
      rw [List.any_eq_false]
      intro a ha
      have : T ≠ a := fun e => hnot (e ▸ ha)
      simpa using this
    have h2 : env.Args.any (fun a => env.is_convertible T a) = true := by
      rw [List.any_eq_true]
      exact hex
    rcases get_conv_index_spec env.is_convertible 0 T env.Args with ⟨hnone, _⟩ | ⟨k, a, hk, hget, hconv, hfirst⟩
    · rw [hnone] at h2
      exact absurd h2 (by decide)
    · have hidx : get_index_v env.is_convertible T env.Args = k := by
        simp only [get_index_v, h1, hk]
        simp
      have hty : get_type k env.Args = some a := by
        rw [get_type_eq_getElem]; exact hget
      cases hc : construct_from env T a value with
      | none =>
          have hv : value_ctor env w this T value =
              some ⟨w.set this ⟨variant_npos, variant_npos, 0⟩, some .element⟩ := by
            simp only [value_ctor, ctor_static_assert, h1, h2, hidx, hty, hc, Bool.false_or,
              if_true]
          refine ⟨_, k, a, hv, hget, hconv, hfirst, ?_⟩
          intro hr
          simp at hr
      | some x =>
          have hv : value_ctor env w this T value =
              some ⟨((w.set this ⟨variant_npos, variant_npos, 0⟩).set this
                ⟨k, env.hash_code a, x⟩).logged (.constructed this a), none⟩ := by
            simp only [value_ctor, ctor_static_assert, h1, h2, hidx, hty, hc, Bool.false_or,
              if_true]
          refine ⟨_, k, a, hv, hget, hconv, hfirst, ?_⟩
          intro _
          simp [World.set, World.logged, variant.index, variant.hash_type]

/-- C6 (amended) at `variant<long, double>` built from an `int`: accepted, and
when the construction does not throw the variant holds `long` (position 0). -/
theorem value_ctor_selection_witness :
    ∃ s k a, value_ctor long_double blank (.named 0) (.obj 2) 5 = some s ∧
      long_double.Args[k]? = some a ∧ long_double.is_convertible (.obj 2) a = true ∧
      (∀ j b, j < k → long_double.Args[j]? = some b →
        long_double.is_convertible (.obj 2) b = false) ∧
      (s.raised = none →
        (s.world.objs (.named 0)).index = k ∧
        (s.world.objs (.named 0)).hash_type = long_double.hash_code a) :=
  (value_ctor_selection long_double (.obj 2)).2 (by decide)
    ⟨.obj 0, by decide, by decide⟩ blank (.named 0) 5

end util

/-! ## Lemmas on the store and on the lifetime helpers -/

namespace util

open details

@[simp] theorem World.set_objs_same (w : World) (l : Loc) (v : variant) :
    (w.set l v).objs l = v := by
  simp [World.set]

@[simp] theorem World.set_objs_ne (w : World) (l l2 : Loc) (v : variant) (h : l2 ≠ l) :
    (w.set l v).objs l2 = w.objs l2 := by
  simp [World.set, Function.update_noteq h]

@[simp] theorem World.logged_objs (w : World) (e : Event) : (w.logged e).objs = w.objs := rfl

@[simp] theorem destroy_objs (Types : List Ty) (index : Nat) (element : Loc) (w : World) :
    (destroy Types index element w).objs = w.objs := by
  induction Types generalizing index with
  | nil => simp [destroy]
  | cons t ts ih =>
      cases ts with
      | nil => simp [destroy]
      | cons t2 ts2 =>
          cases index with
          | zero => simp [destroy]
          | succ k => simpa [destroy] using ih k

/-- `create` reaches the placement-new of the alternative at position `index`,
and throws `runtime_error` when the pack has no such position. -/
theorem create_eq (env : Alternatives) (Copy : Bool) (Types : List Ty) (index : Nat)
    (to_ from_ : Loc) (w : World) :
    create env Copy Types index to_ from_ w =
      match Types[index]? with
      | some T => construct env Copy T to_ from_ w
      | none => ⟨w, some .runtime_error⟩ := by
  induction Types generalizing index with
  | nil => simp [create]
  | cons t ts ih =>
      cases ts with
      | nil =>
          cases index with
          | zero => simp [create]
          | succ k => simp [create]
      | cons t2 ts2 =>
          cases index with
          | zero => simp [create]
          | succ k => simpa [create] using ih k

/-- A `create` that throws has not touched the world. -/
theorem create_raised_world (env : Alternatives) (Copy : Bool) (Types : List Ty) (index : Nat)
    (to_ from_ : Loc) (w : World) (e : Exn)
    (h : (create env Copy Types index to_ from_ w).raised = some e) :
    (create env Copy Types index to_ from_ w).world = w := by
  rw [create_eq] at h ⊢
  cases hT : Types[index]? with
  | none => simp
  | some T =>
      simp only [hT] at h ⊢
      cases Copy
      · by_cases hm : env.move_raises T (w.objs from_).buffer_ = true
        · simp [construct, hm]
        · simp [construct, hm] at h
      · by_cases hm : env.copy_raises T (w.objs from_).buffer_ = true
        · simp [construct, hm]
        · simp [construct, hm] at h

/-- A copying `create` that returns has written the source value into the
destination buffer and touched nothing else. -/
theorem create_copy_post (env : Alternatives) (Types : List Ty) (index : Nat)
    (to_ from_ : Loc) (w : World)
    (h : (create env true Types index to_ from_ w).raised = none) :
    (create env true Types index to_ from_ w).world.objs =
      Function.update w.objs to_ { w.objs to_ with buffer_ := (w.objs from_).buffer_ } := by
  rw [create_eq] at h ⊢
  cases hT : Types[index]? with
  | none => simp [hT] at h
  | some T =>
      simp only [hT] at h ⊢
      by_cases hm : env.copy_raises T (w.objs from_).buffer_ = true
      · simp [construct, hm] at h
      · simp [construct, hm, World.set]

/-- A moving `create` that returns has written the source value into the
destination buffer, left the source buffer moved-from, and touched nothing else. -/
theorem create_move_post (env : Alternatives) (Types : List Ty) (index : Nat)
    (to_ from_ : Loc) (w : World) (hne : to_ ≠ from_)
    (h : (create env false Types index to_ from_ w).raised = none) :
    ∃ T, Types[index]? = some T ∧
      (create env false Types index to_ from_ w).world.objs =
        Function.update
          (Function.update w.objs from_
            { w.objs from_ with buffer_ := env.moved_from T (w.objs from_).buffer_ })
          to_ { w.objs to_ with buffer_ := (w.objs from_).buffer_ } := by
  rw [create_eq] at h ⊢
  cases hT : Types[index]? with
  | none => simp [hT] at h
  | some T =>
      simp only [hT] at h ⊢
      refine ⟨T, rfl, ?_⟩
      by_cases hm : env.move_raises T (w.objs from_).buffer_ = true
      · simp [construct, hm] at h
      · simp [construct, hm, World.set, Function.update_noteq hne]

/-- A copying `create` on an in-range position with non-throwing copies returns. -/
theorem create_copy_total (env : Alternatives) (Types : List Ty) (index : Nat)
    (to_ from_ : Loc) (w : World) (hi : index < Types.length)
    (hc : ∀ t v, env.copy_raises t v = false) :
    (create env true Types index to_ from_ w).raised = none := by
  rw [create_eq, List.getElem?_eq_getElem hi]
  simp [construct, hc]

/-- A moving `create` on an in-range position with non-throwing moves returns. -/
theorem create_move_total (env : Alternatives) (Types : List Ty) (index : Nat)
    (to_ from_ : Loc) (w : World) (hi : index < Types.length)
    (hm : ∀ t v, env.move_raises t v = false) :
    (create env false Types index to_ from_ w).raised = none := by
  rw [create_eq, List.getElem?_eq_getElem hi]
  simp [construct, hm]

theorem dtor_eq_clear (env : Alternatives) (w : World) (this : Loc) :
    dtor env w this = clear env w this := by
  by_cases h : (w.objs this).index_ = variant_npos <;> simp [dtor, clear, variant.empty, h]

theorem clear_objs_ne (env : Alternatives) (w : World) (this l : Loc) (h : l ≠ this) :
    (clear env w this).objs l = w.objs l := by
  by_cases he : (w.objs this).index_ = variant_npos <;> simp [clear, he, h]

theorem clear_objs_index (env : Alternatives) (w : World) (this : Loc) :
    ((clear env w this).objs this).index_ = variant_npos := by
  by_cases he : (w.objs this).index_ = variant_npos <;> simp [clear, he]

end util

/-! ## Copy and move between two variants -/

namespace util

open details

theorem received_refl (v : variant) : received v v := ⟨rfl, fun _ => ⟨rfl, rfl⟩⟩

theorem received_trans (v3 v2 v : variant) (h32 : received v3 v2) (h21 : received v2 v) :
    received v3 v := by
  refine ⟨h32.1.trans h21.1, fun hne => ?_⟩
  have h2 : v2.index_ ≠ variant_npos := by rw [h21.1]; exact hne
  exact ⟨(h32.2 h2).1.trans (h21.2 hne).1, (h32.2 h2).2.trans (h21.2 hne).2⟩

/-- A state that only differs from `v` in an empty buffer or in nothing that is
observed has received `v`. -/
theorem received_of_eq (v2 v : variant) (hi : v2.index_ = v.index_) (hh : v2.hash_ = v.hash_)
    (hb : v2.buffer_ = v.buffer_) : received v2 v := ⟨hi, fun _ => ⟨hh, hb⟩⟩

/-- What a returning move-construction of `this` from `other` leaves behind. -/
theorem move_ctor_post (env : Alternatives) (w : World) (this other : Loc) (hne : this ≠ other)
    (h : (move_ctor env w this other).raised = none) :
    received ((move_ctor env w this other).world.objs this) (w.objs other) ∧
    ((move_ctor env w this other).world.objs other).index_ = (w.objs other).index_ ∧
    ((move_ctor env w this other).world.objs other).hash_ = (w.objs other).hash_ ∧
    ∀ l, l ≠ this → l ≠ other → (move_ctor env w this other).world.objs l = w.objs l := by
  have hne2 : other ≠ this := fun e => hne e.symm
  by_cases he : (w.objs other).index_ = variant_npos
  · simp only [move_ctor, variant.empty, World.set_objs_same, he, decide_True, Bool.not_true,
      Bool.false_eq_true, if_false]
    refine ⟨⟨by simp [he], fun hx => absurd he hx⟩, ?_, ?_, ?_⟩
    · simp [hne2, he]
    · simp [hne2]
    · intro l hl _
      simp [hl]
  · simp only [move_ctor, variant.empty, World.set_objs_same, he, decide_False, Bool.not_false,
      if_true] at h ⊢
    obtain ⟨T, _, hobjs⟩ := create_move_post env env.Args _ this other _ hne h
    rw [hobjs]
    refine ⟨?_, ?_, ?_, ?_⟩
    · simp [received, hne2]
    · simp [Function.update_noteq hne2, hne2]
    · simp [Function.update_noteq hne2, hne2]
    · intro l hl hl2
      simp [Function.update_noteq hl, Function.update_noteq hl2, hl]

/-- A move-construction from an in-range source with non-throwing moves returns. -/
theorem move_ctor_total (env : Alternatives) (w : World) (this other : Loc)
    (hr : (w.objs other).in_range env.Args.length)
    (hm : ∀ t v, env.move_raises t v = false) :
    (move_ctor env w this other).raised = none := by
  by_cases he : (w.objs other).index_ = variant_npos
  · simp [move_ctor, variant.empty, he]
  · simp only [move_ctor, variant.empty, World.set_objs_same, he, decide_False, Bool.not_false,
      if_true]
    exact create_move_total env _ _ _ _ _ (hr.resolve_left he) hm

/-- What a returning copy-construction of `this` from `other` leaves behind. -/
theorem copy_ctor_post (env : Alternatives) (w : World) (this other : Loc) (hne : this ≠ other)
    (h : (copy_ctor env w this other).raised = none) :
    received ((copy_ctor env w this other).world.objs this) (w.objs other) ∧
    ∀ l, l ≠ this → (copy_ctor env w this other).world.objs l = w.objs l := by
  have hne2 : other ≠ this := fun e => hne e.symm
  by_cases he : (w.objs other).index_ = variant_npos
  · simp only [copy_ctor, variant.empty, World.set_objs_same, he, decide_True, Bool.not_true,
      Bool.false_eq_true, if_false]
    refine ⟨⟨by simp [he], fun hx => absurd he hx⟩, ?_⟩
    intro l hl
    simp [hl]
  · simp only [copy_ctor, variant.empty, World.set_objs_same, he, decide_False, Bool.not_false,
      if_true] at h ⊢
    rw [create_copy_post env env.Args _ this other _ h]
    refine ⟨?_, ?_⟩
    · simp [received, hne2]
    · intro l hl
      simp [Function.update_noteq hl, hl]

/-- A copy-construction from an in-range source with non-throwing copies returns. -/
theorem copy_ctor_total (env : Alternatives) (w : World) (this other : Loc)
    (hr : (w.objs other).in_range env.Args.length)
    (hc : ∀ t v, env.copy_raises t v = false) :
    (copy_ctor env w this other).raised = none := by
  by_cases he : (w.objs other).index_ = variant_npos
  · simp [copy_ctor, variant.empty, he]
  · simp only [copy_ctor, variant.empty, World.set_objs_same, he, decide_False, Bool.not_false,
      if_true]
    exact create_copy_total env _ _ _ _ _ (hr.resolve_left he) hc

/-- What a returning move-assignment between two different objects leaves behind. -/
theorem move_assign_post (env : Alternatives) (w : World) (this other : Loc) (hne : this ≠ other)
    (h : (move_assign env w this other).raised = none) :
    received ((move_assign env w this other).world.objs this) (w.objs other) ∧
    ((move_assign env w this other).world.objs other).index_ = (w.objs other).index_ ∧
    ((move_assign env w this other).world.objs other).hash_ = (w.objs other).hash_ ∧
    ∀ l, l ≠ this → l ≠ other → (move_assign env w this other).world.objs l = w.objs l := by
  have hne2 : other ≠ this := fun e => hne e.symm
  -- the world after the optional `clear()`
  obtain ⟨w1, hw1, h1this, h1other, h1frame⟩ :
      ∃ w1, w1 = (if !(w.objs this).empty then clear env w this else w) ∧
        (w1.objs this).index_ = variant_npos ∧ w1.objs other = w.objs other ∧
        ∀ l, l ≠ this → w1.objs l = w.objs l := by
    refine ⟨_, rfl, ?_, ?_, ?_⟩
    · by_cases he : (w.objs this).index_ = variant_npos
      · simp [variant.empty, he]
      · simp [variant.empty, he, clear_objs_index]
    · by_cases he : (w.objs this).index_ = variant_npos
      · simp [variant.empty, he]
      · simp [variant.empty, he, clear_objs_ne _ _ _ _ hne2]
    · intro l hl
      by_cases he : (w.objs this).index_ = variant_npos
      · simp [variant.empty, he]
      · simp [variant.empty, he, clear_objs_ne _ _ _ _ hl]
  have hstep : move_assign env w this other =
      (if !(w1.objs other).empty then
        (match (create env false env.Args (w1.objs other).index_ this other w1).raised with
          | some e => ⟨(create env false env.Args (w1.objs other).index_ this other w1).world,
              some e⟩
          | none =>
              ⟨(create env false env.Args (w1.objs other).index_ this other w1).world.set this
                { (create env false env.Args (w1.objs other).index_ this other w1).world.objs this
                    with
                  index_ :=
                    ((create env false env.Args (w1.objs other).index_ this other
                      w1).world.objs other).index_,
                  hash_ :=
                    ((create env false env.Args (w1.objs other).index_ this other
                      w1).world.objs other).hash_ }, none⟩)
      else ⟨w1, none⟩) := by
    simp only [move_assign, hne, if_false, hw1]
  rw [hstep] at h ⊢
  by_cases he : (w.objs other).index_ = variant_npos
  · simp only [h1other, variant.empty, he, decide_True, Bool.not_true, Bool.false_eq_true,
      if_false]
    refine ⟨⟨by rw [h1this, he], fun hx => absurd he hx⟩, by simp [h1other], by simp [h1other], ?_⟩
    intro l hl _
    exact h1frame l hl
  · simp only [h1other, variant.empty, he, decide_False, Bool.not_false, if_true] at h ⊢
    cases hc : (create env false env.Args (w.objs other).index_ this other w1).raised with
    | some e => simp [hc] at h
    | none =>
        simp only [hc]
        obtain ⟨T, _, hobjs⟩ := create_move_post env env.Args _ this other w1 hne hc
        refine ⟨?_, ?_, ?_, ?_⟩
        · simp [received, hobjs, Function.update_noteq hne2, h1other]
        · simp [hobjs, Function.update_noteq hne2, hne2, h1other]
        · simp [hobjs, Function.update_noteq hne2, hne2, h1other]
        · intro l hl hl2
          simp [hobjs, Function.update_noteq hl, Function.update_noteq hl2, hl, h1frame l hl]

/-- A move-assignment from an in-range source with non-throwing moves returns. -/
theorem move_assign_total (env : Alternatives) (w : World) (this other : Loc)
    (hr : (w.objs other).in_range env.Args.length)
    (hm : ∀ t v, env.move_raises t v = false) :
    (move_assign env w this other).raised = none := by
  by_cases hne : this = other
  · simp [move_assign, hne]
  · have hne2 : other ≠ this := fun e => hne e.symm
    have h1other : (if !(w.objs this).empty then clear env w this else w).objs other =
        w.objs other := by
      by_cases he : (w.objs this).index_ = variant_npos
      · simp [variant.empty, he]
      · simp [variant.empty, he, clear_objs_ne _ _ _ _ hne2]
    simp only [move_assign, hne, if_false]
    generalize (if !(w.objs this).empty then clear env w this else w) = w1 at h1other ⊢
    by_cases he : (w.objs other).index_ = variant_npos
    · simp [h1other, variant.empty, he]
    · have hc2 := create_move_total env env.Args (w.objs other).index_ this other w1
        (hr.resolve_left he) hm
      simp only [h1other, variant.empty, he, decide_False, Bool.not_false, if_true, hc2]

end util

/-! ## Swap -/

namespace util

open details

theorem received_of_empty (v2 v : variant) (h2 : v2.index_ = variant_npos)
    (h : v.index_ = variant_npos) : received v2 v :=
  ⟨h2.trans h.symm, fun hx => absurd h hx⟩

theorem in_range_of_index (v2 v : variant) (n : Nat) (h : v2.index_ = v.index_)
    (hr : v.in_range n) : v2.in_range n := by
  unfold variant.in_range at *
  rw [h]; exact hr

/-- What a returning `std::swap(a, b)` leaves behind (also when `a` and `b` are
the same object). -/
theorem std_swap_post (env : Alternatives) (w : World) (a b : Loc)
    (ha : a ≠ .temp 1) (hb : b ≠ .temp 1) (h : (std_swap env w a b).raised = none) :
    received ((std_swap env w a b).world.objs a) (w.objs b) ∧
    received ((std_swap env w a b).world.objs b) (w.objs a) ∧
    ∀ l, l ≠ a → l ≠ b → l ≠ .temp 1 → (std_swap env w a b).world.objs l = w.objs l := by
  have hta : Loc.temp 1 ≠ a := fun e => ha e.symm
  have htb : Loc.temp 1 ≠ b := fun e => hb e.symm
  cases h1 : (move_ctor env w (.temp 1) a).raised with
  | some e => simp [std_swap, h1] at h
  | none =>
    obtain ⟨p1t, _, _, p1f⟩ := move_ctor_post env w (.temp 1) a hta h1
    generalize hw1 : (move_ctor env w (.temp 1) a).world = w1 at p1t p1f
    cases h2 : (move_assign env w1 a b).raised with
    | some e => simp [std_swap, h1, hw1, h2] at h
    | none =>
      have h3 : (move_assign env (move_assign env w1 a b).world b (.temp 1)).raised = none := by
        simpa [std_swap, h1, hw1, h2] using h
      have hres : (std_swap env w a b).world =
          clear env (move_assign env (move_assign env w1 a b).world b (.temp 1)).world
            (.temp 1) := by
        simp [std_swap, h1, hw1, h2, dtor_eq_clear]
      obtain ⟨p3b, _, _, p3f⟩ := move_assign_post env _ b (.temp 1) hb h3
      rw [hres]
      by_cases hab : a = b
      · subst hab
        have hw2 : (move_assign env w1 a a).world = w1 := by simp [move_assign]
        rw [hw2] at p3b p3f ⊢
        have hrec : received
            ((clear env (move_assign env w1 a (.temp 1)).world (.temp 1)).objs a) (w.objs a) := by
          rw [clear_objs_ne _ _ _ _ ha]
          exact received_trans _ _ _ p3b p1t
        refine ⟨hrec, hrec, ?_⟩
        intro l hl _ hlt
        rw [clear_objs_ne _ _ _ _ hlt, p3f l hl hlt, p1f l hlt hl]
      · have hba : b ≠ a := fun e => hab e.symm
        obtain ⟨p2a, _, _, p2f⟩ := move_assign_post env w1 a b hab h2
        refine ⟨?_, ?_, ?_⟩
        · rw [clear_objs_ne _ _ _ _ ha, p3f a hab ha]
          rw [p1f b hb hba] at p2a
          exact p2a
        · rw [clear_objs_ne _ _ _ _ hb]
          rw [p2f (.temp 1) hta htb] at p3b
          exact received_trans _ _ _ p3b p1t
        · intro l hla hlb hlt
          rw [clear_objs_ne _ _ _ _ hlt, p3f l hlb hlt, p2f l hla hlb, p1f l hlt hla]

/-- `std::swap(a, b)` on in-range variants with non-throwing element
operations returns. -/
theorem std_swap_total (env : Alternatives) (w : World) (a b : Loc)
    (ha : a ≠ .temp 1) (hb : b ≠ .temp 1)
    (hra : (w.objs a).in_range env.Args.length) (hrb : (w.objs b).in_range env.Args.length)
    (hm : ∀ t v, env.move_raises t v = false) :
    (std_swap env w a b).raised = none := by
  have hta : Loc.temp 1 ≠ a := fun e => ha e.symm
  have htb : Loc.temp 1 ≠ b := fun e => hb e.symm
  have h1 := move_ctor_total env w (.temp 1) a hra hm
  obtain ⟨p1t, p1i, _, p1f⟩ := move_ctor_post env w (.temp 1) a hta h1
  generalize hw1 : (move_ctor env w (.temp 1) a).world = w1 at p1t p1i p1f
  have hr1b : (w1.objs b).in_range env.Args.length := by
    by_cases hab : b = a
    · subst hab; exact in_range_of_index _ _ _ p1i hra
    · rw [p1f b hb hab]; exact hrb
  have h2 := move_assign_total env w1 a b hr1b hm
  have hr2t : ((move_assign env w1 a b).world.objs (.temp 1)).in_range env.Args.length := by
    by_cases hab : a = b
    · subst hab
      have hw2 : (move_assign env w1 a a).world = w1 := by simp [move_assign]
      rw [hw2]; exact in_range_of_index _ _ _ p1t.1 hra
    · obtain ⟨_, _, _, p2f⟩ := move_assign_post env w1 a b hab h2
      rw [p2f (.temp 1) hta htb]; exact in_range_of_index _ _ _ p1t.1 hra
  have h3 := move_assign_total env (move_assign env w1 a b).world b (.temp 1) hr2t hm
  simp [std_swap, h1, hw1, h2, h3]

/-- What a returning `variant::swap` leaves behind. -/
theorem variant_swap_post (env : Alternatives) (w : World) (this other : Loc)
    (ha : this ≠ .temp 1) (hb : other ≠ .temp 1)
    (h : (variant_swap env w this other).raised = none) :
    received ((variant_swap env w this other).world.objs this) (w.objs other) ∧
    received ((variant_swap env w this other).world.objs other) (w.objs this) ∧
    ∀ l, l ≠ this → l ≠ other → l ≠ .temp 1 →
      (variant_swap env w this other).world.objs l = w.objs l := by
  by_cases het : (w.objs this).index_ = variant_npos
  · by_cases heo : (w.objs other).index_ = variant_npos
    · simp only [variant_swap, variant.empty, het, heo, decide_True, Bool.and_self, if_true]
      exact ⟨received_of_empty _ _ het heo, received_of_empty _ _ heo het, fun _ _ _ _ => trivial⟩
    · have hne : this ≠ other := fun e => heo (e ▸ het)
      have hne2 : other ≠ this := fun e => hne e.symm
      cases h1 : (move_assign env w this other).raised with
      | some e => simp [variant_swap, variant.empty, het, heo, h1] at h
      | none =>
        obtain ⟨p1, _, _, p1f⟩ := move_assign_post env w this other hne h1
        have hres : (variant_swap env w this other).world =
            clear env (move_assign env w this other).world other := by
          simp [variant_swap, variant.empty, het, heo, h1]
        rw [hres]
        refine ⟨?_, ?_, ?_⟩
        · rw [clear_objs_ne _ _ _ _ hne]; exact p1
        · exact received_of_empty _ _ (clear_objs_index _ _ _) het
        · intro l hl hl2 _
          rw [clear_objs_ne _ _ _ _ hl2, p1f l hl hl2]
  · by_cases heo : (w.objs other).index_ = variant_npos
    · have hne : this ≠ other := fun e => het (e ▸ heo)
      have hne2 : other ≠ this := fun e => hne e.symm
      cases h1 : (move_assign env w other this).raised with
      | some e => simp [variant_swap, variant.empty, het, heo, h1] at h
      | none =>
        obtain ⟨p1, _, _, p1f⟩ := move_assign_post env w other this hne2 h1
        have hres : (variant_swap env w this other).world =
            clear env (move_assign env w other this).world this := by
          simp [variant_swap, variant.empty, het, heo, h1]
        rw [hres]
        refine ⟨?_, ?_, ?_⟩
        · exact received_of_empty _ _ (clear_objs_index _ _ _) heo
        · rw [clear_objs_ne _ _ _ _ hne2]; exact p1
        · intro l hl hl2 _
          rw [clear_objs_ne _ _ _ _ hl, p1f l hl2 hl]
    · have hres : variant_swap env w this other = std_swap env w this other := by
        simp [variant_swap, variant.empty, het, heo]
      rw [hres] at h ⊢
      exact std_swap_post env w this other ha hb h

/-- `variant::swap` on in-range variants with non-throwing element operations
returns. -/
theorem variant_swap_total (env : Alternatives) (w : World) (this other : Loc)
    (ha : this ≠ .temp 1) (hb : other ≠ .temp 1)
    (hra : (w.objs this).in_range env.Args.length)
    (hrb : (w.objs other).in_range env.Args.length)
    (hm : ∀ t v, env.move_raises t v = false) :
    (variant_swap env w this other).raised = none := by
  by_cases het : (w.objs this).index_ = variant_npos
  · by_cases heo : (w.objs other).index_ = variant_npos
    · simp [variant_swap, variant.empty, het, heo]
    · have h1 := move_assign_total env w this other hrb hm
      simp [variant_swap, variant.empty, het, heo, h1]
  · by_cases heo : (w.objs other).index_ = variant_npos
    · have h1 := move_assign_total env w other this hra hm
      simp [variant_swap, variant.empty, het, heo, h1]
    · have hres : variant_swap env w this other = std_swap env w this other := by
        simp [variant_swap, variant.empty, het, heo]
      rw [hres]
      exact std_swap_total env w this other ha hb hra hrb hm

end util

/-! ## Copy, move and swap as seen through the accessors -/

namespace util

open details

theorem get_value_eq (env : Alternatives) (w : World) (T : Ty) (form : RefForm) (l : Loc) :
    get_value env w T form l =
      if (w.objs l).index_ ≠ variant_npos ∧
          (w.objs l).index_ = get_index_v env.is_convertible T env.Args
      then some (w.objs l).buffer_ else none := by
  by_cases he : (w.objs l).index_ = variant_npos
  · cases form <;>
      simp [get_value, get_ref_by_type, get_ptr_by_type, variant.empty, variant.index, he]
  · by_cases hi : (w.objs l).index_ = get_index_v env.is_convertible T env.Args
    · have he3 : ¬ get_index_v env.is_convertible T env.Args = variant_npos := by
        rw [← hi]; exact he
      cases form <;>
        simp [get_value, get_ref_by_type, get_ptr_by_type, variant.empty, variant.index, he,
          hi, he3, World.read]
    · cases form <;>
        simp [get_value, get_ref_by_type, get_ptr_by_type, variant.empty, variant.index, he, hi]

/-- A variant that received a state yields through `get<T>` what the original
yielded. -/
theorem get_value_of_received (env : Alternatives) (w w2 : World) (a b : Loc)
    (h : received (w2.objs b) (w.objs a)) (T : Ty) (form : RefForm) (x : Nat)
    (hx : get_value env w T form a = some x) : get_value env w2 T form b = some x := by
  rw [get_value_eq] at hx ⊢
  split at hx
  · rename_i hc
    have hb := (h.2 hc.1).2
    simp only [Option.some.injEq] at hx
    rw [if_pos ⟨by rw [h.1]; exact hc.1, by rw [h.1]; exact hc.2⟩, hb, hx]
  · simp at hx

/-- A variant that kept its discriminant does not answer `bad_get` where
`get<T>` yielded a value before. -/
theorem no_bad_get_of_index (env : Alternatives) (w w2 : World) (a : Loc)
    (h : (w2.objs a).index_ = (w.objs a).index_) (T : Ty) (form : RefForm) (x : Nat)
    (hx : get_value env w T form a = some x) :
    get_ref_by_type env w2 T form a ≠ .raised .bad_get := by
  rw [get_value_eq] at hx
  split at hx
  · rename_i hc
    intro hbad
    have hnull : get_ptr_by_type env w2 T (some a) = none := by
      cases hp : get_ptr_by_type env w2 T (some a) with
      | none => rfl
      | some p =>
          rw [get_ref_by_type_eq, hp] at hbad
          simp at hbad
    rcases (get_ptr_by_type_null_iff env w2 T a).1 hnull with he | hi
    · simp only [variant.empty, decide_eq_true_eq] at he
      rw [h] at he
      exact hc.1 he
    · apply hi
      simp only [variant.index]
      rw [h]; exact hc.2
  · simp at hx

theorem copy_of_of_received (env : Alternatives) (w w2 : World) (a b : Loc)
    (h : received (w2.objs b) (w.objs a)) (ha : w2.objs a = w.objs a) :
    copy_of env w w2 a b := by
  refine ⟨h.1, ?_, fun T form x hx => get_value_of_received env w w2 a b h T form x hx, ha⟩
  intro he
  simp only [variant.empty, decide_eq_true_eq] at he ⊢
  rw [h.1]; exact he

theorem moved_into_of_received (env : Alternatives) (w w2 : World) (a b : Loc)
    (h : received (w2.objs b) (w.objs a)) (ha : (w2.objs a).index_ = (w.objs a).index_) :
    moved_into env w w2 a b := by
  refine ⟨h.1, ?_, ha, ?_, ?_⟩
  · intro T form x hx
    exact ⟨get_value_of_received env w w2 a b h T form x hx,
      no_bad_get_of_index env w w2 a ha T form x hx⟩
  · simp only [variant.empty, ha]
  · intro he
    simp only [variant.empty, decide_eq_true_eq] at he ⊢
    rw [h.1]; exact he

theorem exchanged_of_received (w w2 : World) (a b : Loc)
    (hab : received (w2.objs a) (w.objs b)) (hba : received (w2.objs b) (w.objs a)) :
    exchanged w w2 a b := by
  refine ⟨hab, hba, ?_, ?_⟩
  · intro _ he
    simp only [variant.empty, decide_eq_true_eq] at he ⊢
    rw [hab.1]; exact he
  · intro _ he
    simp only [variant.empty, decide_eq_true_eq] at he ⊢
    rw [hba.1]; exact he

/-- What a returning copy-assignment `this = other` leaves behind. -/
theorem copy_assign_post (env : Alternatives) (w : World) (a b : Nat)
    (h : (copy_assign env w (.named b) (.named a)).raised = none) :
    received ((copy_assign env w (.named b) (.named a)).world.objs (.named b))
      (w.objs (.named a)) ∧
    (copy_assign env w (.named b) (.named a)).world.objs (.named a) = w.objs (.named a) := by
  by_cases hab : b = a
  · subst hab
    simp [copy_assign, received_refl]
  · have hne : Loc.named b ≠ Loc.named a := fun e => hab (Loc.named.inj e)
    have hta : Loc.temp 0 ≠ Loc.named a := by simp
    cases h1 : (copy_ctor env w (.temp 0) (.named a)).raised with
    | some e => simp [copy_assign, hne, h1] at h
    | none =>
      obtain ⟨p1, p1f⟩ := copy_ctor_post env w (.temp 0) (.named a) hta h1
      generalize hw1 : (copy_ctor env w (.temp 0) (.named a)).world = w1 at p1 p1f
      have h2 : (variant_swap env w1 (.named b) (.temp 0)).raised = none := by
        simpa [copy_assign, hne, h1, hw1] using h
      have hres : (copy_assign env w (.named b) (.named a)).world =
          clear env (variant_swap env w1 (.named b) (.temp 0)).world (.temp 0) := by
        simp [copy_assign, hne, h1, hw1, dtor_eq_clear]
      obtain ⟨p2, _, p2f⟩ :=
        variant_swap_post env w1 (.named b) (.temp 0) (by simp) (by simp) h2
      rw [hres]
      constructor
      · rw [clear_objs_ne _ _ _ _ (by simp)]
        exact received_trans _ _ _ p2 p1
      · rw [clear_objs_ne _ _ _ _ (by simp),
          p2f (.named a) (fun e => hne e.symm) (by simp) (by simp), p1f (.named a) (by simp)]

/-- A copy-assignment between in-range variants whose element copies and moves
do not throw returns. -/
theorem copy_assign_total (env : Alternatives) (w : World) (a b : Nat)
    (hra : (w.objs (.named a)).in_range env.Args.length)
    (hrb : (w.objs (.named b)).in_range env.Args.length)
    (hc : ∀ t v, env.copy_raises t v = false) (hm : ∀ t v, env.move_raises t v = false) :
    (copy_assign env w (.named b) (.named a)).raised = none := by
  by_cases hab : b = a
  · subst hab
    simp [copy_assign]
  · have hne : Loc.named b ≠ Loc.named a := fun e => hab (Loc.named.inj e)
    have h1 := copy_ctor_total env w (.temp 0) (.named a) hra hc
    obtain ⟨p1, p1f⟩ := copy_ctor_post env w (.temp 0) (.named a) (by simp) h1
    generalize hw1 : (copy_ctor env w (.temp 0) (.named a)).world = w1 at p1 p1f
    have h2 := variant_swap_total env w1 (.named b) (.temp 0) (by simp) (by simp)
      (by rw [p1f (.named b) (by simp)]; exact hrb) (in_range_of_index _ _ _ p1.1 hra) hm
    simp [copy_assign, hne, h1, hw1, h2]

end util

/-! ## Copy-assignment, copy, move and swap: the statements -/

namespace util

open details

/-- C7: copy-assignment is strongly exception safe. When the variants `a` and
`b` are different objects, `b` is non-empty and the copy constructor of the
alternative at `b`'s discriminant throws on `b`'s value, `a = b` lets that
exception escape and leaves `a`, `b` and every other named variant exactly as
they were, with no element constructed or destroyed; and `a = a` returns
without changing anything. -/
theorem copy_assign_strong (env : Alternatives) (w : World) (a b : Nat) (T : Ty)
    (hab : a ≠ b) (hne : (w.objs (.named b)).empty = false)
    (hT : env.Args[(w.objs (.named b)).index]? = some T)
    (hraise : env.copy_raises T (w.objs (.named b)).buffer_ = true) :
    (copy_assign env w (.named a) (.named b)).raised = some .element ∧
    (copy_assign env w (.named a) (.named b)).world.objs (.named a) = w.objs (.named a) ∧
    (copy_assign env w (.named a) (.named b)).world.objs (.named b) = w.objs (.named b) ∧
    (∀ n, (copy_assign env w (.named a) (.named b)).world.objs (.named n) =
      w.objs (.named n)) ∧
    (copy_assign env w (.named a) (.named b)).world.log = w.log ∧
    copy_assign env w (.named a) (.named a) = ⟨w, none⟩ := by
  have hne2 : Loc.named a ≠ Loc.named b := fun e => hab (Loc.named.inj e)
  have he : ¬ (w.objs (.named b)).index_ = variant_npos := by
    simpa [variant.empty] using hne
  have hc : copy_ctor env w (.temp 0) (.named b) =
      ⟨w.set (.temp 0) ⟨(w.objs (.named b)).index_, (w.objs (.named b)).hash_, 0⟩,
        some .element⟩ := by
    simp only [copy_ctor, variant.empty, World.set_objs_same, he, decide_False, Bool.not_false,
      if_true]
    rw [create_eq]
    simp only [variant.index] at hT
    simp [hT, construct, hraise]
  have hres : copy_assign env w (.named a) (.named b) =
      ⟨w.set (.temp 0) ⟨(w.objs (.named b)).index_, (w.objs (.named b)).hash_, 0⟩,
        some .element⟩ := by
    simp [copy_assign, hne2, hc]
  rw [hres]
  refine ⟨rfl, by simp, by simp, fun n => by simp, rfl, by simp [copy_assign]⟩

/-- C7 at `variant<int, helper> a(3), b(helper that throws on copy)`: `a = b`
throws and `a` still holds 3. -/
theorem copy_assign_strong_witness :
    (0 : Nat) ≠ 1 ∧ (three_and_helper.objs (.named 1)).empty = false ∧
    int_helper.Args[(three_and_helper.objs (.named 1)).index]? = some (.obj 1) ∧
    int_helper.copy_raises (.obj 1) (three_and_helper.objs (.named 1)).buffer_ = true ∧
    (copy_assign int_helper three_and_helper (.named 0) (.named 1)).raised = some .element ∧
    (copy_assign int_helper three_and_helper (.named 0) (.named 1)).world.objs (.named 0) =
      three_and_helper.objs (.named 0) :=
  ⟨by decide, by decide, by decide, by decide,
    (copy_assign_strong int_helper three_and_helper 0 1 (.obj 1) (by decide) (by decide)
      (by decide) (by decide)).1,
    (copy_assign_strong int_helper three_and_helper 0 1 (.obj 1) (by decide) (by decide)
      (by decide) (by decide)).2.1⟩

/-- A copy preserves the value and leaves the source unchanged, for every run
that returns. For the
named variants `a` and `b`: a copy-construction of `b` from `a` that returns,
and a copy-assignment `b = a` that returns, from any prior state of `b`,
leave `b` a copy of `a` (same `index()`, empty if `a` is, `get<T>(b)` yielding
what `get<T>(a)` yields) and `a` as it was; and both return whenever the
discriminants are in range and no element copy or move throws. -/
theorem copy_preserves (env : Alternatives) (w : World) (a b : Nat) :
    (a ≠ b → (copy_ctor env w (.named b) (.named a)).raised = none →
      copy_of env w (copy_ctor env w (.named b) (.named a)).world (.named a) (.named b)) ∧
    ((copy_assign env w (.named b) (.named a)).raised = none →
      copy_of env w (copy_assign env w (.named b) (.named a)).world (.named a) (.named b)) ∧
    ((w.objs (.named a)).in_range env.Args.length →
      (w.objs (.named b)).in_range env.Args.length →
      (∀ t v, env.copy_raises t v = false) → (∀ t v, env.move_raises t v = false) →
      (copy_ctor env w (.named b) (.named a)).raised = none ∧
      (copy_assign env w (.named b) (.named a)).raised = none) := by
  refine ⟨?_, ?_, ?_⟩
  · intro hab h
    have hne : Loc.named b ≠ Loc.named a := fun e => hab (Loc.named.inj e).symm
    obtain ⟨p, pf⟩ := copy_ctor_post env w (.named b) (.named a) hne h
    exact copy_of_of_received env w _ _ _ p (pf _ (fun e => hne e.symm))
  · intro h
    obtain ⟨p, pa⟩ := copy_assign_post env w a b h
    exact copy_of_of_received env w _ _ _ p pa
  · intro hra hrb hc hm
    exact ⟨copy_ctor_total env w _ _ hra hc, copy_assign_total env w a b hra hrb hc hm⟩

/-- The returning copy-assignment at `variant<int, std::string> a(3),
b("Hello"); b = a;`: `b` is a copy of `a`. -/
theorem copy_preserves_witness :
    (copy_assign int_string three_and_hello (.named 1) (.named 0)).raised = none ∧
    copy_of int_string three_and_hello
      (copy_assign int_string three_and_hello (.named 1) (.named 0)).world
      (.named 0) (.named 1) :=
  ⟨by decide, (copy_preserves int_string three_and_hello 0 1).2.1 (by decide)⟩

/-- C9: a move transfers the value and keeps the source's discriminant. For
different named variants `a` and `b`, with `b` in any prior state: a
move-assignment `b = std::move(a)` that returns, and a move-construction of
`b` from `a` that returns, leave `b` with `a`'s discriminant and with
`get<T>(b)` yielding what `get<T>(a)` yielded, while `a` keeps its `index()`
and its `empty()` and `get<T>(a)` does not throw `bad_get`; if `a` was empty,
`b` ends empty. Both return whenever `a`'s discriminant is in range and no
element move throws. -/
theorem move_transfers (env : Alternatives) (w : World) (a b : Nat) (hab : a ≠ b) :
    ((move_assign env w (.named b) (.named a)).raised = none →
      moved_into env w (move_assign env w (.named b) (.named a)).world (.named a) (.named b)) ∧
    ((move_ctor env w (.named b) (.named a)).raised = none →
      moved_into env w (move_ctor env w (.named b) (.named a)).world (.named a) (.named b)) ∧
    ((w.objs (.named a)).in_range env.Args.length →
      (∀ t v, env.move_raises t v = false) →
      (move_assign env w (.named b) (.named a)).raised = none ∧
      (move_ctor env w (.named b) (.named a)).raised = none) := by
  have hne : Loc.named b ≠ Loc.named a := fun e => hab (Loc.named.inj e).symm
  refine ⟨?_, ?_, ?_⟩
  · intro h
    obtain ⟨p, pi, _, _⟩ := move_assign_post env w _ _ hne h
    exact moved_into_of_received env w _ _ _ p pi
  · intro h
    obtain ⟨p, pi, _, _⟩ := move_ctor_post env w _ _ hne h
    exact moved_into_of_received env w _ _ _ p pi
  · intro hra hm
    exact ⟨move_assign_total env w _ _ hra hm, move_ctor_total env w _ _ hra hm⟩

/-- C9 at `variant<int, std::string> a(3), b("Hello"); b = std::move(a);`. -/
theorem move_transfers_witness :
    (0 : Nat) ≠ 1 ∧
    (move_assign int_string three_and_hello (.named 1) (.named 0)).raised = none ∧
    moved_into int_string three_and_hello
      (move_assign int_string three_and_hello (.named 1) (.named 0)).world
      (.named 0) (.named 1) :=
  ⟨by decide, by decide,
    (move_transfers int_string three_and_hello 0 1 (by decide)).1 (by decide)⟩

/-- C10: swap exchanges the full state. For named variants `a` and `b` over
the same alternative list, with in-range discriminants and non-throwing
element moves, `a.swap(b)` returns and afterwards each side has the other's
former discriminant and, where that one was non-empty, its type token and
live value; when exactly one side was empty the formerly non-empty side ends
empty; and `util::swap(a, b)` is `a.swap(b)`. -/
theorem swap_exchanges (env : Alternatives) (w : World) (a b : Nat)
    (hra : (w.objs (.named a)).in_range env.Args.length)
    (hrb : (w.objs (.named b)).in_range env.Args.length)
    (hm : ∀ t v, env.move_raises t v = false) :
    (variant_swap env w (.named a) (.named b)).raised = none ∧
    exchanged w (variant_swap env w (.named a) (.named b)).world (.named a) (.named b) ∧
    swap env w (.named a) (.named b) = variant_swap env w (.named a) (.named b) := by
  have h := variant_swap_total env w (.named a) (.named b) (by simp) (by simp) hra hrb hm
  obtain ⟨pab, pba, _⟩ := variant_swap_post env w (.named a) (.named b) (by simp) (by simp) h
  exact ⟨h, exchanged_of_received w _ _ _ pab pba, rfl⟩

/-- C10 at `variant<int, std::string> a(3), b("Hello"); swap(a, b);`. -/
theorem swap_exchanges_witness :
    (three_and_hello.objs (.named 0)).in_range int_string.Args.length ∧
    (three_and_hello.objs (.named 1)).in_range int_string.Args.length ∧
    (∀ t v, int_string.move_raises t v = false) ∧
    exchanged three_and_hello
      (variant_swap int_string three_and_hello (.named 0) (.named 1)).world
      (.named 0) (.named 1) :=
  ⟨Or.inr (by decide), Or.inr (by decide), fun _ _ => rfl,
    (swap_exchanges int_string three_and_hello 0 1 (Or.inr (by decide)) (Or.inr (by decide))
      (fun _ _ => rfl)).2.1⟩

end util

/-! ## Storage size and alignment -/

namespace util

open details

theorem find_max_from_mem (a : Nat) (l : List Nat) :
    find_max_from a l = a ∨ find_max_from a l ∈ l := by
  induction l generalizing a with
  | nil => left; rfl
  | cons b l ih =>
      simp only [find_max_from]
      split
      · rcases ih a with h | h
        · left; exact h
        · right; exact List.mem_cons_of_mem _ h
      · rcases ih b with h | h
        · right; rw [h]; exact List.mem_cons_self _ _
        · right; exact List.mem_cons_of_mem _ h

theorem find_max_from_ge (a : Nat) (l : List Nat) :
    a ≤ find_max_from a l ∧ ∀ x, x ∈ l → x ≤ find_max_from a l := by
  induction l generalizing a with
  | nil => simp [find_max_from]
  | cons b l ih =>
      simp only [find_max_from]
      split
      · rename_i hab
        refine ⟨(ih a).1, ?_⟩
        intro x hx
        rcases List.mem_cons.1 hx with h | h
        · subst h; exact le_trans hab (ih a).1
        · exact (ih a).2 x h
      · rename_i hab
        have hab2 : a ≤ b := by omega
        refine ⟨le_trans hab2 (ih b).1, ?_⟩
        intro x hx
        rcases List.mem_cons.1 hx with h | h
        · subst h; exact (ih x).1
        · exact (ih b).2 x h

/-- `find_max` of a non-empty pack is an element of the pack that no element
exceeds. -/
theorem find_max_spec (l : List Nat) (h : l ≠ []) :
    ∃ m, find_max l = some m ∧ m ∈ l ∧ ∀ x, x ∈ l → x ≤ m := by
  cases l with
  | nil => exact absurd rfl h
  | cons a l =>
      refine ⟨find_max_from a l, rfl, ?_, ?_⟩
      · rcases find_max_from_mem a l with h1 | h1
        · rw [h1]; exact List.mem_cons_self _ _
        · exact List.mem_cons_of_mem _ h1
      · intro x hx
        rcases List.mem_cons.1 hx with h1 | h1
        · subst h1; exact (find_max_from_ge x l).1
        · exact (find_max_from_ge a l).2 x h1

/-- C15: for a non-empty alternative list the buffer size and alignment are
the maxima of `sizeof` and `alignof` over the alternatives: each is attained
by an alternative and no alternative exceeds it; a reordering of the list
gives the same values; and for a list of two alternatives whose second is at
least as aligned as the first, the alignment is the second one's. -/
theorem storage_is_maximum (sizeof_ alignof_ : Ty → Nat) (Args : List Ty) (h : Args ≠ []) :
    (∃ m, size_of_data_ sizeof_ Args = some m ∧ (∃ T, T ∈ Args ∧ sizeof_ T = m) ∧
      ∀ T, T ∈ Args → sizeof_ T ≤ m) ∧
    (∃ m, alignas_of_data_ alignof_ Args = some m ∧ (∃ T, T ∈ Args ∧ alignof_ T = m) ∧
      ∀ T, T ∈ Args → alignof_ T ≤ m) ∧
    (∀ Args2, Args.Perm Args2 →
      size_of_data_ sizeof_ Args2 = size_of_data_ sizeof_ Args ∧
      alignas_of_data_ alignof_ Args2 = alignas_of_data_ alignof_ Args) ∧
    (∀ c X, Args = [c, X] → alignof_ c ≤ alignof_ X →
      alignas_of_data_ alignof_ Args = some (alignof_ X)) := by
  have key : ∀ (f : Ty → Nat) (A : List Ty), A ≠ [] →
      ∃ m, find_max (A.map f) = some m ∧ (∃ T, T ∈ A ∧ f T = m) ∧ ∀ T, T ∈ A → f T ≤ m := by
    intro f A hA
    obtain ⟨m, hm, hmem, hmax⟩ := find_max_spec (A.map f) (by simpa using hA)
    refine ⟨m, hm, ?_, ?_⟩
    · obtain ⟨T, hT, hf⟩ := List.mem_map.1 hmem
      exact ⟨T, hT, hf⟩
    · intro T hT
      exact hmax _ (List.mem_map.2 ⟨T, hT, rfl⟩)
  have perm : ∀ (f : Ty → Nat) (A2 : List Ty), Args.Perm A2 →
      find_max (A2.map f) = find_max (Args.map f) := by
    intro f A2 hp
    have h2 : A2 ≠ [] := fun e => h (by subst e; exact List.Perm.eq_nil hp)
    obtain ⟨m, hm, ⟨T, hT, hfT⟩, hmax⟩ := key f Args h
    obtain ⟨m2, hm2, ⟨T2, hT2, hfT2⟩, hmax2⟩ := key f A2 h2
    rw [hm, hm2]
    congr 1
    have h12 : m ≤ m2 := by rw [← hfT]; exact hmax2 T (hp.mem_iff.1 hT)
    have h21 : m2 ≤ m := by rw [← hfT2]; exact hmax T2 (hp.mem_iff.2 hT2)
    omega
  refine ⟨key sizeof_ Args h, key alignof_ Args h, ?_, ?_⟩
  · intro Args2 hp
    exact ⟨perm sizeof_ Args2 hp, perm alignof_ Args2 hp⟩
  · intro c X hA hle
    subst hA
    by_cases hx : alignof_ c ≥ alignof_ X
    · have : alignof_ c = alignof_ X := by omega
      simp [alignas_of_data_, find_max, find_max_from, this]
    · simp [alignas_of_data_, find_max, find_max_from, hx]

/-- C15 at `variant<char, X>` with `alignof(char) = 1` and `alignof(X) = 128`:
the buffer alignment is 128. -/
theorem storage_is_maximum_witness :
    [Ty.obj 0, Ty.obj 1] ≠ [] ∧
    alignas_of_data_ (fun T => if T = .obj 1 then 128 else 1) [.obj 0, .obj 1] = some 128 :=
  ⟨by decide,
    (storage_is_maximum (fun _ => 1) (fun T => if T = .obj 1 then 128 else 1)
      [.obj 0, .obj 1] (by decide)).2.2.2 (.obj 0) (.obj 1) rfl (by decide)⟩

end util

/-! ## `clear` and the destructor dispatch -/

namespace util

open details

/-- On an in-range position `destroy` runs the destructor of the alternative at
that position, once. -/
theorem destroy_eq (Types : List Ty) (index : Nat) (element : Loc) (w : World) (T : Ty)
    (h : Types[index]? = some T) :
    destroy Types index element w = w.logged (.destroyed element T) := by
  induction Types generalizing index with
  | nil => simp at h
  | cons t ts ih =>
      cases ts with
      | nil =>
          cases index with
          | zero =>
              simp only [List.getElem?_cons_zero, Option.some.injEq] at h
              simp [destroy, h]
          | succ k => simp at h
      | cons t2 ts2 =>
          cases index with
          | zero =>
              simp only [List.getElem?_cons_zero, Option.some.injEq] at h
              simp [destroy, h]
          | succ k =>
              simp only [destroy]
              exact ih k (by simpa using h)

theorem clear_of_empty (env : Alternatives) (w : World) (this : Loc)
    (h : (w.objs this).empty = true) : clear env w this = w := by
  have he : (w.objs this).index_ = variant_npos := by simpa [variant.empty] using h
  simp [clear, he]

/-- The world `clear` leaves behind for a non-empty variant whose discriminant
is the position of `T`. -/
theorem clear_of_live (env : Alternatives) (w : World) (this : Loc) (T : Ty)
    (hne : (w.objs this).empty = false) (hT : env.Args[(w.objs this).index_]? = some T) :
    clear env w this =
      (w.logged (.destroyed this T)).set this
        ⟨variant_npos, variant_npos, (w.objs this).buffer_⟩ := by
  have he : ¬ (w.objs this).index_ = variant_npos := by simpa [variant.empty] using hne
  simp [clear, he, destroy_eq _ _ _ _ T hT]

/-- C13: on a non-empty variant whose discriminant is the position of the
alternative `T`, `clear()` runs the destructor of `T` on the stored value
exactly once and nothing else, and leaves the variant empty with the sentinel
as discriminant and as type token, every other variant as it was; on an empty
variant `clear()` changes nothing, so a second `clear()` is a no-op. -/
theorem clear_destroys (env : Alternatives) (w : World) (this : Loc) (T : Ty)
    (hne : (w.objs this).empty = false) (hT : env.Args[(w.objs this).index]? = some T) :
    (clear env w this).log = w.log ++ [.destroyed this T] ∧
    ((clear env w this).objs this).empty = true ∧
    ((clear env w this).objs this).index = variant_npos ∧
    ((clear env w this).objs this).hash_type = variant_npos ∧
    (∀ l, l ≠ this → (clear env w this).objs l = w.objs l) ∧
    (∀ w2 : World, (w2.objs this).empty = true → clear env w2 this = w2) ∧
    clear env (clear env w this) this = clear env w this := by
  have hc := clear_of_live env w this T hne hT
  have hemp : ((clear env w this).objs this).empty = true := by
    rw [hc]; simp [variant.empty]
  refine ⟨?_, hemp, ?_, ?_, ?_, fun w2 h2 => clear_of_empty env w2 this h2,
    clear_of_empty env _ this hemp⟩
  · rw [hc]; rfl
  · rw [hc]; simp [variant.index]
  · rw [hc]; simp [variant.hash_type]
  · intro l hl
    rw [hc]; simp [hl]

end util

namespace util

/-- C13 at `variant<int, helper> b(helper(..))`: `b.clear()` logs one `helper`
destructor and empties `b`. -/
theorem clear_destroys_witness :
    (three_and_helper.objs (.named 1)).empty = false ∧
    int_helper.Args[(three_and_helper.objs (.named 1)).index]? = some (.obj 1) ∧
    (clear int_helper three_and_helper (.named 1)).log =
      three_and_helper.log ++ [.destroyed (.named 1) (.obj 1)] ∧
    ((clear int_helper three_and_helper (.named 1)).objs (.named 1)).empty = true :=
  ⟨by decide, by decide,
    (clear_destroys int_helper three_and_helper (.named 1) (.obj 1) (by decide) (by decide)).1,
    (clear_destroys int_helper three_and_helper (.named 1) (.obj 1) (by decide)
      (by decide)).2.1⟩

end util

/-! ## Discriminant and type token agree in every state -/

namespace util

open details

theorem valid_of_tag (env : Alternatives) (v2 v : variant) (hi : v2.index_ = v.index_)
    (hh : v2.hash_ = v.hash_) (h : v.valid env) : v2.valid env := by
  unfold variant.valid at *
  rw [hi, hh]; exact h

theorem valid_cleared (env : Alternatives) (b : Nat) :
    (⟨variant_npos, variant_npos, b⟩ : variant).valid env := Or.inl ⟨rfl, rfl⟩

theorem valid_in_range (env : Alternatives) (v : variant) (h : v.valid env) :
    v.in_range env.Args.length := by
  rcases h with ⟨h, _⟩ | ⟨_, T, hT, _, _⟩
  · exact Or.inl h
  · exact Or.inr (List.getElem?_eq_some.1 hT).1

theorem World.valid_set (env : Alternatives) (w : World) (l : Loc) (v : variant)
    (hw : w.valid env) (hv : v.valid env) : (w.set l v).valid env := by
  intro l2
  by_cases h : l2 = l
  · subst h; simpa using hv
  · simpa [h] using hw l2

/-- A world whose states have the tags of a valid world is valid. -/
theorem World.valid_of_tags (env : Alternatives) (w w2 : World) (hw : w.valid env)
    (h : ∀ l, (w2.objs l).index_ = (w.objs l).index_ ∧ (w2.objs l).hash_ = (w.objs l).hash_) :
    w2.valid env :=
  fun l => valid_of_tag env _ _ (h l).1 (h l).2 (hw l)

/-- `create` writes buffers only: no discriminant and no type token changes. -/
theorem create_tags (env : Alternatives) (Copy : Bool) (Types : List Ty) (index : Nat)
    (to_ from_ : Loc) (w : World) (l : Loc) :
    ((create env Copy Types index to_ from_ w).world.objs l).index_ = (w.objs l).index_ ∧
    ((create env Copy Types index to_ from_ w).world.objs l).hash_ = (w.objs l).hash_ := by
  rw [create_eq]
  cases hT : Types[index]? with
  | none => simp
  | some T =>
      simp only
      cases Copy
      · by_cases hm : env.move_raises T (w.objs from_).buffer_ = true
        · simp [construct, hm]
        · by_cases h1 : l = to_
          · subst h1
            by_cases h2 : l = from_
            · subst h2; simp [construct, hm]
            · simp [construct, hm, h2]
          · by_cases h2 : l = from_
            · subst h2; simp [construct, hm, h1]
            · simp [construct, hm, h1, h2]
      · by_cases hm : env.copy_raises T (w.objs from_).buffer_ = true
        · simp [construct, hm]
        · by_cases h1 : l = to_
          · subst h1; simp [construct, hm]
          · simp [construct, hm, h1]

theorem valid_create (env : Alternatives) (Copy : Bool) (Types : List Ty) (index : Nat)
    (to_ from_ : Loc) (w : World) (hw : w.valid env) :
    (create env Copy Types index to_ from_ w).world.valid env :=
  World.valid_of_tags env w _ hw (create_tags env Copy Types index to_ from_ w)

theorem valid_clear (env : Alternatives) (w : World) (this : Loc) (hw : w.valid env) :
    (clear env w this).valid env := by
  intro l
  by_cases h : l = this
  · subst h
    by_cases he : (w.objs l).index_ = variant_npos
    · simpa [clear, he] using hw l
    · simp only [clear, he, ne_eq, not_false_eq_true, if_true, World.set_objs_same]
      exact valid_cleared env _
  · rw [clear_objs_ne _ _ _ _ h]; exact hw l

theorem valid_dtor (env : Alternatives) (w : World) (this : Loc) (hw : w.valid env) :
    (dtor env w this).valid env := by
  rw [dtor_eq_clear]; exact valid_clear env w this hw

theorem valid_default_ctor (env : Alternatives) (w : World) (this : Loc) (hw : w.valid env) :
    (default_ctor w this).valid env :=
  World.valid_set env w this _ hw (valid_cleared env 0)

theorem valid_copy_ctor (env : Alternatives) (w : World) (this other : Loc)
    (hw : w.valid env) : (copy_ctor env w this other).world.valid env := by
  have h1 : (w.set this ⟨(w.objs other).index_, (w.objs other).hash_, 0⟩).valid env :=
    World.valid_set env w this _ hw (valid_of_tag env _ _ rfl rfl (hw other))
  unfold copy_ctor
  simp only
  split
  · exact valid_create env true _ _ _ _ _ h1
  · exact h1

theorem valid_move_ctor (env : Alternatives) (w : World) (this other : Loc)
    (hw : w.valid env) : (move_ctor env w this other).world.valid env := by
  have h1 : (w.set this ⟨(w.objs other).index_, (w.objs other).hash_, 0⟩).valid env :=
    World.valid_set env w this _ hw (valid_of_tag env _ _ rfl rfl (hw other))
  unfold move_ctor
  simp only
  split
  · exact valid_create env false _ _ _ _ _ h1
  · exact h1

theorem valid_move_assign (env : Alternatives) (w : World) (this other : Loc)
    (hw : w.valid env) : (move_assign env w this other).world.valid env := by
  unfold move_assign
  split
  · exact hw
  · have h1 : (if !(w.objs this).empty then clear env w this else w).valid env := by
      split
      · exact valid_clear env w this hw
      · exact hw
    simp only
    generalize (if !(w.objs this).empty then clear env w this else w) = w1 at h1 ⊢
    split
    · have h2 := valid_create env false env.Args (w1.objs other).index_ this other w1 h1
      generalize create env false env.Args (w1.objs other).index_ this other w1 = s at h2 ⊢
      cases hr : s.raised with
      | some e => simpa [hr] using h2
      | none =>
          simp only [hr]
          exact World.valid_set env _ this _ h2 (valid_of_tag env _ _ rfl rfl (h2 other))
    · exact h1

theorem valid_std_swap (env : Alternatives) (w : World) (a b : Loc) (hw : w.valid env) :
    (std_swap env w a b).world.valid env := by
  have h1 := valid_move_ctor env w (.temp 1) a hw
  unfold std_swap
  simp only
  generalize move_ctor env w (.temp 1) a = s1 at h1 ⊢
  cases hr1 : s1.raised with
  | some e => simpa [hr1] using h1
  | none =>
      simp only [hr1]
      have h2 := valid_move_assign env s1.world a b h1
      generalize move_assign env s1.world a b = s2 at h2 ⊢
      cases hr2 : s2.raised with
      | some e => simpa [hr2] using valid_dtor env s2.world (.temp 1) h2
      | none =>
          simp only [hr2]
          exact valid_dtor env _ (.temp 1) (valid_move_assign env s2.world b (.temp 1) h2)

theorem valid_variant_swap (env : Alternatives) (w : World) (this other : Loc)
    (hw : w.valid env) : (variant_swap env w this other).world.valid env := by
  unfold variant_swap
  split
  · exact hw
  · split
    · have h1 := valid_move_assign env w other this hw
      generalize move_assign env w other this = s at h1 ⊢
      cases hr : s.raised with
      | some e => simpa [hr] using h1
      | none => simpa [hr] using valid_clear env s.world this h1
    · split
      · have h1 := valid_move_assign env w this other hw
        generalize move_assign env w this other = s at h1 ⊢
        cases hr : s.raised with
        | some e => simpa [hr] using h1
        | none => simpa [hr] using valid_clear env s.world other h1
      · exact valid_std_swap env w this other hw

theorem valid_copy_assign (env : Alternatives) (w : World) (this other : Loc)
    (hw : w.valid env) : (copy_assign env w this other).world.valid env := by
  unfold copy_assign
  split
  · exact hw
  · have h1 := valid_copy_ctor env w (.temp 0) other hw
    simp only
    generalize copy_ctor env w (.temp 0) other = s1 at h1 ⊢
    cases hr : s1.raised with
    | some e => simpa [hr] using h1
    | none =>
        simp only [hr]
        exact valid_dtor env _ (.temp 0) (valid_variant_swap env s1.world this (.temp 0) h1)

/-- The position `get_index_v` selects is the first position of the type found
there. -/
theorem get_index_v_first (conv : Ty → Ty → Bool) (T a : Ty) (Types : List Ty)
    (hfit : Types.length ≤ variant_npos)
    (h : get_type (get_index_v conv T Types) Types = some a) :
    get_index 0 a Types = get_index_v conv T Types := by
  rw [get_type_eq_getElem] at h
  have hlt : get_index_v conv T Types < Types.length := (List.getElem?_eq_some.1 h).1
  have hmem : a ∈ Types := List.getElem?_mem h
  obtain ⟨k2, hk2, hget2, hfirst2⟩ := get_index_mem 0 a Types hmem
  by_cases hany : Types.any (fun t => decide (T = t)) = true
  · have hT : T ∈ Types := (any_same_iff T Types).1 hany
    obtain ⟨k, hk, hget, _⟩ := get_index_mem 0 T Types hT
    have hv : get_index_v conv T Types = k := by
      rw [get_index_v_mem _ _ _ hT, hk]; omega
    rw [hv] at h ⊢
    rw [hget] at h
    have : T = a := Option.some.inj h
    subst this
    rw [hk]; omega
  · have hv : get_index_v conv T Types = get_conv_index conv 0 T Types := by
      simp [get_index_v, hany]
    rcases get_conv_index_spec conv 0 T Types with ⟨_, hn⟩ | ⟨k, a2, hk, hget, hconv, hfirst⟩
    · rw [hv, hn] at hlt
      omega
    · have hvk : get_index_v conv T Types = k := by rw [hv, hk]; omega
      rw [hvk] at h ⊢
      rw [hget] at h
      have : a2 = a := Option.some.inj h
      subst this
      rw [hk2]
      by_contra hne
      have hlt2 : k2 < k ∨ k < k2 := by omega
      rcases hlt2 with h3 | h3
      · have := hfirst k2 a2 h3 hget2
        rw [hconv] at this
        exact absurd this (by decide)
      · exact hfirst2 k h3 hget

theorem valid_value_ctor (env : Alternatives) (w : World) (this : Loc) (T : Ty) (value : Nat)
    (s : Step) (hfit : env.fits) (hw : w.valid env)
    (h : value_ctor env w this T value = some s) : s.world.valid env := by
  unfold value_ctor at h
  split at h
  · simp only at h
    cases hty : get_type (get_index_v env.is_convertible T env.Args) env.Args with
    | none => simp [hty] at h
    | some a =>
        simp only [hty] at h
        have h0 : (w.set this ⟨variant_npos, variant_npos, 0⟩).valid env :=
          World.valid_set env w this _ hw (valid_cleared env 0)
        cases hc : construct_from env T a value with
        | none =>
            simp only [hc, Option.some.injEq] at h
            subst h
            exact h0
        | some x =>
            simp only [hc, Option.some.injEq] at h
            subst h
            have hget : env.Args[get_index_v env.is_convertible T env.Args]? = some a := by
              rw [← get_type_eq_getElem]; exact hty
            have hlt := (List.getElem?_eq_some.1 hget).1
            have hv : (⟨get_index_v env.is_convertible T env.Args, env.hash_code a, x⟩ :
                variant).valid env := by
              refine Or.inr ⟨?_, a, hget, rfl, get_index_v_first _ _ _ _ hfit hty⟩
              unfold Alternatives.fits at hfit
              simp only
              omega
            exact World.valid_set env _ this _ h0 hv
  · simp at h

theorem valid_value_assign (env : Alternatives) (w : World) (this : Loc) (T : Ty)
    (object : Nat) (s : Step) (hfit : env.fits) (hw : w.valid env)
    (h : value_assign env w this T object = some s) : s.world.valid env := by
  unfold value_assign at h
  simp only at h
  cases hv : value_ctor env w (.temp 0) T object with
  | none => simp [hv] at h
  | some s1 =>
      have h1 := valid_value_ctor env w (.temp 0) T object s1 hfit hw hv
      simp only [hv] at h
      cases hr : s1.raised with
      | some e =>
          simp only [hr, Option.some.injEq] at h
          subst h
          exact h1
      | none =>
          simp only [hr, Option.some.injEq] at h
          subst h
          exact valid_dtor env _ (.temp 0) (valid_move_assign env s1.world this (.temp 0) h1)

/-- Every reachable world is valid. -/
theorem reachable_valid (env : Alternatives) (w : World) (hfit : env.fits)
    (h : Reachable env w) : w.valid env := by
  induction h with
  | start => exact fun _ => valid_cleared env 0
  | default_ctor w n _ _ ih => exact valid_default_ctor env w _ ih
  | value_ctor w n T value s _ _ hv _ ih => exact valid_value_ctor env w _ T value s hfit ih hv
  | copy_ctor w n m _ _ _ _ ih => exact valid_copy_ctor env w _ _ ih
  | move_ctor w n m _ _ _ _ ih => exact valid_move_ctor env w _ _ ih
  | copy_assign w n m _ ih => exact valid_copy_assign env w _ _ ih
  | move_assign w n m _ ih => exact valid_move_assign env w _ _ ih
  | value_assign w n T object s _ hv ih => exact valid_value_assign env w _ T object s hfit ih hv
  | swap w n m _ ih => exact valid_variant_swap env w _ _ ih
  | clear w n _ ih => exact valid_clear env w _ ih
  | dtor w n _ ih => exact valid_dtor env w _ ih

end util

/-! ## Invariants of the reachable states -/

namespace util

open details

theorem after_of_some (r : Option Step) (w : World) (s : Step) (h : r = some s) :
    after r w = s.world := by
  subst h; rfl

/-- A value construction that is accepted and returns extends a reachable world. -/
theorem reachable_value_ctor (env : Alternatives) (w : World) (n : Nat) (T : Ty) (value : Nat)
    (hw : Reachable env w) (he : (w.objs (.named n)).empty = true)
    (hr : (value_ctor env w (.named n) T value).map Step.raised = some none) :
    Reachable env (after (value_ctor env w (.named n) T value) w) := by
  cases h : value_ctor env w (.named n) T value with
  | none => simp [h] at hr
  | some s =>
      rw [h] at hr
      simp only [Option.map_some', Option.some.injEq] at hr
      rw [after_of_some _ _ s rfl]
      exact Reachable.value_ctor w n T value s hw he h hr

/-- A value assignment that is accepted extends a reachable world. -/
theorem reachable_value_assign (env : Alternatives) (w : World) (n : Nat) (T : Ty)
    (object : Nat) (hw : Reachable env w)
    (hs : (value_assign env w (.named n) T object).isSome = true) :
    Reachable env (after (value_assign env w (.named n) T object) w) := by
  cases h : value_assign env w (.named n) T object with
  | none => simp [h] at hs
  | some s =>
      rw [after_of_some _ _ s rfl]
      exact Reachable.value_assign w n T object s hw h

/-- C17: in every world reachable through the public interface (over a pack
whose positions fit `size_t` and none of whose hash codes is the sentinel),
each named variant has a discriminant that is `variant_npos` or a position of
the list; the discriminant is the sentinel exactly when the type token is;
and when the discriminant is `i` the type token is the hash code of the
`i`-th alternative. Alternatives may share a hash code. -/
theorem tag_invariant (env : Alternatives) (w : World) (hfit : env.fits)
    (hns : env.no_sentinel) (h : Reachable env w) (n : Nat) :
    ((w.objs (.named n)).index = variant_npos ∨
      (w.objs (.named n)).index < env.Args.length) ∧
    ((w.objs (.named n)).index = variant_npos ↔
      (w.objs (.named n)).hash_type = variant_npos) ∧
    (∀ i T, (w.objs (.named n)).index = i → env.Args[i]? = some T →
      (w.objs (.named n)).hash_type = env.hash_code T) := by
  have hv := reachable_valid env w hfit h (.named n)
  simp only [variant.index, variant.hash_type]
  refine ⟨valid_in_range env _ hv, ?_, ?_⟩
  · rcases hv with ⟨hi, hh⟩ | ⟨hi, T, hT, hh, _⟩
    · simp [hi, hh]
    · constructor
      · intro e; exact absurd e hi
      · intro e
        rw [hh] at e
        exact absurd e (hns T (List.getElem?_mem hT))
  · intro i T hi hT
    rcases hv with ⟨hi2, _⟩ | ⟨_, T2, hT2, hh, _⟩
    · rw [← hi, hi2] at hT
      have := (List.getElem?_eq_some.1 hT).1
      unfold Alternatives.fits at hfit
      omega
    · rw [hi, hT] at hT2
      rw [hh, ← Option.some.inj hT2]

/-- What `create` does on a position of the pack: when the constructor of the
alternative there (the copy constructor if `Copy`, the move constructor
otherwise) throws on the source value, the exception leaves and the world is
untouched; otherwise `create` returns, one construction of that alternative
in the destination is logged, the destination buffer holds the source value,
the source is unchanged by a copy and moved-from after a move, and nothing
else changes. -/
theorem create_effect (env : Alternatives) (Copy : Bool) (Types : List Ty) (index : Nat)
    (to_ from_ : Loc) (w : World) (T : Ty) (hT : Types[index]? = some T) :
    ((if Copy then env.copy_raises T (w.objs from_).buffer_
        else env.move_raises T (w.objs from_).buffer_) = true →
      create env Copy Types index to_ from_ w = ⟨w, some .element⟩) ∧
    ((if Copy then env.copy_raises T (w.objs from_).buffer_
        else env.move_raises T (w.objs from_).buffer_) = false →
      (create env Copy Types index to_ from_ w).raised = none ∧
      (create env Copy Types index to_ from_ w).world.log = w.log ++ [.constructed to_ T] ∧
      ((create env Copy Types index to_ from_ w).world.objs to_).buffer_ =
        (w.objs from_).buffer_ ∧
      (∀ l, ((create env Copy Types index to_ from_ w).world.objs l).index_ =
          (w.objs l).index_ ∧
        ((create env Copy Types index to_ from_ w).world.objs l).hash_ = (w.objs l).hash_) ∧
      (∀ l, l ≠ to_ → l ≠ from_ →
        (create env Copy Types index to_ from_ w).world.objs l = w.objs l) ∧
      (to_ ≠ from_ →
        ((create env Copy Types index to_ from_ w).world.objs from_).buffer_ =
          if Copy then (w.objs from_).buffer_
          else env.moved_from T (w.objs from_).buffer_)) := by
  have htags := create_tags env Copy Types index to_ from_ w
  rw [create_eq, hT] at htags ⊢
  simp only at htags ⊢
  cases Copy
  · simp only [Bool.false_eq_true, if_false] at htags ⊢
    constructor
    · intro hm
      simp [construct, hm]
    · intro hm
      refine ⟨by simp [construct, hm], by simp [construct, hm, World.logged, World.set],
        by simp [construct, hm], htags, ?_, ?_⟩
      · intro l h1 h2
        simp [construct, hm, h1, h2]
      · intro hne
        have hne2 : from_ ≠ to_ := fun e => hne e.symm
        simp [construct, hm, hne2]
  · simp only [if_true] at htags ⊢
    constructor
    · intro hm
      simp [construct, hm]
    · intro hm
      refine ⟨by simp [construct, hm], by simp [construct, hm, World.logged, World.set],
        by simp [construct, hm], htags, ?_, ?_⟩
      · intro l h1 _
        simp [construct, hm, h1]
      · intro hne
        have hne2 : from_ ≠ to_ := fun e => hne e.symm
        simp [construct, hm, hne2]

/-- C18: `create` throws `runtime_error` exactly when the index is not a
position of the pack; on a position `i` of the pack it constructs the
alternative `Ti`: it is the placement-new of `Ti`, which either throws what
the constructor of `Ti` throws, leaving the world untouched, or returns with
one construction of `Ti` logged in the destination, the source value in the
destination buffer, a copied source unchanged and a moved source moved-from,
no discriminant or type token changed and every other variant as it was; in
a reachable world every non-empty named variant has an in-range
discriminant, and no copy-construction, move-construction or move-assignment
from a named variant throws that `runtime_error`. -/
theorem create_failure_unreachable (env : Alternatives) (w : World) (hfit : env.fits)
    (h : Reachable env w) :
    (∀ Copy Types index to_ from_ w2,
      ((create env Copy Types index to_ from_ w2).raised = some .runtime_error ↔
        ¬ index < Types.length) ∧
      (∀ T, Types[index]? = some T →
        create env Copy Types index to_ from_ w2 = construct env Copy T to_ from_ w2 ∧
        ((if Copy then env.copy_raises T (w2.objs from_).buffer_
            else env.move_raises T (w2.objs from_).buffer_) = true →
          create env Copy Types index to_ from_ w2 = ⟨w2, some .element⟩) ∧
        ((if Copy then env.copy_raises T (w2.objs from_).buffer_
            else env.move_raises T (w2.objs from_).buffer_) = false →
          (create env Copy Types index to_ from_ w2).raised = none ∧
          (create env Copy Types index to_ from_ w2).world.log =
            w2.log ++ [.constructed to_ T] ∧
          ((create env Copy Types index to_ from_ w2).world.objs to_).buffer_ =
            (w2.objs from_).buffer_ ∧
          (∀ l, ((create env Copy Types index to_ from_ w2).world.objs l).index_ =
              (w2.objs l).index_ ∧
            ((create env Copy Types index to_ from_ w2).world.objs l).hash_ =
              (w2.objs l).hash_) ∧
          (∀ l, l ≠ to_ → l ≠ from_ →
            (create env Copy Types index to_ from_ w2).world.objs l = w2.objs l) ∧
          (to_ ≠ from_ →
            ((create env Copy Types index to_ from_ w2).world.objs from_).buffer_ =
              if Copy then (w2.objs from_).buffer_
              else env.moved_from T (w2.objs from_).buffer_)))) ∧
    (∀ a, (w.objs (.named a)).empty = false →
      (w.objs (.named a)).index < env.Args.length) ∧
    (∀ l a,
      (copy_ctor env w l (.named a)).raised ≠ some .runtime_error ∧
      (move_ctor env w l (.named a)).raised ≠ some .runtime_error ∧
      (move_assign env w l (.named a)).raised ≠ some .runtime_error) := by
  have hconstruct : ∀ Copy T to_ from_ w2,
      (construct env Copy T to_ from_ w2).raised ≠ some .runtime_error := by
    intro Copy T to_ from_ w2
    cases Copy
    · by_cases hm : env.move_raises T (w2.objs from_).buffer_ = true <;> simp [construct, hm]
    · by_cases hm : env.copy_raises T (w2.objs from_).buffer_ = true <;> simp [construct, hm]
  have hcreate : ∀ Copy Types index to_ from_ w2,
      ((create env Copy Types index to_ from_ w2).raised = some .runtime_error ↔
        ¬ index < Types.length) := by
    intro Copy Types index to_ from_ w2
    rw [create_eq]
    cases hT : Types[index]? with
    | none =>
        have : ¬ index < Types.length := by
          intro hlt
          rw [List.getElem?_eq_getElem hlt] at hT
          exact absurd hT (by simp)
        simp [this]
    | some T =>
        have hlt := (List.getElem?_eq_some.1 hT).1
        simp only [hlt, not_true_eq_false, iff_false]
        exact hconstruct Copy T to_ from_ w2
  have hin : ∀ a, (w.objs (.named a)).empty = false →
      (w.objs (.named a)).index < env.Args.length := by
    intro a hne
    have he : ¬ (w.objs (.named a)).index_ = variant_npos := by simpa [variant.empty] using hne
    exact (valid_in_range env _ (reachable_valid env w hfit h (.named a))).resolve_left he
  refine ⟨fun Copy Types index to_ from_ w2 => ⟨hcreate Copy Types index to_ from_ w2, ?_⟩,
    hin, ?_⟩
  · intro T hT
    exact ⟨by rw [create_eq, hT], create_effect env Copy Types index to_ from_ w2 T hT⟩
  · intro l a
    by_cases he : (w.objs (.named a)).index_ = variant_npos
    · refine ⟨?_, ?_, ?_⟩
      · simp [copy_ctor, variant.empty, he]
      · simp [move_ctor, variant.empty, he]
      · by_cases hl : l = .named a
        · simp [move_assign, hl]
        · have h1 : (if !(w.objs l).empty then clear env w l else w).objs (.named a) =
              w.objs (.named a) := by
            split
            · exact clear_objs_ne _ _ _ _ (fun e => hl e.symm)
            · rfl
          simp only [move_assign, hl, if_false]
          generalize (if !(w.objs l).empty then clear env w l else w) = w1 at h1 ⊢
          simp [h1, variant.empty, he]
    · have hlt : (w.objs (.named a)).index_ < env.Args.length :=
        hin a (by simpa [variant.empty] using he)
      refine ⟨?_, ?_, ?_⟩
      · simp only [copy_ctor, variant.empty, World.set_objs_same, he, decide_False,
          Bool.not_false, if_true]
        intro e
        exact ((hcreate _ _ _ _ _ _).1 e) hlt
      · simp only [move_ctor, variant.empty, World.set_objs_same, he, decide_False,
          Bool.not_false, if_true]
        intro e
        exact ((hcreate _ _ _ _ _ _).1 e) hlt
      · by_cases hl : l = .named a
        · simp [move_assign, hl]
        · have h1 : (if !(w.objs l).empty then clear env w l else w).objs (.named a) =
              w.objs (.named a) := by
            split
            · exact clear_objs_ne _ _ _ _ (fun e => hl e.symm)
            · rfl
          simp only [move_assign, hl, if_false]
          generalize (if !(w.objs l).empty then clear env w l else w) = w1 at h1 ⊢
          simp only [h1, variant.empty, he, decide_False, Bool.not_false, if_true]
          cases hc : (create env false env.Args (w.objs (.named a)).index_ l (.named a)
            w1).raised with
          | none => simp
          | some e =>
              simp only
              intro e2
              have e3 : e = .runtime_error := Option.some.inj e2
              subst e3
              exact ((hcreate _ _ _ _ _ _).1 hc) hlt

end util

namespace util

open details

theorem int_string_fits : int_string.fits := by
  unfold Alternatives.fits; decide

theorem int_string_identity : int_string.type_identity := by
  constructor
  · intro T hT
    simp only [int_string, List.mem_cons, List.mem_singleton, List.not_mem_nil, or_false] at hT
    rcases hT with rfl | rfl <;> decide
  · intro T U hT hU h
    simp only [int_string, List.mem_cons, List.mem_singleton, List.not_mem_nil, or_false] at hT hU
    rcases hT with rfl | rfl <;> rcases hU with rfl | rfl <;>
      first | rfl | exact absurd h (by decide)

theorem holds_three_reachable : Reachable int_string holds_three :=
  reachable_value_ctor int_string blank 0 (.obj 0) 3 Reachable.start (by decide) (by decide)

theorem holds_hello_reachable : Reachable int_string holds_hello :=
  reachable_value_assign int_string holds_three 0 (.lref 3) 7 holds_three_reachable (by decide)

theorem int_cint_fits : int_cint.fits := by
  unfold Alternatives.fits; decide

theorem int_cint_no_sentinel : int_cint.no_sentinel := by
  intro T _
  show (1000 : Nat) ≠ variant_npos
  decide

theorem holds_const_int_reachable : Reachable int_cint holds_const_int :=
  reachable_value_ctor int_cint blank 0 (.obj 1) 5 Reachable.start (by decide) (by decide)

/-- C17 at `variant<int, const int>` holding the `const int`, two alternatives
with the same hash code: the discriminant is 1, not the sentinel, and the
type token is the hash code of `const int`. -/
theorem tag_invariant_witness :
    int_cint.fits ∧ int_cint.no_sentinel ∧ Reachable int_cint holds_const_int ∧
    (holds_const_int.objs (.named 0)).index = 1 ∧
    ((holds_const_int.objs (.named 0)).index = variant_npos ↔
      (holds_const_int.objs (.named 0)).hash_type = variant_npos) ∧
    (∀ i T, (holds_const_int.objs (.named 0)).index = i → int_cint.Args[i]? = some T →
      (holds_const_int.objs (.named 0)).hash_type = int_cint.hash_code T) :=
  ⟨int_cint_fits, int_cint_no_sentinel, holds_const_int_reachable, by decide,
    (tag_invariant int_cint holds_const_int int_cint_fits int_cint_no_sentinel
      holds_const_int_reachable 0).2⟩

/-- C18 at `variant<int, std::string> a(3); a = "Hello";`: copying or moving
from `a` never throws `runtime_error`, and the copying `create` at position 1
logs one construction of a `std::string` in the destination and writes the
value of `a` there. -/
theorem create_failure_unreachable_witness :
    int_string.fits ∧ Reachable int_string holds_hello ∧
    (copy_ctor int_string holds_hello (.named 1) (.named 0)).raised ≠ some .runtime_error ∧
    (move_ctor int_string holds_hello (.named 1) (.named 0)).raised ≠ some .runtime_error ∧
    (move_assign int_string holds_hello (.named 1) (.named 0)).raised ≠ some .runtime_error ∧
    (create int_string true int_string.Args 1 (.named 1) (.named 0) holds_hello).world.log =
      holds_hello.log ++ [.constructed (.named 1) (.obj 1)] ∧
    ((create int_string true int_string.Args 1 (.named 1) (.named 0) holds_hello).world.objs
      (.named 1)).buffer_ = 7 :=
  ⟨int_string_fits, holds_hello_reachable,
    ((create_failure_unreachable int_string holds_hello int_string_fits
      holds_hello_reachable).2.2 (.named 1) 0).1,
    ((create_failure_unreachable int_string holds_hello int_string_fits
      holds_hello_reachable).2.2 (.named 1) 0).2.1,
    ((create_failure_unreachable int_string holds_hello int_string_fits
      holds_hello_reachable).2.2 (.named 1) 0).2.2,
    ((((create_failure_unreachable int_string holds_hello int_string_fits
      holds_hello_reachable).1 true int_string.Args 1 (.named 1) (.named 0) holds_hello).2
      (.obj 1) (by decide)).2.2 (by decide)).2.1,
    ((((create_failure_unreachable int_string holds_hello int_string_fits
      holds_hello_reachable).1 true int_string.Args 1 (.named 1) (.named 0) holds_hello).2
      (.obj 1) (by decide)).2.2 (by decide)).2.2.1⟩

/-- C19: `get_type<i, Ts...>` has a member `type` exactly for the positions `i`
of the pack and it is the `i`-th alternative; so wherever a `get<i>` is
instantiable the guard `i > sizeof...(Types)` is false; and in a reachable
world the pointer form of `get<i>` on a named variant is null only when the
variant is empty or its discriminant is not `i`, and a reference form throws
`bad_get` only when the variant is empty. -/
theorem out_of_range_rejected (env : Alternatives) (w : World) (hfit : env.fits)
    (h : Reachable env w) :
    (∀ (Types : List Ty) (i : Nat),
      ((get_type i Types).isSome = true ↔ i < Types.length) ∧ get_type i Types = Types[i]?) ∧
    (∀ i object (w2 : World), get_ptr_by_index env w2 i object ≠ none →
      ¬ i > env.Args.length) ∧
    (∀ i form l (w2 : World), get_ref_by_index env w2 i form l ≠ none →
      ¬ i > env.Args.length) ∧
    (∀ i a, get_ptr_by_index env w i (some (.named a)) = some none →
      (w.objs (.named a)).empty = true ∨ (w.objs (.named a)).index ≠ i) ∧
    (∀ i form a, get_ref_by_index env w i form (.named a) = some (.raised .bad_get) →
      (w.objs (.named a)).empty = true) := by
  have hty : ∀ (Types : List Ty) (i : Nat),
      ((get_type i Types).isSome = true ↔ i < Types.length) := by
    intro Types i
    rw [get_type_eq_getElem]
    constructor
    · intro hs
      obtain ⟨T, hT⟩ := Option.isSome_iff_exists.1 hs
      exact (List.getElem?_eq_some.1 hT).1
    · intro hlt
      rw [List.getElem?_eq_getElem hlt]; rfl
  have hlt : ∀ i, get_type i env.Args ≠ none → i < env.Args.length := by
    intro i hne
    exact (hty env.Args i).1 (by
      cases hg : get_type i env.Args with
      | none => exact absurd hg hne
      | some T => rfl)
  refine ⟨fun Types i => ⟨hty Types i, get_type_eq_getElem Types i⟩, ?_, ?_, ?_, ?_⟩
  · intro i object w2 hne
    have : get_type i env.Args ≠ none := by
      intro e
      exact hne (by simp [get_ptr_by_index, e])
    have := hlt i this
    omega
  · intro i form l w2 hne
    have : get_type i env.Args ≠ none := by
      intro e
      exact hne (by simp [get_ref_by_index, e])
    have := hlt i this
    omega
  · intro i a hnull
    by_cases he : (w.objs (.named a)).empty = true
    · exact Or.inl he
    · right
      intro hidx
      have he2 : (w.objs (.named a)).empty = false := by simpa using he
      cases hg : get_type i env.Args with
      | none => simp [get_ptr_by_index, hg] at hnull
      | some T =>
          have hi := hlt i (by rw [hg]; simp)
          have hgt : ¬ i > env.Args.length := by omega
          have hres : get_ptr_by_index env w i (some (.named a)) =
              some (get_ptr_by_type env w T (some (.named a))) := by
            simp only [get_ptr_by_index, hg, he2, hgt, decide_False, Bool.or_self]
            rfl
          rw [hres] at hnull
          have hnull2 : get_ptr_by_type env w T (some (.named a)) = none :=
            Option.some.inj hnull
          have hget : env.Args[i]? = some T := by rw [← get_type_eq_getElem]; exact hg
          rcases (get_ptr_by_type_null_iff env w T (.named a)).1 hnull2 with h1 | h1
          · rw [h1] at he2; exact absurd he2 (by decide)
          · apply h1
            rw [get_index_v_mem _ _ _ (List.getElem?_mem hget)]
            rcases reachable_valid env w hfit h (.named a) with ⟨hn, _⟩ | ⟨_, T2, hT2, _, hfirst⟩
            · simp only [variant.empty, decide_eq_false_iff_not] at he2
              exact absurd hn he2
            · simp only [variant.index] at hidx ⊢
              rw [hidx, hget] at hT2
              rw [Option.some.inj hT2, hfirst]
  · intro i form a hbad
    cases hg : get_type i env.Args with
    | none => simp [get_ref_by_index, hg] at hbad
    | some T =>
        have hi := hlt i (by rw [hg]; simp)
        have hgt : ¬ i > env.Args.length := by omega
        by_cases he : (w.objs (.named a)).empty = true
        · exact he
        · have he2 : (w.objs (.named a)).empty = false := by simpa using he
          exfalso
          cases hp : get_ptr_by_index env w i (some (.named a)) with
          | none => cases form <;> simp [get_ref_by_index, hg, he2, hgt, hp] at hbad
          | some r =>
              cases r with
              | none => cases form <;> simp [get_ref_by_index, hg, he2, hgt, hp] at hbad
              | some p => cases form <;> simp [get_ref_by_index, hg, he2, hgt, hp] at hbad

/-- C19 at `variant<int, std::string> a(3); a = "Hello";`: `get<0>(&a)` is null
and the variant, which is not empty, has a discriminant other than 0. -/
theorem out_of_range_rejected_witness :
    int_string.fits ∧ Reachable int_string holds_hello ∧
    get_ptr_by_index int_string holds_hello 0 (some (.named 0)) = some none ∧
    ((holds_hello.objs (.named 0)).empty = true ∨ (holds_hello.objs (.named 0)).index ≠ 0) :=
  ⟨int_string_fits, holds_hello_reachable, by decide,
    (out_of_range_rejected int_string holds_hello int_string_fits
      holds_hello_reachable).2.2.2.1 0 0 (by decide)⟩

end util

/-! ## The visitor -/

namespace util

open details

/-- On a type token that matches no alternative the scan ends in the call of
the zero-argument overload. -/
theorem visit_no_match (env : Alternatives) (w : World) (form : RefForm) (var : Loc)
    (Types : List Ty) (hne : Types ≠ [])
    (h : ∀ T, T ∈ Types → (w.objs var).hash_type ≠ env.hash_code T) :
    VisitorImpl_visit env w form var Types = .call_empty := by
  induction Types with
  | nil => exact absurd rfl hne
  | cons t ts ih =>
      have ht : (w.objs var).hash_type ≠ env.hash_code t := h t (List.mem_cons_self _ _)
      cases ts with
      | nil => simp [VisitorImpl_visit, ht]
      | cons t2 ts2 =>
          simp only [VisitorImpl_visit, ht, if_false]
          exact ih (by simp) (fun T hT => h T (List.mem_cons_of_mem _ hT))

/-- On the type token of an alternative `T` the scan stops at `T` when no other
alternative has the same hash code. -/
theorem visit_match (env : Alternatives) (w : World) (form : RefForm) (var : Loc)
    (Types : List Ty) (T : Ty) (hT : T ∈ Types)
    (hh : (w.objs var).hash_type = env.hash_code T)
    (hinj : ∀ U, U ∈ Types → env.hash_code U = env.hash_code T → U = T) :
    VisitorImpl_visit env w form var Types = invoke env w form var T := by
  induction Types with
  | nil => simp at hT
  | cons t ts ih =>
      by_cases e : env.hash_code t = env.hash_code T
      · have et : t = T := hinj t (List.mem_cons_self _ _) e
        subst et
        cases ts with
        | nil => simp [VisitorImpl_visit, hh]
        | cons t2 ts2 => simp [VisitorImpl_visit, hh]
      · have hne : (w.objs var).hash_type ≠ env.hash_code t := by
          rw [hh]; exact fun e2 => e e2.symm
        have hT2 : T ∈ ts := by
          rcases List.mem_cons.1 hT with h1 | h1
          · subst h1; exact absurd rfl e
          · exact h1
        cases ts with
        | nil => simp at hT2
        | cons t2 ts2 =>
            simp only [VisitorImpl_visit, hne, if_false]
            exact ih hT2 (fun U hU => hinj U (List.mem_cons_of_mem _ hU))

/-- C11 (amended): in every reachable world, over a non-empty pack whose
positions fit `size_t` and whose hash codes identify the alternatives
(different alternatives have different codes, none is the sentinel),
`apply_visitor` on
a named variant does what a dispatch on the discriminant does: it calls the
zero-argument overload exactly when the variant is empty, and otherwise makes
the one call of the overload for the alternative at position `index()` on
the variant's live value, in each of the three value categories. -/
theorem apply_visitor_dispatch (env : Alternatives) (w : World) (hfit : env.fits)
    (hid : env.type_identity) (hne : env.Args ≠ []) (h : Reachable env w) (form : RefForm)
    (n : Nat) :
    apply_visitor env w form (.named n) = dispatch_on_index env w (.named n) ∧
    (apply_visitor env w form (.named n) = .call_empty ↔
      (w.objs (.named n)).empty = true) ∧
    ((w.objs (.named n)).empty = false →
      ∃ T, env.Args[(w.objs (.named n)).index]? = some T ∧
        apply_visitor env w form (.named n) = .call T ⟨.named n, T⟩) := by
  have key : apply_visitor env w form (.named n) = dispatch_on_index env w (.named n) ∧
      ((w.objs (.named n)).empty = false →
        ∃ T, env.Args[(w.objs (.named n)).index]? = some T ∧
          apply_visitor env w form (.named n) = .call T ⟨.named n, T⟩) := by
    rcases reachable_valid env w hfit h (.named n) with ⟨hi, hh⟩ | ⟨hi, T, hT, hh, hfirst⟩
    · have he : (w.objs (.named n)).empty = true := by simp [variant.empty, hi]
      have hv : apply_visitor env w form (.named n) = .call_empty := by
        refine visit_no_match env w form _ env.Args hne ?_
        intro T hT
        simp only [variant.hash_type]
        rw [hh]
        exact fun e => hid.1 T hT e.symm
      refine ⟨?_, fun hf => ?_⟩
      · rw [hv]; simp [dispatch_on_index, he]
      · rw [he] at hf; exact absurd hf (by decide)
    · have he : (w.objs (.named n)).empty = false := by simp [variant.empty, hi]
      have hmem : T ∈ env.Args := List.getElem?_mem hT
      have hp : get_ptr_by_type env w T (some (.named n)) = some ⟨.named n, T⟩ := by
        refine (get_ptr_by_type_iff env w T _ _).2 ⟨.named n, rfl, he, ?_, rfl⟩
        rw [get_index_v_mem _ _ _ hmem, hfirst]; rfl
      have hv : apply_visitor env w form (.named n) = .call T ⟨.named n, T⟩ := by
        have h1 := visit_match env w form (.named n) env.Args T hmem hh
          (fun U hU e => hid.2 U T hU hmem e)
        unfold apply_visitor
        rw [h1]
        simp only [invoke]
        rw [get_ref_by_type_eq, hp]
      refine ⟨?_, fun _ => ⟨T, hT, hv⟩⟩
      rw [hv]
      simp only [dispatch_on_index, he, variant.index, hT]
      simp
  refine ⟨key.1, ?_, key.2⟩
  constructor
  · intro hc
    by_contra hx
    have he : (w.objs (.named n)).empty = false := by simpa using hx
    obtain ⟨T, _, hv⟩ := key.2 he
    rw [hv] at hc
    exact absurd hc (by simp)
  · intro he
    rw [key.1]
    simp [dispatch_on_index, he]

theorem int_vec_string_fits : int_vec_string.fits := by
  unfold Alternatives.fits; decide

theorem int_vec_string_identity : int_vec_string.type_identity := by
  constructor
  · intro T hT
    simp only [int_vec_string, List.mem_cons, List.mem_singleton, List.not_mem_nil,
      or_false] at hT
    rcases hT with rfl | rfl | rfl <;> decide
  · intro T U hT hU h
    simp only [int_vec_string, List.mem_cons, List.mem_singleton, List.not_mem_nil,
      or_false] at hT hU
    rcases hT with rfl | rfl | rfl <;> rcases hU with rfl | rfl | rfl <;>
      first | rfl | exact absurd h (by decide)

theorem visit_a4_reachable : Reachable int_vec_string visit_a4 :=
  reachable_value_ctor int_vec_string blank 0 (.lref 3) 7 Reachable.start (by decide)
    (by decide)

/-- The visitor test: an empty variant, then ones holding 5, an empty vector
and "Hey", visited as `const` lvalues, reach the overloads in the order
empty, `int`, `vector`, `string`. -/
theorem apply_visitor_order :
    apply_visitor int_vec_string visit_a1 .const_lvalue (.named 0) = .call_empty ∧
    apply_visitor int_vec_string visit_a2 .const_lvalue (.named 0) =
      .call (.obj 0) ⟨.named 0, .obj 0⟩ ∧
    apply_visitor int_vec_string visit_a3 .const_lvalue (.named 0) =
      .call (.obj 1) ⟨.named 0, .obj 1⟩ ∧
    apply_visitor int_vec_string visit_a4 .const_lvalue (.named 0) =
      .call (.obj 2) ⟨.named 0, .obj 2⟩ := by
  decide

/-- C11 (amended) at `variant<int, std::vector<int>, std::string> a4("Hey")`: the visit
is the dispatch on the discriminant. -/
theorem apply_visitor_dispatch_witness :
    int_vec_string.fits ∧ int_vec_string.type_identity ∧ int_vec_string.Args ≠ [] ∧
    Reachable int_vec_string visit_a4 ∧
    apply_visitor int_vec_string visit_a4 .const_lvalue (.named 0) =
      dispatch_on_index int_vec_string visit_a4 (.named 0) :=
  ⟨int_vec_string_fits, int_vec_string_identity, by decide, visit_a4_reachable,
    (apply_visitor_dispatch int_vec_string visit_a4 int_vec_string_fits
      int_vec_string_identity (by decide) visit_a4_reachable .const_lvalue 0).1⟩

end util

/-! ## Lifetimes: every value is destroyed exactly once -/

namespace util

open details

theorem lifetime_append_one (l : Loc) (log : List Event) (e : Event) :
    lifetime l (log ++ [e]) = lifetime_step l (lifetime l log) e := by
  simp [lifetime, List.foldl_append]

theorem empty_of_index (v2 v : variant) (h : v2.index_ = v.index_) : v2.empty = v.empty := by
  simp [variant.empty, h]

theorem tracked_of_same_log (w w2 : World) (ht : w.tracked) (hlog : w2.log = w.log)
    (he : ∀ l, (w2.objs l).empty = (w.objs l).empty) : w2.tracked := by
  intro l
  rw [hlog, he l]; exact ht l

theorem tracked_of_constructed (w w2 : World) (l0 : Loc) (T : Ty) (ht : w.tracked)
    (h0 : (w.objs l0).empty = true) (hlog : w2.log = w.log ++ [.constructed l0 T])
    (h1 : (w2.objs l0).empty = false)
    (he : ∀ l, l ≠ l0 → (w2.objs l).empty = (w.objs l).empty) : w2.tracked := by
  intro l
  rw [hlog, lifetime_append_one, ht l]
  by_cases h : l = l0
  · subst h
    simp [lifetime_step, h0, h1]
  · have h2 : l0 ≠ l := fun e => h e.symm
    simp [lifetime_step, h2, he l h]

theorem tracked_of_destroyed (w w2 : World) (l0 : Loc) (T : Ty) (ht : w.tracked)
    (h0 : (w.objs l0).empty = false) (hlog : w2.log = w.log ++ [.destroyed l0 T])
    (h1 : (w2.objs l0).empty = true)
    (he : ∀ l, l ≠ l0 → (w2.objs l).empty = (w.objs l).empty) : w2.tracked := by
  intro l
  rw [hlog, lifetime_append_one, ht l]
  by_cases h : l = l0
  · subst h
    simp [lifetime_step, h0, h1]
  · have h2 : l0 ≠ l := fun e => h e.symm
    simp [lifetime_step, h2, he l h]

theorem valid_live (env : Alternatives) (v : variant) (hv : v.valid env)
    (hne : v.empty = false) : ∃ T, env.Args[v.index_]? = some T := by
  rcases hv with ⟨hi, _⟩ | ⟨_, T, hT, _, _⟩
  · simp [variant.empty, hi] at hne
  · exact ⟨T, hT⟩

theorem tracked_clear (env : Alternatives) (w : World) (this : Loc) (hv : w.valid env)
    (ht : w.tracked) : (clear env w this).tracked := by
  by_cases he : (w.objs this).empty = true
  · rw [clear_of_empty env w this he]; exact ht
  · have hne : (w.objs this).empty = false := by simpa using he
    obtain ⟨T, hT⟩ := valid_live env _ (hv this) hne
    rw [clear_of_live env w this T hne hT]
    refine tracked_of_destroyed w _ this T ht hne rfl (by simp [variant.empty]) ?_
    intro l hl
    simp [hl]

/-- The log of a `create` that returns: one construction in the destination. -/
theorem create_log (env : Alternatives) (Copy : Bool) (Types : List Ty) (index : Nat)
    (to_ from_ : Loc) (w : World)
    (h : (create env Copy Types index to_ from_ w).raised = none) :
    ∃ T, Types[index]? = some T ∧
      (create env Copy Types index to_ from_ w).world.log = w.log ++ [.constructed to_ T] := by
  rw [create_eq] at h ⊢
  cases hT : Types[index]? with
  | none => simp [hT] at h
  | some T =>
      simp only [hT] at h ⊢
      refine ⟨T, rfl, ?_⟩
      cases Copy
      · by_cases hm : env.move_raises T (w.objs from_).buffer_ = true
        · simp [construct, hm] at h
        · simp [construct, hm, World.logged, World.set]
      · by_cases hm : env.copy_raises T (w.objs from_).buffer_ = true
        · simp [construct, hm] at h
        · simp [construct, hm, World.logged, World.set]

/-- A returning construction by copy or move into storage without a live value
keeps the world tracked. -/
theorem tracked_ctor (env : Alternatives) (Copy : Bool) (w : World) (this other : Loc)
    (ht : w.tracked) (h0 : (w.objs this).empty = true)
    (h : (create env Copy env.Args (w.objs other).index_ this other
      (w.set this ⟨(w.objs other).index_, (w.objs other).hash_, 0⟩)).raised = none)
    (hlive : (w.objs other).empty = false) :
    (create env Copy env.Args (w.objs other).index_ this other
      (w.set this ⟨(w.objs other).index_, (w.objs other).hash_, 0⟩)).world.tracked := by
  obtain ⟨T, _, hlog⟩ := create_log env Copy env.Args _ this other _ h
  have htag := create_tags env Copy env.Args (w.objs other).index_ this other
    (w.set this ⟨(w.objs other).index_, (w.objs other).hash_, 0⟩)
  refine tracked_of_constructed w _ this T ht h0 hlog ?_ ?_
  · rw [empty_of_index _ _ (htag this).1]
    simpa [variant.empty] using hlive
  · intro l hl
    rw [empty_of_index _ _ (htag l).1]
    simp [hl]

theorem tracked_copy_ctor (env : Alternatives) (w : World) (this other : Loc)
    (ht : w.tracked) (h0 : (w.objs this).empty = true)
    (h : (copy_ctor env w this other).raised = none) :
    (copy_ctor env w this other).world.tracked := by
  by_cases he : (w.objs other).index_ = variant_npos
  · simp only [copy_ctor, variant.empty, World.set_objs_same, he, decide_True, Bool.not_true,
      Bool.false_eq_true, if_false]
    refine tracked_of_same_log w _ ht rfl ?_
    intro l
    by_cases hl : l = this
    · subst hl; simpa [variant.empty] using h0.symm
    · simp [hl]
  · simp only [copy_ctor, variant.empty, World.set_objs_same, he, decide_False, Bool.not_false,
      if_true] at h ⊢
    exact tracked_ctor env true w this other ht h0 h (by simp [variant.empty, he])

theorem tracked_move_ctor (env : Alternatives) (w : World) (this other : Loc)
    (ht : w.tracked) (h0 : (w.objs this).empty = true)
    (h : (move_ctor env w this other).raised = none) :
    (move_ctor env w this other).world.tracked := by
  by_cases he : (w.objs other).index_ = variant_npos
  · simp only [move_ctor, variant.empty, World.set_objs_same, he, decide_True, Bool.not_true,
      Bool.false_eq_true, if_false]
    refine tracked_of_same_log w _ ht rfl ?_
    intro l
    by_cases hl : l = this
    · subst hl; simpa [variant.empty] using h0.symm
    · simp [hl]
  · simp only [move_ctor, variant.empty, World.set_objs_same, he, decide_False, Bool.not_false,
      if_true] at h ⊢
    exact tracked_ctor env false w this other ht h0 h (by simp [variant.empty, he])

end util

namespace util

open details

theorem tracked_move_assign (env : Alternatives) (w : World) (this other : Loc)
    (hv : w.valid env) (ht : w.tracked)
    (h : (move_assign env w this other).raised = none) :
    (move_assign env w this other).world.tracked := by
  by_cases hne : this = other
  · simp [move_assign, hne, ht]
  · have hne2 : other ≠ this := fun e => hne e.symm
    obtain ⟨w1, hw1, h1t, h1this, h1other, h1frame⟩ :
        ∃ w1, w1 = (if !(w.objs this).empty then clear env w this else w) ∧ w1.tracked ∧
          (w1.objs this).empty = true ∧ w1.objs other = w.objs other ∧
          ∀ l, l ≠ this → w1.objs l = w.objs l := by
      refine ⟨_, rfl, ?_, ?_, ?_, ?_⟩
      · split
        · exact tracked_clear env w this hv ht
        · exact ht
      · by_cases he : (w.objs this).index_ = variant_npos
        · simp [variant.empty, he]
        · simp [variant.empty, he, clear_objs_index]
      · split
        · exact clear_objs_ne _ _ _ _ hne2
        · rfl
      · intro l hl
        split
        · exact clear_objs_ne _ _ _ _ hl
        · rfl
    simp only [move_assign, hne, if_false] at h ⊢
    rw [← hw1] at h ⊢
    by_cases he : (w.objs other).index_ = variant_npos
    · simp only [h1other, variant.empty, he, decide_True, Bool.not_true, Bool.false_eq_true,
        if_false]
      exact h1t
    · simp only [h1other, variant.empty, he, decide_False, Bool.not_false, if_true] at h ⊢
      cases hc : (create env false env.Args (w.objs other).index_ this other w1).raised with
      | some e => simp [hc] at h
      | none =>
          simp only [hc]
          obtain ⟨T, _, hlog⟩ := create_log env false env.Args _ this other w1 hc
          have htag := create_tags env false env.Args (w.objs other).index_ this other w1
          refine tracked_of_constructed w1 _ this T h1t h1this hlog ?_ ?_
          · simp [variant.empty, (htag other).1, h1other, he]
          · intro l hl
            simp only [World.set_objs_ne _ _ _ _ hl]
            exact empty_of_index _ _ (htag l).1

theorem tracked_std_swap (env : Alternatives) (w : World) (a b : Loc)
    (hv : w.valid env) (ht : w.tracked)
    (h0 : (w.objs (.temp 1)).empty = true) (hm : ∀ t v, env.move_raises t v = false) :
    (std_swap env w a b).raised = none ∧ (std_swap env w a b).world.tracked ∧
    ((std_swap env w a b).world.objs (.temp 1)).empty = true := by
  have h1 := move_ctor_total env w (.temp 1) a (valid_in_range env _ (hv a)) hm
  have t1 := tracked_move_ctor env w (.temp 1) a ht h0 h1
  have v1 := valid_move_ctor env w (.temp 1) a hv
  generalize hs1 : move_ctor env w (.temp 1) a = s1 at h1 t1 v1
  have h2 := move_assign_total env s1.world a b (valid_in_range env _ (v1 b)) hm
  have t2 := tracked_move_assign env s1.world a b v1 t1 h2
  have v2 := valid_move_assign env s1.world a b v1
  generalize hs2 : move_assign env s1.world a b = s2 at h2 t2 v2
  have h3 := move_assign_total env s2.world b (.temp 1) (valid_in_range env _ (v2 (.temp 1))) hm
  have t3 := tracked_move_assign env s2.world b (.temp 1) v2 t2 h3
  have v3 := valid_move_assign env s2.world b (.temp 1) v2
  generalize hs3 : move_assign env s2.world b (.temp 1) = s3 at h3 t3 v3
  have hres : std_swap env w a b = ⟨clear env s3.world (.temp 1), none⟩ := by
    simp only [std_swap, hs1, h1, hs2, h2, hs3, h3, dtor_eq_clear]
  rw [hres]
  exact ⟨rfl, tracked_clear env s3.world (.temp 1) v3 t3,
    by simp [variant.empty, clear_objs_index]⟩

theorem tracked_variant_swap (env : Alternatives) (w : World) (this other : Loc)
    (ha : this ≠ .temp 1) (hb : other ≠ .temp 1) (hv : w.valid env) (ht : w.tracked)
    (h0 : (w.objs (.temp 1)).empty = true) (hm : ∀ t v, env.move_raises t v = false) :
    (variant_swap env w this other).raised = none ∧
    (variant_swap env w this other).world.tracked ∧
    ((variant_swap env w this other).world.objs (.temp 1)).empty = true := by
  have hta : Loc.temp 1 ≠ this := fun e => ha e.symm
  have htb : Loc.temp 1 ≠ other := fun e => hb e.symm
  by_cases het : (w.objs this).index_ = variant_npos
  · by_cases heo : (w.objs other).index_ = variant_npos
    · simp only [variant_swap, variant.empty, het, heo, decide_True, Bool.and_self, if_true]
      exact ⟨trivial, ht, h0⟩
    · have hne : this ≠ other := fun e => heo (e ▸ het)
      have h1 := move_assign_total env w this other (valid_in_range env _ (hv other)) hm
      have t1 := tracked_move_assign env w this other hv ht h1
      have v1 := valid_move_assign env w this other hv
      obtain ⟨_, _, _, f1⟩ := move_assign_post env w this other hne h1
      have hres : variant_swap env w this other =
          ⟨clear env (move_assign env w this other).world other, none⟩ := by
        simp [variant_swap, variant.empty, het, heo, h1]
      rw [hres]
      refine ⟨rfl, tracked_clear env _ other v1 t1, ?_⟩
      simp only
      rw [clear_objs_ne _ _ _ _ htb, f1 _ hta htb]
      exact h0
  · by_cases heo : (w.objs other).index_ = variant_npos
    · have hne : other ≠ this := fun e => het (e ▸ heo)
      have h1 := move_assign_total env w other this (valid_in_range env _ (hv this)) hm
      have t1 := tracked_move_assign env w other this hv ht h1
      have v1 := valid_move_assign env w other this hv
      obtain ⟨_, _, _, f1⟩ := move_assign_post env w other this hne h1
      have hres : variant_swap env w this other =
          ⟨clear env (move_assign env w other this).world this, none⟩ := by
        simp [variant_swap, variant.empty, het, heo, h1]
      rw [hres]
      refine ⟨rfl, tracked_clear env _ this v1 t1, ?_⟩
      simp only
      rw [clear_objs_ne _ _ _ _ hta, f1 _ htb hta]
      exact h0
    · have hres : variant_swap env w this other = std_swap env w this other := by
        simp [variant_swap, variant.empty, het, heo]
      rw [hres]
      exact tracked_std_swap env w this other hv ht h0 hm

theorem value_ctor_frame (env : Alternatives) (w : World) (this : Loc) (T : Ty) (value : Nat)
    (s : Step) (h : value_ctor env w this T value = some s) (l : Loc) (hl : l ≠ this) :
    s.world.objs l = w.objs l := by
  unfold value_ctor at h
  split at h
  · simp only at h
    cases hty : get_type (get_index_v env.is_convertible T env.Args) env.Args with
    | none => simp [hty] at h
    | some a =>
        simp only [hty] at h
        cases hc : construct_from env T a value with
        | none =>
            simp only [hc, Option.some.injEq] at h
            subst h
            simp [hl]
        | some x =>
            simp only [hc, Option.some.injEq] at h
            subst h
            simp [hl]
  · simp at h

theorem construct_from_total (env : Alternatives) (hn : env.non_raising) (T a : Ty)
    (value : Nat) : construct_from env T a value ≠ none := by
  obtain ⟨hc, hm, hx⟩ := hn
  cases T <;> cases a <;> simp only [construct_from] <;> (repeat' split) <;> simp_all

theorem value_ctor_total (env : Alternatives) (hn : env.non_raising) (w : World) (this : Loc)
    (T : Ty) (value : Nat) (s : Step) (h : value_ctor env w this T value = some s) :
    s.raised = none := by
  unfold value_ctor at h
  split at h
  · simp only at h
    cases hty : get_type (get_index_v env.is_convertible T env.Args) env.Args with
    | none => simp [hty] at h
    | some a =>
        simp only [hty] at h
        cases hc : construct_from env T a value with
        | none => exact absurd hc (construct_from_total env hn T a value)
        | some x =>
            simp only [hc, Option.some.injEq] at h
            subst h
            rfl
  · simp at h

theorem tracked_value_ctor (env : Alternatives) (w : World) (this : Loc) (T : Ty) (value : Nat)
    (s : Step) (hfit : env.fits) (ht : w.tracked) (h0 : (w.objs this).empty = true)
    (h : value_ctor env w this T value = some s) (hr : s.raised = none) :
    s.world.tracked := by
  unfold value_ctor at h
  split at h
  · simp only at h
    cases hty : get_type (get_index_v env.is_convertible T env.Args) env.Args with
    | none => simp [hty] at h
    | some a =>
        simp only [hty] at h
        cases hc : construct_from env T a value with
        | none =>
            simp only [hc, Option.some.injEq] at h
            subst h
            simp at hr
        | some x =>
            simp only [hc, Option.some.injEq] at h
            subst h
            have hget : env.Args[get_index_v env.is_convertible T env.Args]? = some a := by
              rw [← get_type_eq_getElem]; exact hty
            have hlt := (List.getElem?_eq_some.1 hget).1
            refine tracked_of_constructed w _ this a ht h0 rfl ?_ ?_
            · unfold Alternatives.fits at hfit
              have : ¬ get_index_v env.is_convertible T env.Args = variant_npos := by omega
              simp [variant.empty, this]
            · intro l hl
              simp [hl]
  · simp at h

end util

namespace util

open details

theorem lifetime_count (l : Loc) (log : List Event) (b : Bool)
    (h : lifetime l log = some b) :
    constructed_in l log = destroyed_in l log + (if b then 1 else 0) := by
  induction log using List.reverseRecOn generalizing b with
  | nil =>
      simp only [lifetime, List.foldl_nil, Option.some.injEq] at h
      subst h
      simp [constructed_in, destroyed_in]
  | append_singleton log e ih =>
      rw [lifetime_append_one] at h
      cases hs : lifetime l log with
      | none => simp [hs, lifetime_step] at h
      | some b0 =>
          have ih0 := ih b0 hs
          rw [hs] at h
          simp only [constructed_in, destroyed_in, List.countP_append, List.countP_cons,
            List.countP_nil] at ih0 ⊢
          cases e with
          | constructed l2 T =>
              by_cases hl : l2 = l
              · cases b0 <;> simp [lifetime_step, hl] at h
                subst h
                simp [hl] at ih0 ⊢
                omega
              · simp only [lifetime_step, hl, if_false, Option.some.injEq] at h
                subst h
                simp [hl] at ih0 ⊢
                exact ih0
          | destroyed l2 T =>
              by_cases hl : l2 = l
              · cases b0 <;> simp [lifetime_step, hl] at h
                subst h
                simp [hl] at ih0 ⊢
                omega
              · simp only [lifetime_step, hl, if_false, Option.some.injEq] at h
                subst h
                simp [hl] at ih0 ⊢
                exact ih0

theorem settled_copy_assign (env : Alternatives) (w : World) (n m : Nat)
    (hn : env.non_raising) (hs : w.settled env) :
    (copy_assign env w (.named n) (.named m)).world.settled env := by
  obtain ⟨hv, ht, h0⟩ := hs
  obtain ⟨hc, hm, _⟩ := hn
  by_cases hnm : n = m
  · subst hnm
    simp only [copy_assign, if_true]
    exact ⟨hv, ht, h0⟩
  · have hne : Loc.named n ≠ Loc.named m := fun e => hnm (Loc.named.inj e)
    have h1 := copy_ctor_total env w (.temp 0) (.named m) (valid_in_range env _ (hv _)) hc
    have t1 := tracked_copy_ctor env w (.temp 0) (.named m) ht (h0 0) h1
    have v1 := valid_copy_ctor env w (.temp 0) (.named m) hv
    have f1 := (copy_ctor_post env w (.temp 0) (.named m) (by simp) h1).2
    generalize hs1 : copy_ctor env w (.temp 0) (.named m) = s1 at h1 t1 v1 f1
    obtain ⟨h2, t2, e2⟩ := tracked_variant_swap env s1.world (.named n) (.temp 0) (by simp)
      (by simp) v1 t1 (by rw [f1 _ (by simp)]; exact h0 1) hm
    have v2 := valid_variant_swap env s1.world (.named n) (.temp 0) v1
    have f2 := (variant_swap_post env s1.world (.named n) (.temp 0) (by simp) (by simp) h2).2.2
    generalize hs2 : variant_swap env s1.world (.named n) (.temp 0) = s2 at h2 t2 e2 v2 f2
    have hres : (copy_assign env w (.named n) (.named m)).world =
        clear env s2.world (.temp 0) := by
      simp only [copy_assign, hne, if_false, hs1, h1, hs2, dtor_eq_clear]
    rw [hres]
    refine ⟨valid_clear env _ _ v2, tracked_clear env _ _ v2 t2, ?_⟩
    intro k
    by_cases hk0 : k = 0
    · subst hk0
      simp [variant.empty, clear_objs_index]
    · have hk : Loc.temp k ≠ Loc.temp 0 := fun e => hk0 (Loc.temp.inj e)
      rw [clear_objs_ne _ _ _ _ hk]
      by_cases hk1 : k = 1
      · subst hk1; exact e2
      · have hk' : Loc.temp k ≠ Loc.temp 1 := fun e => hk1 (Loc.temp.inj e)
        rw [f2 _ (by simp) hk hk', f1 _ hk]
        exact h0 k

theorem settled_value_assign (env : Alternatives) (w : World) (n : Nat) (T : Ty)
    (object : Nat) (s : Step) (hfit : env.fits) (hn : env.non_raising) (hs : w.settled env)
    (h : value_assign env w (.named n) T object = some s) : s.world.settled env := by
  obtain ⟨hv, ht, h0⟩ := hs
  have hm := hn.2.1
  unfold value_assign at h
  simp only at h
  cases hvc : value_ctor env w (.temp 0) T object with
  | none => simp [hvc] at h
  | some s1 =>
      have h1 := value_ctor_total env hn w (.temp 0) T object s1 hvc
      have t1 := tracked_value_ctor env w (.temp 0) T object s1 hfit ht (h0 0) hvc h1
      have v1 := valid_value_ctor env w (.temp 0) T object s1 hfit hv hvc
      have f1 := value_ctor_frame env w (.temp 0) T object s1 hvc
      simp only [hvc, h1, Option.some.injEq] at h
      subst h
      have h2 := move_assign_total env s1.world (.named n) (.temp 0)
        (valid_in_range env _ (v1 _)) hm
      have t2 := tracked_move_assign env s1.world (.named n) (.temp 0) v1 t1 h2
      have v2 := valid_move_assign env s1.world (.named n) (.temp 0) v1
      have f2 := (move_assign_post env s1.world (.named n) (.temp 0) (by simp) h2).2.2.2
      simp only [dtor_eq_clear]
      refine ⟨valid_clear env _ _ v2, tracked_clear env _ _ v2 t2, ?_⟩
      intro k
      by_cases hk0 : k = 0
      · subst hk0
        simp [variant.empty, clear_objs_index]
      · have hk : Loc.temp k ≠ Loc.temp 0 := fun e => hk0 (Loc.temp.inj e)
        rw [clear_objs_ne _ _ _ _ hk, f2 _ (by simp) hk, f1 _ hk]
        exact h0 k

/-- With alternatives that do not throw every reachable world is settled. -/
theorem reachable_settled (env : Alternatives) (w : World) (hfit : env.fits)
    (hn : env.non_raising) (h : Reachable env w) : w.settled env := by
  have hm := hn.2.1
  induction h with
  | start =>
      refine ⟨fun _ => valid_cleared env 0, ?_, fun _ => by simp [blank, variant.empty]⟩
      intro l
      simp [lifetime, blank, variant.empty]
  | default_ctor w n _ he ih =>
      obtain ⟨hv, ht, h0⟩ := ih
      refine ⟨valid_default_ctor env w _ hv, ?_, ?_⟩
      · refine tracked_of_same_log w _ ht rfl ?_
        intro l
        by_cases hl : l = .named n
        · subst hl; simpa [default_ctor, variant.empty] using he.symm
        · simp [default_ctor, hl]
      · intro k
        simpa [default_ctor] using h0 k
  | value_ctor w n T value s _ he hv hr ih =>
      obtain ⟨hval, ht, h0⟩ := ih
      refine ⟨valid_value_ctor env w _ T value s hfit hval hv,
        tracked_value_ctor env w _ T value s hfit ht he hv hr, ?_⟩
      intro k
      rw [value_ctor_frame env w _ T value s hv _ (by simp)]
      exact h0 k
  | copy_ctor w n m _ hnm he hr ih =>
      obtain ⟨hval, ht, h0⟩ := ih
      have hne : Loc.named n ≠ Loc.named m := fun e => hnm (Loc.named.inj e)
      refine ⟨valid_copy_ctor env w _ _ hval, tracked_copy_ctor env w _ _ ht he hr, ?_⟩
      intro k
      rw [(copy_ctor_post env w _ _ hne hr).2 _ (by simp)]
      exact h0 k
  | move_ctor w n m _ hnm he hr ih =>
      obtain ⟨hval, ht, h0⟩ := ih
      have hne : Loc.named n ≠ Loc.named m := fun e => hnm (Loc.named.inj e)
      refine ⟨valid_move_ctor env w _ _ hval, tracked_move_ctor env w _ _ ht he hr, ?_⟩
      intro k
      rw [(move_ctor_post env w _ _ hne hr).2.2.2 _ (by simp) (by simp)]
      exact h0 k
  | copy_assign w n m _ ih => exact settled_copy_assign env w n m hn ih
  | move_assign w n m _ ih =>
      obtain ⟨hval, ht, h0⟩ := ih
      have hr := move_assign_total env w (.named n) (.named m) (valid_in_range env _ (hval _)) hm
      refine ⟨valid_move_assign env w _ _ hval, tracked_move_assign env w _ _ hval ht hr, ?_⟩
      intro k
      by_cases hnm : n = m
      · subst hnm
        simpa [move_assign] using h0 k
      · have hne : Loc.named n ≠ Loc.named m := fun e => hnm (Loc.named.inj e)
        rw [(move_assign_post env w _ _ hne hr).2.2.2 _ (by simp) (by simp)]
        exact h0 k
  | value_assign w n T object s _ hv ih =>
      exact settled_value_assign env w n T object s hfit hn ih hv
  | swap w n m _ ih =>
      obtain ⟨hval, ht, h0⟩ := ih
      obtain ⟨hr, t2, e2⟩ := tracked_variant_swap env w (.named n) (.named m) (by simp)
        (by simp) hval ht (h0 1) hm
      refine ⟨valid_variant_swap env w _ _ hval, t2, ?_⟩
      intro k
      by_cases hk1 : k = 1
      · subst hk1; exact e2
      · have hk' : Loc.temp k ≠ Loc.temp 1 := fun e => hk1 (Loc.temp.inj e)
        have f2 := (variant_swap_post env w (.named n) (.named m) (by simp) (by simp) hr).2.2
        show ((variant_swap env w (.named n) (.named m)).world.objs (.temp k)).empty = true
        rw [f2 _ (by simp) (by simp) hk']
        exact h0 k
  | clear w n _ ih =>
      obtain ⟨hval, ht, h0⟩ := ih
      refine ⟨valid_clear env w _ hval, tracked_clear env w _ hval ht, ?_⟩
      intro k
      rw [clear_objs_ne _ _ _ _ (by simp)]
      exact h0 k
  | dtor w n _ ih =>
      obtain ⟨hval, ht, h0⟩ := ih
      rw [dtor_eq_clear]
      refine ⟨valid_clear env w _ hval, tracked_clear env w _ hval ht, ?_⟩
      intro k
      rw [clear_objs_ne _ _ _ _ (by simp)]
      exact h0 k

/-- C14: with alternatives that do not throw, in every world reachable through
the public interface and for each named variant: its storage was never
constructed into while a value was live nor destroyed without one; the number
of values constructed in it minus the number destroyed there is 1 when the
variant is non-empty and 0 when it is empty; after the variant's destructor
the two numbers are equal; and every temporary the operations created has
been destroyed as often as constructed. -/
theorem destroyed_exactly_once (env : Alternatives) (w : World) (hfit : env.fits)
    (hn : env.non_raising) (h : Reachable env w) (n : Nat) :
    lifetime (.named n) w.log = some (!(w.objs (.named n)).empty) ∧
    constructed_in (.named n) w.log =
      destroyed_in (.named n) w.log + (if (w.objs (.named n)).empty then 0 else 1) ∧
    constructed_in (.named n) (dtor env w (.named n)).log =
      destroyed_in (.named n) (dtor env w (.named n)).log ∧
    (∀ k, constructed_in (.temp k) w.log = destroyed_in (.temp k) w.log) := by
  obtain ⟨hv, ht, h0⟩ := reachable_settled env w hfit hn h
  have hcount : ∀ (w2 : World), w2.tracked → ∀ l,
      constructed_in l w2.log =
        destroyed_in l w2.log + (if (w2.objs l).empty then 0 else 1) := by
    intro w2 ht2 l
    have := lifetime_count l w2.log _ (ht2 l)
    cases he : (w2.objs l).empty <;> simpa [he] using this
  refine ⟨ht _, hcount w ht _, ?_, ?_⟩
  · have hd := hcount (dtor env w (.named n))
      (by rw [dtor_eq_clear]; exact tracked_clear env w _ hv ht) (.named n)
    have he : ((dtor env w (.named n)).objs (.named n)).empty = true := by
      rw [dtor_eq_clear]; simp [variant.empty, clear_objs_index]
    simpa [he] using hd
  · intro k
    have := hcount w ht (.temp k)
    simpa [h0 k] using this

end util

namespace util

theorem int_string_non_raising : int_string.non_raising :=
  ⟨fun _ _ => rfl, fun _ _ => rfl, fun _ _ _ => rfl⟩

/-- C14 at `variant<int, std::string> a(3); a = "Hello";`: two values were
constructed in `a`, one was destroyed, and `a` is non-empty. -/
theorem destroyed_exactly_once_witness :
    int_string.fits ∧ int_string.non_raising ∧ Reachable int_string holds_hello ∧
    constructed_in (.named 0) holds_hello.log = 2 ∧
    constructed_in (.named 0) holds_hello.log =
      destroyed_in (.named 0) holds_hello.log +
        (if (holds_hello.objs (.named 0)).empty then 0 else 1) :=
  ⟨int_string_fits, int_string_non_raising, holds_hello_reachable, by decide,
    (destroyed_exactly_once int_string holds_hello int_string_fits int_string_non_raising
      holds_hello_reachable 0).2.1⟩

end util

/-! ## Assignment from a value, and what the exception specifications do -/

namespace util

open details

/-- The state a returning converting construction leaves in the new object. -/
theorem value_ctor_returns (env : Alternatives) (w : World) (this : Loc) (T : Ty)
    (value : Nat) (s : Step) (h : value_ctor env w this T value = some s)
    (hr : s.raised = none) :
    ∃ type x, env.Args[get_index_v env.is_convertible T env.Args]? = some type ∧
      construct_from env T type value = some x ∧
      s.world.objs this = ⟨get_index_v env.is_convertible T env.Args, env.hash_code type, x⟩ := by
  unfold value_ctor at h
  split at h
  · simp only at h
    cases hty : get_type (get_index_v env.is_convertible T env.Args) env.Args with
    | none => simp [hty] at h
    | some a =>
        simp only [hty] at h
        cases hc : construct_from env T a value with
        | none =>
            simp only [hc, Option.some.injEq] at h
            subst h
            simp at hr
        | some x =>
            simp only [hc, Option.some.injEq] at h
            subst h
            exact ⟨a, x, by rw [← get_type_eq_getElem]; exact hty, hc, by simp⟩
  · simp at h

/-- Assignment from a temporary whose type is exactly an alternative: when it
returns, the variant is non-empty, its discriminant is the first position of
that type and `get` of that type yields the assigned value. -/
theorem value_assign_exact (env : Alternatives) (w : World) (n : Nat) (U : Nat) (x : Nat)
    (s : Step) (hfit : env.fits) (hmem : Ty.obj U ∈ env.Args)
    (h : value_assign env w (.named n) (deduce true U) x = some s) (hr : s.raised = none) :
    (s.world.objs (.named n)).index = get_index 0 (.obj U) env.Args ∧
    (s.world.objs (.named n)).empty = false ∧
    ∀ form, get_value env s.world (.obj U) form (.named n) = some x := by
  unfold value_assign at h
  simp only [deduce, if_true] at h
  cases hvc : value_ctor env w (.temp 0) (.obj U) x with
  | none => simp [hvc] at h
  | some s1 =>
      simp only [hvc] at h
      cases h1 : s1.raised with
      | some e =>
          simp only [h1, Option.some.injEq] at h
          subst h
          simp at hr
      | none =>
          simp only [h1, Option.some.injEq] at h
          subst h
          simp only at hr
          obtain ⟨type, x2, hty, hcf, hobj⟩ :=
            value_ctor_returns env w (.temp 0) (.obj U) x s1 hvc h1
          have hidx : get_index_v env.is_convertible (.obj U) env.Args =
              get_index 0 (.obj U) env.Args := get_index_v_mem _ _ _ hmem
          obtain ⟨k, hk, hget, _⟩ := get_index_mem 0 (.obj U) env.Args hmem
          rw [hidx] at hty hobj
          have hkk : get_index 0 (.obj U) env.Args = k := by omega
          rw [hkk] at hty hobj ⊢
          rw [hget] at hty
          have htype : type = .obj U := (Option.some.inj hty).symm
          subst htype
          have hx2 : x2 = x := by
            simp only [construct_from, if_true] at hcf
            split at hcf
            · simp at hcf
            · exact (Option.some.inj hcf).symm
          subst hx2
          have hklt : k < env.Args.length := (List.getElem?_eq_some.1 hget).1
          have hknp : k ≠ variant_npos := by
            unfold Alternatives.fits at hfit
            omega
          obtain ⟨p, _, _, _⟩ := move_assign_post env s1.world (.named n) (.temp 0) (by simp) hr
          have hfin : (dtor env (move_assign env s1.world (.named n) (.temp 0)).world
              (.temp 0)).objs (.named n) =
              (move_assign env s1.world (.named n) (.temp 0)).world.objs (.named n) := by
            rw [dtor_eq_clear]; exact clear_objs_ne _ _ _ _ (by simp)
          rw [hobj] at p
          simp only
          rw [hfin]
          have hi := p.1
          have hb := (p.2 hknp).2
          simp only at hi hb
          refine ⟨hi, by simp [variant.empty, hi, hknp], ?_⟩
          intro form
          rw [get_value_eq, hfin, hi, hb, hidx, hkk]
          simp [hknp]

/-- C12 (the code at the failing input): `struct B : A`, `variant<A, B> x; B b;
x = b;`. The deduced `Type` is `B&`, the temporary is built by the conversion
search and holds an `A`, so after the assignment `index()` is 0 although `B`
is at position 1 and `get<B>(x)` throws; assigned from a temporary `B` the
discriminant is 1. The assignments of the index test, `5` and then `"Hello"`
to a `variant<int, helper, std::string>` holding a `helper`, give 0 and 2. -/
theorem value_assign_named_derived :
    get_index 0 (.obj 1) base_derived.Args = 1 ∧
    (assigned_named_b.objs (.named 0)).index = 0 ∧
    get_ref_by_type base_derived assigned_named_b (.obj 1) .lvalue (.named 0) =
      .raised .bad_get ∧
    (assigned_temporary_b.objs (.named 0)).index = 1 ∧
    (index_b0.objs (.named 0)).index = 1 ∧
    (index_b1.objs (.named 0)).index = 0 ∧
    (index_b2.objs (.named 0)).index = 2 := by
  decide

/-- When constructing the temporary throws, the body of `operator=(Type&&)`
leaves with that exception and the assigned variant, like every named variant
and the log, is as it was. -/
theorem value_assign_atomic (env : Alternatives) (w : World) (n : Nat) (T : Ty) (object : Nat)
    (s1 : Step) (e : Exn) (h : value_ctor env w (.temp 0) T object = some s1)
    (hr : s1.raised = some e) :
    value_assign env w (.named n) T object = some ⟨s1.world, some e⟩ ∧
    (∀ m, s1.world.objs (.named m) = w.objs (.named m)) ∧ s1.world.log = w.log := by
  refine ⟨by simp [value_assign, h, hr],
    fun m => value_ctor_frame env w (.temp 0) T object s1 h _ (by simp), ?_⟩
  unfold value_ctor at h
  split at h
  · simp only at h
    cases hty : get_type (get_index_v env.is_convertible T env.Args) env.Args with
    | none => simp [hty] at h
    | some a =>
        simp only [hty] at h
        cases hc : construct_from env T a object with
        | none =>
            simp only [hc, Option.some.injEq] at h
            subst h
            rfl
        | some x =>
            simp only [hc, Option.some.injEq] at h
            subst h
            simp at hr
  · simp at h

/-- C16 (the code at the failing input): `variant<int, helper> v(3); helper
h(.., true); v = h;`. The deduced `Type` is `helper&`, for which the three
traits of the exception specification hold, so `operator=(Type&&)` is
`noexcept(true)`; the constructor of the temporary copies `h`, the copy
constructor throws, and the exception, which the body would hand on with `v`
unchanged, meets the `noexcept` boundary: `std::terminate` is called. -/
theorem value_assign_terminates :
    value_assign_noexcept helper_traits (.lref 1) = true ∧
    helper_traits.is_nothrow_constructible (.lref 1) = false ∧
    (value_assign int_helper holds_three_helper (.named 0) (.lref 1) 9).map Step.raised =
      some (some .element) ∧
    (after (value_assign int_helper holds_three_helper (.named 0) (.lref 1) 9)
      holds_three_helper).objs (.named 0) = holds_three_helper.objs (.named 0) ∧
    (value_assign_call helper_traits int_helper holds_three_helper (.named 0) (.lref 1)
      9).is_terminated = true := by
  decide

/-- Move-assignment between different non-empty variants when the move
constructor of the source's alternative throws: the target's value has been
destroyed, once, the target is empty with both sentinels, the source and all
other variants are as they were, and the body leaves with the exception. -/
theorem move_assign_basic (env : Alternatives) (w : World) (this other : Loc) (Ta Tb : Ty)
    (hne : this ≠ other) (ha : (w.objs this).empty = false)
    (hTa : env.Args[(w.objs this).index]? = some Ta)
    (hb : (w.objs other).empty = false)
    (hTb : env.Args[(w.objs other).index]? = some Tb)
    (hraise : env.move_raises Tb (w.objs other).buffer_ = true) :
    (move_assign env w this other).raised = some .element ∧
    (move_assign env w this other).world.log = w.log ++ [.destroyed this Ta] ∧
    (move_assign env w this other).world.objs this =
      ⟨variant_npos, variant_npos, (w.objs this).buffer_⟩ ∧
    (∀ l, l ≠ this → (move_assign env w this other).world.objs l = w.objs l) := by
  have hne2 : other ≠ this := fun e => hne e.symm
  have hc := clear_of_live env w this Ta ha hTa
  have h1 : (if !(w.objs this).empty then clear env w this else w) = clear env w this := by
    simp [ha]
  have h2 : (!((clear env w this).objs other).empty) = true := by
    rw [clear_objs_ne _ _ _ _ hne2]; simp [hb]
  have h3 : create env false env.Args ((clear env w this).objs other).index_ this other
      (clear env w this) = ⟨clear env w this, some .element⟩ := by
    simp only [variant.index] at hTb
    rw [create_eq, clear_objs_ne _ _ _ _ hne2, hTb]
    simp [construct, clear_objs_ne _ _ _ _ hne2, hraise]
  have hres : move_assign env w this other = ⟨clear env w this, some .element⟩ := by
    unfold move_assign
    rw [if_neg hne]
    simp only [h1]
    rw [if_pos h2, h3]
  rw [hres, hc]
  refine ⟨rfl, rfl, by simp, fun l hl => by simp [hl]⟩

/-- C20 (the code at the failing input): `variant<int, mover> a(3), b(m)` with
`m` a `mover` whose move constructor throws; `a = std::move(b)`. The body does
what the basic guarantee says (`a`'s `int` destroyed once, `a` empty with both
sentinels, `b` unchanged, the exception leaving the body), but every
alternative is nothrow-move-assignable, so the operator is `noexcept(true)`
and the exception ends in `std::terminate`. -/
theorem move_assign_terminates :
    move_assign_noexcept mover_traits int_mover = true ∧
    (move_assign int_mover mover_ab (.named 0) (.named 1)).raised = some .element ∧
    ((move_assign int_mover mover_ab (.named 0) (.named 1)).world.objs (.named 0)).index =
      variant_npos ∧
    (move_assign int_mover mover_ab (.named 0) (.named 1)).world.objs (.named 1) =
      mover_ab.objs (.named 1) ∧
    (move_assign_call mover_traits int_mover mover_ab (.named 0) (.named 1)).is_terminated =
      true := by
  decide

end util

/-! ## Copy-assignment moves, and alternatives that share a type token -/

namespace util

open details

theorem mover_a_reachable : Reachable int_mover mover_a :=
  reachable_value_ctor int_mover blank 0 (.obj 0) 3 Reachable.start (by decide) (by decide)

theorem mover_ab_reachable : Reachable int_mover mover_ab :=
  reachable_value_ctor int_mover mover_a 1 (deduce false 1) 9 mover_a_reachable (by decide)
    (by decide)

/-- C8 (as stated, refuted): `variant<int, mover> a(3), b(m); a = b;` with `m`
a `mover` whose move constructor throws. The world is reachable, both
discriminants are in range and no copy constructor throws; the copy of `b`
into the temporary succeeds, but the swap that follows move-constructs that
copy into `a`, the move throws, the assignment ends with the exception and
`a` is empty: `a.index()` is not `b.index()`. -/
theorem copy_assign_move_raises :
    Reachable int_mover mover_ab ∧
    (∀ t v, int_mover.copy_raises t v = false) ∧
    (copy_assign int_mover mover_ab (.named 0) (.named 1)).raised = some .element ∧
    ((copy_assign int_mover mover_ab (.named 0) (.named 1)).world.objs (.named 0)).index =
      variant_npos ∧
    (mover_ab.objs (.named 1)).index = 1 ∧
    ¬ ((∀ t v, int_mover.copy_raises t v = false) →
        copy_of int_mover mover_ab
          (copy_assign int_mover mover_ab (.named 0) (.named 1)).world (.named 1) (.named 0)) := by
  refine ⟨mover_ab_reachable, fun _ _ => rfl, by decide, by decide, by decide, ?_⟩
  intro h
  have h2 := (h (fun _ _ => rfl)).1
  revert h2
  decide

/-- C8 (amended): a copy preserves the value and leaves the source unchanged.
For the named variants `a` and `b`, with `a`'s discriminant in range and no
copy constructor of an alternative throwing: the copy-construction of `b`
from `a` returns; and when `b`'s discriminant is in range and no move
constructor of an alternative throws either, the copy-assignment `b = a`
returns from any prior state of `b`; each leaves `b` with `a`'s `index()`,
empty if `a` is, with `get<T>(b)` yielding what `get<T>(a)` yields, and `a`
as it was. -/
theorem copy_preserves_non_raising (env : Alternatives) (w : World) (a b : Nat)
    (hra : (w.objs (.named a)).in_range env.Args.length)
    (hc : ∀ t v, env.copy_raises t v = false) :
    (a ≠ b →
      (copy_ctor env w (.named b) (.named a)).raised = none ∧
      copy_of env w (copy_ctor env w (.named b) (.named a)).world (.named a) (.named b)) ∧
    ((w.objs (.named b)).in_range env.Args.length →
      (∀ t v, env.move_raises t v = false) →
      (copy_assign env w (.named b) (.named a)).raised = none ∧
      copy_of env w (copy_assign env w (.named b) (.named a)).world (.named a) (.named b)) := by
  constructor
  · intro hab
    have hne : Loc.named b ≠ Loc.named a := fun e => hab (Loc.named.inj e).symm
    have h := copy_ctor_total env w (.named b) (.named a) hra hc
    obtain ⟨p, pf⟩ := copy_ctor_post env w (.named b) (.named a) hne h
    exact ⟨h, copy_of_of_received env w _ _ _ p (pf _ (fun e => hne e.symm))⟩
  · intro hrb hm
    have h := copy_assign_total env w a b hra hrb hc hm
    obtain ⟨p, pa⟩ := copy_assign_post env w a b h
    exact ⟨h, copy_of_of_received env w _ _ _ p pa⟩

/-- C8 (amended) at `variant<int, std::string> a(3), b("Hello"); b = a;`: the
assignment returns and `b` is a copy of `a`. -/
theorem copy_preserves_non_raising_witness :
    (three_and_hello.objs (.named 0)).in_range int_string.Args.length ∧
    (∀ t v, int_string.copy_raises t v = false) ∧
    (three_and_hello.objs (.named 1)).in_range int_string.Args.length ∧
    (∀ t v, int_string.move_raises t v = false) ∧
    (copy_assign int_string three_and_hello (.named 1) (.named 0)).raised = none ∧
    copy_of int_string three_and_hello
      (copy_assign int_string three_and_hello (.named 1) (.named 0)).world
      (.named 0) (.named 1) :=
  ⟨Or.inr (by decide), fun _ _ => rfl, Or.inr (by decide), fun _ _ => rfl,
    (copy_preserves_non_raising int_string three_and_hello 0 1 (Or.inr (by decide))
      (fun _ _ => rfl)).2 (Or.inr (by decide)) (fun _ _ => rfl)⟩

/-- C11 (as stated, refuted): `const int c = 5; variant<int, const int>
v(std::move(c));`. The world is reachable and `v` holds the `const int` at
position 1, but `typeid` gives `int` and `const int` the same hash code: the
scan stops at `int`, the first alternative with that code, and `get<int>(v)`
throws `bad_get`, where a dispatch on the discriminant calls the overload
for `const int` on the live value. -/
theorem apply_visitor_shared_token :
    int_cint.fits ∧ int_cint.no_sentinel ∧ int_cint.Args ≠ [] ∧
    Reachable int_cint holds_const_int ∧
    (holds_const_int.objs (.named 0)).index = 1 ∧
    apply_visitor int_cint holds_const_int .lvalue (.named 0) = .raised .bad_get ∧
    dispatch_on_index int_cint holds_const_int (.named 0) =
      .call (.obj 1) ⟨.named 0, .obj 1⟩ ∧
    apply_visitor int_cint holds_const_int .lvalue (.named 0) ≠
      dispatch_on_index int_cint holds_const_int (.named 0) :=
  ⟨int_cint_fits, int_cint_no_sentinel, by decide, holds_const_int_reachable, by decide,
    by decide, by decide, by decide⟩

end util
